import Mathlib

/-!
# Verification development for terraform-provider-azuread

Shallow embedding of

* `vendor/github.com/manicminer/hamilton/base/base.go`
  (`buildUri`, `performRequest`, `containsStatusCode`), and
* `internal/services/applications/application_password_resource_msgraph.go`
  (credential create, read and delete),
* the V0 state upgrades of `application_password_resource.go` and
  `service_principal_password_resource.go`,
* `internal/services/applications/application_data_source_aadgraph.go`,
  `internal/services/serviceprincipals/service_principal_data_source_aadgraph.go`,
  `internal/services/users/user_data_source_msgraph.go` and
  `internal/services/users/user_data_source_aadgraph.go`,
* `internal/services/users/user_resource_aadgraph.go`
  (create, update, read and delete of a user),

together with the parts of the Go standard library these functions call
(`net/url`, `net/http` headers, `strings.TrimLeft`, `strings.Split`, `fmt`).

Go strings are byte sequences, so they are embedded as lists of bytes.
-/

set_option autoImplicit false

namespace Azuread

/-! ## Go strings -/

/-- A Go `string`: an immutable sequence of bytes. -/
abbrev GoString := List UInt8

/-- The bytes of a string literal of the Go source (UTF-8). -/
def go (s : String) : GoString := s.toUTF8.data.toList

/-- The byte of an ASCII character literal of the Go source. -/
def ch (c : Char) : UInt8 := c.toNat.toUInt8

/-- Go `strings.IndexByte`: position of the first `c` in `s`, `none` for `-1`. -/
def indexByte (c : UInt8) : GoString → Option Nat
  | [] => none
  | x :: xs => if x = c then some 0 else (indexByte c xs).map (· + 1)

/-- Go `strings.LastIndex` for a one-byte separator, `none` for `-1`. -/
def lastIndexByte (c : UInt8) : GoString → Option Nat
  | [] => none
  | x :: xs =>
    match lastIndexByte c xs with
    | some i => some (i + 1)
    | none => if x = c then some 0 else none

/-- Go `strings.HasPrefix`. -/
def hasPrefix : GoString → GoString → Bool
  | _, [] => true
  | [], _ :: _ => false
  | x :: xs, p :: ps => x == p && hasPrefix xs ps

/-- Go `strings.Index`: position of the first occurrence of `sub` in `s`. -/
def indexOf (sub : GoString) : GoString → Option Nat
  | [] => if sub.isEmpty then some 0 else none
  | x :: xs =>
    if hasPrefix (x :: xs) sub then some 0 else (indexOf sub xs).map (· + 1)

/-- Go `strings.Count` for a one-byte separator. -/
def countByte (c : UInt8) (s : GoString) : Nat := (s.filter (· == c)).length

/-- Go `strings.TrimLeft(s, cutset)` for a cutset of one ASCII byte: all leading
occurrences of the byte are removed. -/
def TrimLeft (s : GoString) (cut : UInt8) : GoString := s.dropWhile (· == cut)

/-- ASCII lower-casing, which is what `strings.ToLower` does on a URL scheme
(a scheme only holds ASCII letters, digits, `+`, `-` and `.`). -/
def toLowerByte (c : UInt8) : UInt8 :=
  if ch 'A' ≤ c ∧ c ≤ ch 'Z' then c + 32 else c

/-- Go `fmt.Sprintf("%d", n)` for an `int`. -/
def fmtInt (n : Int) : GoString := go (toString n)

/-! ## `net/url` -/

/-- The escaping modes of `net/url` (`type encoding int`). -/
inductive Encoding where
  | encodePath
  | encodePathSegment
  | encodeHost
  | encodeZone
  | encodeUserPassword
  | encodeQueryComponent
  | encodeFragment
deriving DecidableEq, Repr

/-- The errors `url.Parse` can return, by cause. -/
inductive ParseError where
  | invalidControlCharacter
  | missingProtocolScheme
  | firstPathSegmentColon
  | escapeError (s : GoString)
  | invalidHostError (s : GoString)
  | missingBracket
  | invalidPort (s : GoString)
  | invalidUserinfo
deriving DecidableEq, Repr

def isAlnum (c : UInt8) : Bool :=
  (ch 'a' ≤ c && c ≤ ch 'z') || (ch 'A' ≤ c && c ≤ ch 'Z') || (ch '0' ≤ c && c ≤ ch '9')

def ishex (c : UInt8) : Bool :=
  (ch '0' ≤ c && c ≤ ch '9') || (ch 'a' ≤ c && c ≤ ch 'f') || (ch 'A' ≤ c && c ≤ ch 'F')

def unhex (c : UInt8) : UInt8 :=
  if ch '0' ≤ c ∧ c ≤ ch '9' then c - ch '0'
  else if ch 'a' ≤ c ∧ c ≤ ch 'f' then c - ch 'a' + 10
  else if ch 'A' ≤ c ∧ c ≤ ch 'F' then c - ch 'A' + 10
  else 0

/-- The table `upperhex = "0123456789ABCDEF"`, indexed by a nibble. -/
def upperhex (n : UInt8) : UInt8 := (go "0123456789ABCDEF").getD n.toNat 0

/-- Go `shouldEscape(c, mode)`: whether byte `c` is written as `%XX` in `mode`. -/
def shouldEscape (c : UInt8) (mode : Encoding) : Bool :=
  if isAlnum c then false
  else if (mode = .encodeHost ∨ mode = .encodeZone) ∧ c ∈ go "!$&'()*+,;=:[]<>\"" then false
  else if c ∈ go "-_.~" then false
  else if c ∈ go "$&+,/:;=?@" ∧ mode = .encodePath then c == ch '?'
  else if c ∈ go "$&+,/:;=?@" ∧ mode = .encodePathSegment then
    c == ch '/' || c == ch ';' || c == ch ',' || c == ch '?'
  else if c ∈ go "$&+,/:;=?@" ∧ mode = .encodeUserPassword then
    c == ch '@' || c == ch '/' || c == ch '?' || c == ch ':'
  else if c ∈ go "$&+,/:;=?@" ∧ mode = .encodeQueryComponent then true
  else if c ∈ go "$&+,/:;=?@" ∧ mode = .encodeFragment then false
  else if mode = .encodeFragment ∧ c ∈ go "!()*" then false
  else true

/-- What `escape` writes for one byte. -/
def escapeByte (mode : Encoding) (c : UInt8) : GoString :=
  if c = ch ' ' ∧ mode = .encodeQueryComponent then [ch '+']
  else if shouldEscape c mode then [ch '%', upperhex (c >>> 4), upperhex (c &&& 15)]
  else [c]

/-- Go `escape(s, mode)`. When no byte needs escaping Go returns `s` itself, which
is what the byte-wise rewriting yields too. -/
def escape (s : GoString) (mode : Encoding) : GoString :=
  s.flatMap (escapeByte mode)

/-- First pass of Go `unescape`: the error it reports, if any. -/
def unescapeCheck (mode : Encoding) : GoString → Option ParseError
  | [] => none
  | [c] =>
    if c = ch '%' then some (.escapeError [c])
    else if (mode = .encodeHost ∨ mode = .encodeZone) ∧ c < 0x80 ∧ shouldEscape c .encodeHost then
      some (.invalidHostError [c])
    else none
  | [c, a] =>
    if c = ch '%' then some (.escapeError [c, a])
    else if (mode = .encodeHost ∨ mode = .encodeZone) ∧ c < 0x80 ∧ shouldEscape c .encodeHost then
      some (.invalidHostError [c])
    else unescapeCheck mode [a]
  | c :: a :: b :: rest =>
    if c = ch '%' then
      if !ishex a || !ishex b then some (.escapeError [c, a, b])
      else if mode = .encodeHost ∧ unhex a < 8 ∧ [c, a, b] ≠ go "%25" then
        some (.escapeError [c, a, b])
      else if mode = .encodeZone ∧ [c, a, b] ≠ go "%25" ∧ (unhex a <<< 4 ||| unhex b) ≠ ch ' '
          ∧ shouldEscape (unhex a <<< 4 ||| unhex b) .encodeHost then
        some (.escapeError [c, a, b])
      else unescapeCheck mode rest
    else if (mode = .encodeHost ∨ mode = .encodeZone) ∧ c < 0x80 ∧ shouldEscape c .encodeHost then
      some (.invalidHostError [c])
    else unescapeCheck mode (a :: b :: rest)

/-- Second pass of Go `unescape`: the decoded bytes of a string that passed the check. -/
def unescapeDecode (mode : Encoding) : GoString → GoString
  | [] => []
  | [c] => if c = ch '+' ∧ mode = .encodeQueryComponent then [ch ' '] else [c]
  | [c, a] =>
    (if c = ch '+' ∧ mode = .encodeQueryComponent then ch ' ' else c) :: unescapeDecode mode [a]
  | c :: a :: b :: rest =>
    if c = ch '%' then (unhex a <<< 4 ||| unhex b) :: unescapeDecode mode rest
    else (if c = ch '+' ∧ mode = .encodeQueryComponent then ch ' ' else c)
      :: unescapeDecode mode (a :: b :: rest)

/-- Go `unescape(s, mode)`. -/
def unescape (s : GoString) (mode : Encoding) : Except ParseError GoString :=
  match unescapeCheck mode s with
  | some e => .error e
  | none => .ok (unescapeDecode mode s)

/-- Go `validEncoded(s, mode)`. -/
def validEncoded (s : GoString) (mode : Encoding) : Bool :=
  s.all fun c => c ∈ go "!$&'()*+,;=:@" || c ∈ go "[]" || c == ch '%' || !shouldEscape c mode

/-- Go `url.Userinfo`. -/
structure Userinfo where
  username : GoString
  password : GoString
  passwordSet : Bool
deriving DecidableEq, Repr

/-- Go `url.URL`. -/
structure URL where
  Scheme : GoString := []
  Opaque : GoString := []
  User : Option Userinfo := none
  Host : GoString := []
  Path : GoString := []
  RawPath : GoString := []
  ForceQuery : Bool := false
  RawQuery : GoString := []
  Fragment : GoString := []
  RawFragment : GoString := []
deriving DecidableEq, Repr

/-- Go `getScheme`: `(scheme, rest)` or an error. -/
def getSchemeAux (rawURL : GoString) : Nat → GoString → Except ParseError (GoString × GoString)
  | _, [] => .ok ([], rawURL)
  | i, c :: cs =>
    if (ch 'a' ≤ c ∧ c ≤ ch 'z') ∨ (ch 'A' ≤ c ∧ c ≤ ch 'Z') then getSchemeAux rawURL (i + 1) cs
    else if (ch '0' ≤ c ∧ c ≤ ch '9') ∨ c = ch '+' ∨ c = ch '-' ∨ c = ch '.' then
      if i = 0 then .ok ([], rawURL) else getSchemeAux rawURL (i + 1) cs
    else if c = ch ':' then
      if i = 0 then .error .missingProtocolScheme else .ok (rawURL.take i, cs)
    else .ok ([], rawURL)

def getScheme (rawURL : GoString) : Except ParseError (GoString × GoString) :=
  getSchemeAux rawURL 0 rawURL

/-- Go `split(s, sep, cutc)` of `net/url`. -/
def split (s : GoString) (sep : UInt8) (cutc : Bool) : GoString × GoString :=
  match indexByte sep s with
  | none => (s, [])
  | some i => if cutc then (s.take i, s.drop (i + 1)) else (s.take i, s.drop i)

/-- Go `stringContainsCTLByte`. -/
def stringContainsCTLByte (s : GoString) : Bool := s.any fun b => b < ch ' ' || b == 0x7f

/-- Go `validOptionalPort`. -/
def validOptionalPort : GoString → Bool
  | [] => true
  | c :: rest => c == ch ':' && rest.all fun b => ch '0' ≤ b && b ≤ ch '9'

/-- Go `validUserinfo`. The Go loop ranges over runes; every rune it accepts is
ASCII, so a byte of `0x80` and above is refused like the rune it belongs to. -/
def validUserinfo (s : GoString) : Bool :=
  s.all fun r => isAlnum r || r ∈ go "-._:~!$&'()*+,;=%@"

/-- Go `parseHost`. -/
def parseHost (host : GoString) : Except ParseError GoString :=
  if hasPrefix host (go "[") then
    match lastIndexByte (ch ']') host with
    | none => .error .missingBracket
    | some i =>
      let colonPort := host.drop (i + 1)
      if !validOptionalPort colonPort then .error (.invalidPort colonPort)
      else
        match indexOf (go "%25") (host.take i) with
        | some zone =>
          match unescape (host.take zone) .encodeHost with
          | .error e => .error e
          | .ok host1 =>
            match unescape ((host.take i).drop zone) .encodeZone with
            | .error e => .error e
            | .ok host2 =>
              match unescape (host.drop i) .encodeHost with
              | .error e => .error e
              | .ok host3 => .ok (host1 ++ host2 ++ host3)
        | none => unescape host .encodeHost
  else
    match lastIndexByte (ch ':') host with
    | some i =>
      let colonPort := host.drop i
      if !validOptionalPort colonPort then .error (.invalidPort colonPort)
      else unescape host .encodeHost
    | none => unescape host .encodeHost

/-- Go `parseAuthority`: `(user, host)` or an error. -/
def parseAuthority (authority : GoString) : Except ParseError (Option Userinfo × GoString) :=
  match lastIndexByte (ch '@') authority with
  | none =>
    match parseHost authority with
    | .error e => .error e
    | .ok host => .ok (none, host)
  | some i =>
    match parseHost (authority.drop (i + 1)) with
    | .error e => .error e
    | .ok host =>
      let userinfo := authority.take i
      if !validUserinfo userinfo then .error .invalidUserinfo
      else if ch ':' ∉ userinfo then
        match unescape userinfo .encodeUserPassword with
        | .error e => .error e
        | .ok userinfo => .ok (some ⟨userinfo, [], false⟩, host)
      else
        let (username, password) := split userinfo (ch ':') true
        match unescape username .encodeUserPassword with
        | .error e => .error e
        | .ok username =>
          match unescape password .encodeUserPassword with
          | .error e => .error e
          | .ok password => .ok (some ⟨username, password, true⟩, host)

/-- Go `(*URL).setPath`. -/
def URL.setPath (u : URL) (p : GoString) : Except ParseError URL :=
  match unescape p .encodePath with
  | .error e => .error e
  | .ok path =>
    .ok { u with Path := path, RawPath := if p = escape path .encodePath then [] else p }

/-- Go `(*URL).setFragment`. -/
def URL.setFragment (u : URL) (f : GoString) : Except ParseError URL :=
  match unescape f .encodeFragment with
  | .error e => .error e
  | .ok frag =>
    .ok { u with Fragment := frag, RawFragment := if f = escape frag .encodeFragment then [] else f }

/-- The test `colon >= 0 && (slash < 0 || colon < slash)` on the positions of the
first `:` and the first `/` of `s`. -/
def colonInFirstSegment (s : GoString) : Bool :=
  match indexByte (ch ':') s, indexByte (ch '/') s with
  | some _, none => true
  | some colon, some slash => colon < slash
  | none, _ => false

/-- Go `parse(rawURL, viaRequest)` of `net/url` at `viaRequest = false`, the way
`url.Parse` calls it. -/
def parse (rawURL : GoString) : Except ParseError URL :=
  if stringContainsCTLByte rawURL then .error .invalidControlCharacter
  else if rawURL = go "*" then .ok { Path := go "*" }
  else
    match getScheme rawURL with
    | .error e => .error e
    | .ok (scheme, rest) =>
      let url : URL := { Scheme := scheme.map toLowerByte }
      let (rest, url) :=
        if rest.getLast? = some (ch '?') ∧ countByte (ch '?') rest = 1 then
          (rest.dropLast, { url with ForceQuery := true })
        else
          ((split rest (ch '?') true).1, { url with RawQuery := (split rest (ch '?') true).2 })
      if !hasPrefix rest (go "/") ∧ url.Scheme ≠ [] then
        -- rootless paths are opaque
        .ok { url with Opaque := rest }
      else if !hasPrefix rest (go "/") ∧ colonInFirstSegment rest then
        .error .firstPathSegmentColon
      else if (url.Scheme ≠ [] ∨ !hasPrefix rest (go "///")) ∧ hasPrefix rest (go "//") then
        let (authority, rest) := split (rest.drop 2) (ch '/') false
        match parseAuthority authority with
        | .error e => .error e
        | .ok (user, host) => URL.setPath { url with User := user, Host := host } rest
      else URL.setPath url rest

/-- Go `url.Parse`. -/
def Parse (rawURL : GoString) : Except ParseError URL :=
  let (u, frag) := split rawURL (ch '#') true
  match parse u with
  | .error e => .error e
  | .ok url => if frag = [] then .ok url else url.setFragment frag

/-- Go `(*Userinfo).String`. -/
def Userinfo.String (u : Userinfo) : GoString :=
  let s := escape u.username .encodeUserPassword
  if u.passwordSet then s ++ go ":" ++ escape u.password .encodeUserPassword else s

/-- The test `err == nil && p == want` on the result `(p, err)` of `unescape(raw, mode)`. -/
def unescapesTo (raw : GoString) (mode : Encoding) (want : GoString) : Bool :=
  match unescape raw mode with
  | .ok p => p == want
  | .error _ => false

/-- Go `(*URL).EscapedPath`. -/
def URL.EscapedPath (u : URL) : GoString :=
  if u.RawPath ≠ [] ∧ validEncoded u.RawPath .encodePath
      ∧ unescapesTo u.RawPath .encodePath u.Path then u.RawPath
  else if u.Path = go "*" then go "*"
  else escape u.Path .encodePath

/-- Go `(*URL).EscapedFragment`. -/
def URL.EscapedFragment (u : URL) : GoString :=
  if u.RawFragment ≠ [] ∧ validEncoded u.RawFragment .encodeFragment
      ∧ unescapesTo u.RawFragment .encodeFragment u.Fragment then u.RawFragment
  else escape u.Fragment .encodeFragment

/-- The part of Go `(*URL).String` written when `Opaque` is empty:
authority and path, appended to the buffer `buf`. -/
def URL.hierPart (u : URL) (buf : GoString) : GoString :=
  let buf :=
    if u.Scheme ≠ [] ∨ u.Host ≠ [] ∨ u.User ≠ none then
      let buf := if u.Host ≠ [] ∨ u.Path ≠ [] ∨ u.User ≠ none then buf ++ go "//" else buf
      let buf := match u.User with
        | some ui => buf ++ ui.String ++ go "@"
        | none => buf
      if u.Host ≠ [] then buf ++ escape u.Host .encodeHost else buf
    else buf
  let path := u.EscapedPath
  let buf := if path ≠ [] ∧ path.head? ≠ some (ch '/') ∧ u.Host ≠ [] then buf ++ go "/" else buf
  let buf := if buf = [] ∧ colonInFirstSegment path then buf ++ go "./" else buf
  buf ++ path

/-- Go `(*URL).String`. -/
def URL.String (u : URL) : GoString :=
  let buf := if u.Scheme ≠ [] then u.Scheme ++ go ":" else []
  let buf := if u.Opaque ≠ [] then buf ++ u.Opaque else u.hierPart buf
  let buf := if u.ForceQuery ∨ u.RawQuery ≠ [] then buf ++ go "?" ++ u.RawQuery else buf
  if u.Fragment ≠ [] then buf ++ go "#" ++ u.EscapedFragment else buf

/-- Go `url.Values`, a `map[string][]string`: association list with distinct keys. -/
abbrev Values := List (GoString × List GoString)

/-- Byte-wise lexicographic `<` on Go strings (the order of `sort.Strings`). -/
def strLt : GoString → GoString → Bool
  | [], [] => false
  | [], _ :: _ => true
  | _ :: _, [] => false
  | a :: as, b :: bs => a < b || (a == b && strLt as bs)

/-- Insertion of one map entry into a key-sorted list of entries. -/
def insertByKey (e : GoString × List GoString) : Values → Values
  | [] => [e]
  | x :: xs => if strLt e.1 x.1 then e :: x :: xs else x :: insertByKey e xs

/-- Entries of the map in the order of `sort.Strings(keys)`. -/
def sortByKey (v : Values) : Values := v.foldr insertByKey []

/-- Go `url.QueryEscape`. -/
def QueryEscape (s : GoString) : GoString := escape s .encodeQueryComponent

/-- Go `Values.Encode` on a non-nil map: `key=value` pairs sorted by key, joined by `&`. -/
def Values.Encode (v : Values) : GoString :=
  (sortByKey v).foldl
    (fun buf kv =>
      kv.2.foldl
        (fun buf val =>
          (if buf ≠ [] then buf ++ go "&" else buf) ++ QueryEscape kv.1 ++ go "=" ++ QueryEscape val)
        buf)
    []

/-! ## `net/http` and `oauth2`, as far as `performRequest` uses them -/

/-- A Go `error` value: a failure of `url.Parse`, an error with its message, or an
error built by `fmt.Errorf` from a format and its arguments (strings, shown with
`%q`, or an error, shown with `%s`), which are kept unrendered. -/
inductive Error where
  | parse (e : ParseError)
  | text (msg : GoString)
  | errorf (format : GoString) (args : List GoString)
  | wrapf (format : GoString) (err : Error)
deriving DecidableEq, Repr

/-- Go `http.Header`, a `map[string][]string` keyed by canonical header names. The
keys written by `performRequest` (`Accept`, `Content-Type`, `User-Agent`,
`Authorization`) are in canonical form already. -/
structure Header where
  entries : List (GoString × List GoString)
deriving DecidableEq, Repr

/-- The map after `m[key] = vs`. -/
def putEntry (key : GoString) (vs : List GoString) :
    List (GoString × List GoString) → List (GoString × List GoString)
  | [] => [(key, vs)]
  | (k, v) :: rest => if k = key then (key, vs) :: rest else (k, v) :: putEntry key vs rest

/-- The slice `h[key]` (empty when the key is absent). -/
def Header.Values (h : Header) (key : GoString) : List GoString :=
  match h.entries.find? (fun e => e.1 == key) with
  | some e => e.2
  | none => []

/-- Go `Header.Get`: the first value of the key, or `""`. -/
def Header.Get (h : Header) (key : GoString) : GoString :=
  match h.Values key with
  | [] => []
  | v :: _ => v

/-- Go `Header.Add`: `h[key] = append(h[key], value)`. -/
def Header.Add (h : Header) (key value : GoString) : Header :=
  ⟨putEntry key (h.Values key ++ [value]) h.entries⟩

/-- Go `Header.Set`: `h[key] = []string{value}`. -/
def Header.Set (h : Header) (key value : GoString) : Header :=
  ⟨putEntry key [value] h.entries⟩

/-- Go `http.Request`. -/
structure Request where
  Method : GoString
  URL : GoString
  Header : Header
  Body : GoString
deriving DecidableEq, Repr

/-- The body of a response, an `io.ReadCloser`: the bytes still to be read and the
error a read runs into after them (`none` for a clean end of stream). -/
structure Body where
  unread : GoString
  failure : Option Error
deriving DecidableEq, Repr

/-- Go `ioutil.ReadAll`: everything read until end of stream or the first error,
together with that error. -/
def ReadAll (b : Body) : GoString × Option Error := (b.unread, b.failure)

/-- Go `http.Response`. -/
structure Response where
  StatusCode : Int
  Header : Header
  Body : Body
deriving DecidableEq, Repr

/-- Go `oauth2.Token`, seen through `SetAuthHeader`: `authorization` is the header
value `t.Type() + " " + t.AccessToken`. -/
structure Token where
  authorization : GoString
deriving DecidableEq, Repr

/-- Go `(*oauth2.Token).SetAuthHeader`. -/
def Token.SetAuthHeader (t : Token) (r : Request) : Request :=
  { r with Header := r.Header.Set (go "Authorization") t.authorization }

/-- The interface `auth.Authorizer`: what a call of `Token()` returns. -/
structure Authorizer where
  Token : Except Error Token

/-- The type `GraphClient = *http.Client`: what `Do` returns for a request. -/
structure GraphClient where
  Do : Request → Except Error Response

/-! ## `hamilton/base` (base.go) -/

def DefaultEndpoint : GoString := go "https://graph.microsoft.com"
def Version10 : GoString := go "v1.0"
def VersionBeta : GoString := go "beta"

abbrev ValidStatusFunc := Response → Bool

/-- The interface `HttpRequestInput`, by the values of its two getters. A nil slice
is the empty list, a nil func is `none`. -/
structure HttpRequestInput where
  GetValidStatusCodes : List Int
  GetValidStatusFunc : Option ValidStatusFunc

structure Uri where
  Entity : GoString
  Params : Option Values
  HasTenantId : Bool

structure Client where
  ApiVersion : GoString
  Endpoint : GoString
  TenantId : GoString
  UserAgent : GoString
  Authorizer : Option Authorizer
  httpClient : GraphClient

/-- The value of `url` in `buildUri` right before `url.String()` is returned
(base.go lines 54-65). -/
def Client.buildUrl (c : Client) (uri : Uri) : Except ParseError URL :=
  match Parse c.Endpoint with
  | .error err => .error err
  | .ok url =>
    let url := { url with Path := go "/" ++ c.ApiVersion }
    let url := if uri.HasTenantId then { url with Path := url.Path ++ go "/" ++ c.TenantId } else url
    let url := { url with Path := url.Path ++ go "/" ++ TrimLeft uri.Entity (ch '/') }
    match uri.Params with
    | some params => .ok { url with RawQuery := Values.Encode params }
    | none => .ok url

/-- The function `buildUri` of base.go: the pair `(string, error)` it returns. -/
def Client.buildUri (c : Client) (uri : Uri) : GoString × Option Error :=
  match c.buildUrl uri with
  | .error err => ([], some (.parse err))
  | .ok url => (url.String, none)

/-- The function `containsStatusCode` of base.go. -/
def containsStatusCode : List Int → Int → Bool
  | [], _ => false
  | v :: expected, actual => if actual = v then true else containsStatusCode expected actual

/-- The calls `performRequest` makes on its collaborators, in order. -/
inductive Event where
  | Token
  | Do (req : Request)
  | ReadAll
  | Close
deriving DecidableEq, Repr

/-- What `performRequest` returns, `(*http.Response, int, error)`, and the calls it made. -/
structure Result where
  resp : Option Response
  status : Int
  err : Option Error
  trace : List Event
deriving DecidableEq, Repr

/-- Lines 80-85 of `performRequest`: the headers added to the request. -/
def Client.addHeaders (c : Client) (req : Request) : Request :=
  let req := { req with Header := req.Header.Add (go "Accept") (go "application/json") }
  let req := { req with
    Header := req.Header.Add (go "Content-Type") (go "application/json; charset=utf-8") }
  if c.UserAgent ≠ [] then { req with Header := req.Header.Add (go "User-Agent") c.UserAgent }
  else req

/-- The test `f != nil && f(resp)` on the input's status predicate. -/
def acceptedByFunc (input : HttpRequestInput) (resp : Response) : Bool :=
  match input.GetValidStatusFunc with
  | some f => f resp
  | none => false

/-- Lines 80-104 of `performRequest`: headers, dispatch and validation, for the
request `req` as it stands after the token step; `trace` holds the calls made so far. -/
def Client.dispatch (c : Client) (req : Request) (input : HttpRequestInput)
    (trace : List Event) : Result :=
  let req := c.addHeaders req
  match c.httpClient.Do req with
  | .error err => ⟨none, 0, some err, trace ++ [.Do req]⟩
  | .ok resp =>
    let status := resp.StatusCode
    if !containsStatusCode input.GetValidStatusCodes status then
      if acceptedByFunc input resp then
        ⟨some resp, status, none, trace ++ [.Do req]⟩
      else
        let respBody := (ReadAll resp.Body).1
        ⟨none, status,
          some (.text (go "unexpected status " ++ fmtInt resp.StatusCode
            ++ go " with response: " ++ respBody)),
          trace ++ [.Do req, .ReadAll, .Close]⟩
    else ⟨some resp, status, none, trace ++ [.Do req]⟩

/-- The function `performRequest` of base.go. -/
def Client.performRequest (c : Client) (req : Request) (input : HttpRequestInput) : Result :=
  match c.Authorizer with
  | some authorizer =>
    match authorizer.Token with
    | .error err => ⟨none, 0, some err, [.Token]⟩
    | .ok token => c.dispatch (token.SetAuthHeader req) input [.Token]
  | none => c.dispatch req input []

/-- A response with status 404 and a short body. -/
def notFoundResponse : Response := ⟨404, ⟨[]⟩, ⟨go "gone", none⟩⟩

/-- A response with status 401. -/
def unauthorizedResponse : Response := ⟨401, ⟨[]⟩, ⟨go "expired", none⟩⟩

/-- A request without headers. -/
def plainRequest : Request := ⟨go "GET", go "https://graph.microsoft.com/v1.0/users", ⟨[]⟩, []⟩

/-- A client without authorizer whose HTTP client answers every request with 404. -/
def notFoundClient : Client :=
  ⟨Version10, DefaultEndpoint, go "t1", go "ua", none, ⟨fun _ => .ok notFoundResponse⟩⟩

/-- An operation input that accepts status 200 only. -/
def okOnly : HttpRequestInput := ⟨[200], none⟩

/-- An operation input that accepts status 200, and a 404 through its predicate. -/
def okOrNotFound : HttpRequestInput := ⟨[200], some fun resp => resp.StatusCode == 404⟩

/-- The path `buildUri` assigns to the URL: `/apiVersion[/tenantId]/entity`, the
entity without its leading slashes. -/
def joinedPath (c : Client) (uri : Uri) : GoString :=
  go "/" ++ c.ApiVersion ++ (if uri.HasTenantId then go "/" ++ c.TenantId else [])
    ++ go "/" ++ TrimLeft uri.Entity (ch '/')

/-- The URI in the words of the specification, `root/apiVersion[/tenantId]/path[?query]`,
with the root kept as supplied. -/
def specUri (c : Client) (uri : Uri) : GoString :=
  c.Endpoint ++ go "/" ++ c.ApiVersion ++ (if uri.HasTenantId then go "/" ++ c.TenantId else [])
    ++ go "/" ++ uri.Entity
    ++ (match uri.Params with
        | some params => go "?" ++ Values.Encode params
        | none => [])

/-- A client whose endpoint root carries a path. -/
def pathRootClient : Client :=
  ⟨Version10, go "https://example.com/graph", go "t1", [], none, ⟨fun _ => .ok notFoundResponse⟩⟩

/-- A client whose endpoint root has no scheme. -/
def relativeRootClient : Client :=
  ⟨Version10, go "graph.microsoft.com", go "t1", [], none, ⟨fun _ => .ok notFoundResponse⟩⟩

/-- A client whose endpoint root has a blank in the host. -/
def badRootClient : Client :=
  ⟨Version10, go "https://graph microsoft.com", go "t1", [], none, ⟨fun _ => .ok notFoundResponse⟩⟩

/-- A client on the default endpoint with an empty tenant id. -/
def noTenantClient : Client :=
  ⟨Version10, DefaultEndpoint, [], [], none, ⟨fun _ => .ok notFoundResponse⟩⟩

/-- The entity `users`, no query, no tenant segment. -/
def usersUri : Uri := ⟨go "users", none, false⟩

/-- The entity `/users` under the tenant segment, with a `$top` query. -/
def tenantUsersUri : Uri := ⟨go "/users", some [(go "$top", [go "5"])], true⟩

/-- Whether a path holds two slashes in a row. -/
def hasDoubleSlash : GoString → Bool
  | a :: b :: rest => (a == ch '/' && b == ch '/') || hasDoubleSlash (b :: rest)
  | _ => false

/-- A segment that can be joined by single slashes: not empty, no slash at either
end, no two slashes in a row. -/
def cleanSegment (s : GoString) : Prop :=
  s ≠ [] ∧ s.head? ≠ some (ch '/') ∧ s.getLast? ≠ some (ch '/') ∧ hasDoubleSlash s = false

instance (s : GoString) : Decidable (cleanSegment s) := by
  unfold cleanSegment
  infer_instance

/-- A client on the default endpoint with tenant id `t1`. -/
def tenantClient : Client :=
  ⟨Version10, DefaultEndpoint, go "t1", [], none, ⟨fun _ => .ok notFoundResponse⟩⟩

/-- The URL built for `tenantClient` and `tenantUsersUri`. -/
def tenantUsersUrl : URL :=
  { Scheme := go "https", Host := go "graph.microsoft.com", Path := go "/v1.0/t1/users",
    RawQuery := go "%24top=5" }

/-- The event is a call of `Authorizer.Token()`. -/
def isToken : Event → Bool
  | .Token => true
  | _ => false

/-- The event is a call of `httpClient.Do`. -/
def isDo : Event → Bool
  | .Do _ => true
  | _ => false

/-- A client whose authorizer fails and whose HTTP client answers 404. -/
def failingTokenClient : Client :=
  { notFoundClient with Authorizer := some ⟨.error (.text (go "no token"))⟩ }

/-- A client whose authorizer yields a bearer token and whose HTTP client answers 401. -/
def bearerClient : Client :=
  { notFoundClient with
    Authorizer := some ⟨.ok ⟨go "Bearer abc"⟩⟩
    httpClient := ⟨fun _ => .ok unauthorizedResponse⟩ }

/-- A client without authorizer whose HTTP client fails at the network level. -/
def offlineClient : Client :=
  { notFoundClient with httpClient := ⟨fun _ => .error (.text (go "dial tcp: timeout"))⟩ }

/-- A request that already carries an `Accept` header. -/
def htmlRequest : Request :=
  { plainRequest with Header := ⟨[(go "Accept", [go "text/html"])]⟩ }

/-! ## Password credentials of an application (application_password_resource_msgraph.go) -/

/-- Go `time.Time`, by its rendering `Format(time.RFC3339)`. -/
structure Time where
  rfc3339 : GoString
deriving DecidableEq, Repr

/-- The type `models.PasswordCredential` of hamilton, by the fields the resource uses. -/
structure PasswordCredential where
  KeyId : Option GoString
  DisplayName : Option GoString
  StartDateTime : Option Time
  EndDateTime : Option Time
deriving DecidableEq, Repr

/-- The type `models.Application` of hamilton, by the fields the resource uses. -/
structure Application where
  ID : Option GoString
  PasswordCredentials : Option (List PasswordCredential)
deriving DecidableEq, Repr

/-- The triple `(app, status, err)` returned by the client's `Get`: an application
when `err` is nil, otherwise the status and the error. -/
inductive GetResult where
  | ok (app : Application) (status : Int)
  | failed (status : Int) (err : Error)
deriving DecidableEq, Repr

/-- The applications client `meta.(*clients.Client).Applications.MsClient` over a
backend in state `σ`: `Get` and `Update` with the backend state after the call. -/
structure ApplicationsClient (σ : Type) where
  Get : σ → GoString → GetResult × σ
  Update : σ → Application → (Int × Option Error) × σ

/-- A Go `interface{}` value as found in decoded JSON. -/
inductive Dyn where
  | nil
  | string (s : GoString)
  | bool (b : Bool)
  | number (n : Int)
  | other (description : GoString)
deriving DecidableEq, Repr

/-- A value handed to `tf.Set`: a string, a bool, a pointer to one of them, a
`[]string` or a pointer to one, an `interface{}`, a value of an SDK type (kept
opaque), or the result of a flatten helper that is not part of the sources, kept as
the helper's name and its argument. -/
inductive Value where
  | string (s : GoString)
  | stringPtr (p : Option GoString)
  | bool (b : Bool)
  | boolPtr (p : Option Bool)
  | strings (l : List GoString)
  | stringsPtr (p : Option (List GoString))
  | any (v : Dyn)
  | sdk (v : Option GoString)
  | flattened (helper : GoString) (arg : Value)
deriving DecidableEq, Repr

/-- The type `schema.ResourceData`: the resource handle and the attributes. -/
structure ResourceData where
  id : GoString
  attrs : List (GoString × Value)
deriving DecidableEq, Repr

/-- The call `d.Get(key).(string)`: the string attribute, `""` when unset. -/
def ResourceData.GetString (d : ResourceData) (key : GoString) : GoString :=
  match d.attrs.find? (fun e => e.1 == key) with
  | some (_, .string s) => s
  | some (_, .stringPtr (some s)) => s
  | _ => []

/-- The call `d.SetId(id)`. -/
def ResourceData.SetId (d : ResourceData) (id : GoString) : ResourceData := { d with id := id }

/-- The type `parse.CredentialId`, by the fields the resource reads. -/
structure CredentialId where
  ObjectId : GoString
  KeyType : GoString
  KeyId : GoString
deriving DecidableEq, Repr

/-- A `diag.Diagnostics` value as built by the helpers of `internal/tf`, which are
recorded by name with their arguments (format string and format arguments apart). -/
inductive Diag where
  | ErrorDiagPathF (err : Option Error) (attr : GoString) (format : GoString)
      (args : List GoString)
  | ErrorDiagF (err : Option Error) (format : GoString) (args : List GoString)
  | ImportAsExistsDiag (resourceName : GoString) (id : GoString)
deriving DecidableEq, Repr

/-- An error of `msgraph.PasswordCredentialForResource`; `attr` is `some` of
`kerr.Attr()` when the error is a `msgraph.CredentialError`. -/
structure CredentialFailure where
  err : Error
  attr : Option GoString
deriving DecidableEq, Repr

/-- What the resource functions take from outside this file: the client, the
constant `applicationResourceName`, and the helpers of the packages
`internal/helpers/msgraph`, `internal/services/applications/parse` and `internal/tf`. -/
structure Env (σ : Type) where
  client : ApplicationsClient σ
  applicationResourceName : GoString
  PasswordCredentialForResource : ResourceData → Except CredentialFailure PasswordCredential
  NewCredentialID : GoString → GoString → GoString → CredentialId
  String : CredentialId → GoString
  PasswordID : GoString → Except Error CredentialId
  Set : ResourceData → GoString → Value → Except Diag ResourceData

/-- The calls a resource function makes on the lock registry and on the backend. -/
inductive Op where
  | LockByName (name key : GoString)
  | UnlockByName (name key : GoString)
  | Get (id : GoString)
  | Update (app : Application)
deriving DecidableEq, Repr

/-- How a resource function ends: it returns diagnostics (`none` for nil), or it
stops on a nil pointer dereference, on a failed type assertion, or on an index out
of range. -/
inductive Exit where
  | returned (diags : Option Diag)
  | nilDereference
  | typeAssertion
  | indexOutOfRange
deriving DecidableEq, Repr

/-- A run of a resource function: how it ended, the resource data and the backend
state it leaves, and the calls it made, in order. -/
structure Run (σ : Type) where
  exit : Exit
  d : ResourceData
  backend : σ
  trace : List Op

/-- The successive calls `tf.Set(d, key, value)` of a read, stopping at the first
one that returns diagnostics. -/
def setAll {σ : Type} (env : Env σ) : ResourceData → List (GoString × Value) →
    Except Diag ResourceData
  | d, [] => .ok d
  | d, (key, value) :: rest =>
    match env.Set d key value with
    | .error dg => .error dg
    | .ok d => setAll env d rest

/-- The value of `startDate` / `endDate` in the read: the formatted time, `""` for nil. -/
def formatDate : Option Time → GoString
  | some v => v.rfc3339
  | none => []

/-- The function `applicationPasswordResourceReadMsGraph`. -/
def applicationPasswordResourceReadMsGraph {σ : Type} (env : Env σ) (d : ResourceData)
    (backend : σ) : Run σ :=
  match env.PasswordID d.id with
  | .error err =>
    ⟨.returned (some (.ErrorDiagPathF (some err) (go "id")
      (go "Parsing password credential with ID %q") [d.id])), d, backend, []⟩
  | .ok id =>
    match env.client.Get backend id.ObjectId with
    | (.failed status err, backend) =>
      if status = 404 then
        ⟨.returned (some (.ErrorDiagPathF none (go "application_object_id")
          (go "Application with object ID %q was not found") [id.ObjectId])),
          d, backend, [.Get id.ObjectId]⟩
      else
        ⟨.returned (some (.ErrorDiagPathF (some err) (go "application_object_id")
          (go "Retrieving application with object ID %q") [id.ObjectId])),
          d, backend, [.Get id.ObjectId]⟩
    | (.ok app _, backend) =>
      match (app.PasswordCredentials.getD []).find? (fun cred => cred.KeyId == some id.KeyId) with
      | none => ⟨.returned none, d.SetId [], backend, [.Get id.ObjectId]⟩
      | some credential =>
        match setAll env d
          [(go "application_object_id", .string id.ObjectId),
           (go "key_id", .string id.KeyId),
           (go "display_name", .stringPtr credential.DisplayName),
           (go "description", .stringPtr credential.DisplayName),
           (go "start_date", .string (formatDate credential.StartDateTime)),
           (go "end_date", .string (formatDate credential.EndDateTime))] with
        | .error dg => ⟨.returned (some dg), d, backend, [.Get id.ObjectId]⟩
        | .ok d => ⟨.returned none, d, backend, [.Get id.ObjectId]⟩

/-- The loop of lines 47-52 over the credentials still to visit, `newCredentials`
being the slice built so far: `none` when an entry has the candidate's key (the
early return), otherwise the slice after the loop. -/
def copyCredentials (keyId : GoString) :
    List PasswordCredential → List PasswordCredential → Option (List PasswordCredential)
  | [], newCredentials => some newCredentials
  | cred :: rest, newCredentials =>
    if cred.KeyId = some keyId then none
    else copyCredentials keyId rest (newCredentials ++ [cred])

/-- The function `applicationPasswordResourceCreateMsGraph`. The deferred
`UnlockByName` is the last call of every path that took the lock. -/
def applicationPasswordResourceCreateMsGraph {σ : Type} (env : Env σ) (d : ResourceData)
    (backend : σ) : Run σ :=
  let objectId := d.GetString (go "application_object_id")
  match env.PasswordCredentialForResource d with
  | .error err =>
    ⟨.returned (some (.ErrorDiagPathF (some err.err) (err.attr.getD [])
      (go "Generating password credentials for application with object ID %q") [objectId])),
      d, backend, []⟩
  | .ok credential =>
    match credential.KeyId with
    | none => ⟨.nilDereference, d, backend, []⟩
    | some keyId =>
      let id := env.NewCredentialID objectId (go "password") keyId
      let lock := Op.LockByName env.applicationResourceName id.ObjectId
      let unlock := Op.UnlockByName env.applicationResourceName id.ObjectId
      match env.client.Get backend id.ObjectId with
      | (.failed status err, backend) =>
        if status = 404 then
          ⟨.returned (some (.ErrorDiagPathF none (go "application_object_id")
            (go "Application with object ID %q was not found") [id.ObjectId])),
            d, backend, [lock, .Get id.ObjectId, unlock]⟩
        else
          ⟨.returned (some (.ErrorDiagPathF (some err) (go "application_object_id")
            (go "Retrieving application with object ID %q") [id.ObjectId])),
            d, backend, [lock, .Get id.ObjectId, unlock]⟩
      | (.ok app _, backend) =>
        match copyCredentials keyId (app.PasswordCredentials.getD []) [] with
        | none =>
          ⟨.returned (some (.ImportAsExistsDiag (go "azuread_application_password")
            (env.String id))), d, backend, [lock, .Get id.ObjectId, unlock]⟩
        | some newCredentials =>
          let newCredentials := newCredentials ++ [credential]
          let properties : Application :=
            { ID := some id.ObjectId, PasswordCredentials := some newCredentials }
          match env.client.Update backend properties with
          | ((_, some err), backend) =>
            ⟨.returned (some (.ErrorDiagF (some err)
              (go "Adding password for application with object ID %q") [id.ObjectId])),
              d, backend, [lock, .Get id.ObjectId, .Update properties, unlock]⟩
          | ((_, none), backend) =>
            let read := applicationPasswordResourceReadMsGraph env (d.SetId (env.String id)) backend
            { read with
              trace := [lock, .Get id.ObjectId, .Update properties] ++ read.trace ++ [unlock] }

/-- Go `strings.Split(s, sep)` for a one-byte separator. -/
def splitByte (sep : UInt8) : GoString → List GoString
  | [] => [[]]
  | c :: rest =>
    match splitByte sep rest with
    | [] => [[]]
    | part :: parts => if c = sep then [] :: part :: parts else (c :: part) :: parts

/-- An in-memory directory: `Get` finds the application by id (404 otherwise),
`Update` replaces the password credentials of the application with that id. -/
def fakeClient : ApplicationsClient (List Application) where
  Get := fun apps id =>
    match apps.find? (fun a => a.ID == some id) with
    | some app => (.ok app 200, apps)
    | none => (.failed 404 (.text (go "not found")), apps)
  Update := fun apps properties =>
    if apps.any (fun a => a.ID == properties.ID) then
      ((204, none), apps.map fun a =>
        if a.ID == properties.ID then
          { a with PasswordCredentials := properties.PasswordCredentials }
        else a)
    else ((404, some (.text (go "not found"))), apps)

/-- An environment over the fake backend: the candidate takes its key from the
attribute `key_id`, handles read `parent/kind/key`, and `Set` stores the value. -/
def fakeEnv : Env (List Application) where
  client := fakeClient
  applicationResourceName := go "azuread_application"
  PasswordCredentialForResource := fun d =>
    .ok ⟨some (d.GetString (go "key_id")), some (go "terraform"), none, none⟩
  NewCredentialID := fun objectId keyType keyId => ⟨objectId, keyType, keyId⟩
  String := fun id => id.ObjectId ++ go "/" ++ id.KeyType ++ go "/" ++ id.KeyId
  PasswordID := fun idString =>
    match splitByte (ch '/') idString with
    | [objectId, keyType, keyId] =>
      if keyType = go "password" then .ok ⟨objectId, keyType, keyId⟩
      else .error (.text (go "unexpected credential type"))
    | _ => .error (.text (go "unexpected ID format"))
  Set := fun d key value => .ok { d with attrs := d.attrs.filter (fun e => e.1 != key) ++ [(key, value)] }

/-- The password credential with key `k` and no other field. -/
def credentialOf (k : String) : PasswordCredential := ⟨some (go k), none, none, none⟩

/-- The directory holding application `p1` with the one credential `k0`. -/
def p1Directory : List Application := [⟨some (go "p1"), some [credentialOf "k0"]⟩]

/-- The configuration asking for a credential with key `k` on application `p1`. -/
def p1Config (k : String) : ResourceData :=
  ⟨[], [(go "application_object_id", .string (go "p1")), (go "key_id", .string (go k))]⟩

/-- The event is an `Update` sent to the backend. -/
def isUpdate : Op → Bool
  | .Update _ => true
  | _ => false

/-- The loop of lines 159-163 over the credentials still to visit, `newCredentials`
being the slice built so far: an entry is appended when its key id is non-nil and
differs from the handle's key. -/
def keepCredentials (keyId : GoString) :
    List PasswordCredential → List PasswordCredential → List PasswordCredential
  | [], newCredentials => newCredentials
  | cred :: rest, newCredentials =>
    match cred.KeyId with
    | some k =>
      if k ≠ keyId then keepCredentials keyId rest (newCredentials ++ [cred])
      else keepCredentials keyId rest newCredentials
    | none => keepCredentials keyId rest newCredentials

/-- The function `applicationPasswordResourceDeleteMsGraph`. The deferred
`UnlockByName` is the last call of every path that took the lock. -/
def applicationPasswordResourceDeleteMsGraph {σ : Type} (env : Env σ) (d : ResourceData)
    (backend : σ) : Run σ :=
  match env.PasswordID d.id with
  | .error err =>
    ⟨.returned (some (.ErrorDiagPathF (some err) (go "id")
      (go "Parsing password credential with ID %q") [d.id])), d, backend, []⟩
  | .ok id =>
    let lock := Op.LockByName env.applicationResourceName id.ObjectId
    let unlock := Op.UnlockByName env.applicationResourceName id.ObjectId
    match env.client.Get backend id.ObjectId with
    | (.failed status err, backend) =>
      if status = 404 then
        ⟨.returned none, d, backend, [lock, .Get id.ObjectId, unlock]⟩
      else
        ⟨.returned (some (.ErrorDiagPathF (some err) (go "application_object_id")
          (go "Retrieving application with object ID %q") [id.ObjectId])),
          d, backend, [lock, .Get id.ObjectId, unlock]⟩
    | (.ok app _, backend) =>
      let newCredentials := keepCredentials id.KeyId (app.PasswordCredentials.getD []) []
      let properties : Application :=
        { ID := some id.ObjectId, PasswordCredentials := some newCredentials }
      match env.client.Update backend properties with
      | ((_, some err), backend) =>
        ⟨.returned (some (.ErrorDiagF (some err)
          (go "Removing password credential %q from application with object ID %q")
          [id.KeyId, id.ObjectId])),
          d, backend, [lock, .Get id.ObjectId, .Update properties, unlock]⟩
      | ((_, none), backend) =>
        ⟨.returned none, d, backend, [lock, .Get id.ObjectId, .Update properties, unlock]⟩

/-- The call is a `Get` or an `Update` on the backend. -/
def isBackendCall : Op → Bool
  | .Get _ => true
  | .Update _ => true
  | _ => false

/-- The lock discipline on a trace: `LockByName name key` comes first, the parent
`Get` right after it, `UnlockByName name key` last, and everything in between is a
backend call (so the lock is taken once and released once). -/
def lockDiscipline (name key : GoString) (trace : List Op) : Prop :=
  ∃ calls, trace = .LockByName name key :: .Get key :: calls ++ [.UnlockByName name key] ∧
    ∀ op ∈ calls, isBackendCall op = true

/-- A password credential without key id. -/
def keylessCredential : PasswordCredential := ⟨none, some (go "imported"), none, none⟩

/-- The directory holding the application `8a1f0c52-3b7e-4d19-a6c4-0e5d2f9b7a31`
with a keyless credential, the key `…110`, the key `…111`, and a second entry with
the key `…111`. -/
def mixedDirectory : List Application :=
  [⟨some (go "8a1f0c52-3b7e-4d19-a6c4-0e5d2f9b7a31"),
    some [keylessCredential, credentialOf "11111111-1111-4111-8111-111111111110",
      credentialOf "11111111-1111-4111-8111-111111111111",
      ⟨some (go "11111111-1111-4111-8111-111111111111"), some (go "twin"), none, none⟩]⟩]

/-- The resource data of a tracked credential with the given handle. -/
def tracked (handle : String) : ResourceData := ⟨go handle, []⟩

/-! ## Resource handles (package `parse`) and the V0 state upgrade -/

/-- Modelled from the spec: `parse.NewCredentialID` (the package
`internal/services/applications/parse` is not part of the sources). It builds the
triple `{parentId, kind, key}` that `encode` takes. -/
def NewCredentialID (objectId keyType keyId : GoString) : CredentialId :=
  ⟨objectId, keyType, keyId⟩

/-- Modelled from the spec: `CredentialId.String` of package `parse`, the `encode` of
the Resource Identity Codec: "a structured encoding of {parent-id,
sub-resource-kind, key}" with "a fixed, unambiguous separator scheme". The
separator is `/`, the one the spec gives for the legacy shape `{parentId}/{key}`. -/
def CredentialId.String (id : CredentialId) : GoString :=
  id.ObjectId ++ go "/" ++ id.KeyType ++ go "/" ++ id.KeyId

/-- Modelled from the spec: `parse.PasswordID`, the `decodeCurrent` of the Resource
Identity Codec, `decodeCurrent(handle) -> {parentId, kind, key} | error`: the
handle is cut at the separators and must consist of exactly three parts. -/
def PasswordID (idString : GoString) : Except Error CredentialId :=
  match splitByte (ch '/') idString with
  | [objectId, keyType, keyId] => .ok ⟨objectId, keyType, keyId⟩
  | _ => .error (.errorf (go "unable to parse password ID %q") [idString])

/-- Modelled from the spec: `parse.OldPasswordID`, the `decodeLegacy` of the Resource
Identity Codec for the legacy shape `{parentId}/{key}`, "kind is implied by
context, not encoded": exactly two parts, the kind being `password`. -/
def OldPasswordID (id : GoString) : Except Error CredentialId :=
  match splitByte (ch '/') id with
  | [objectId, keyId] => .ok ⟨objectId, go "password", keyId⟩
  | _ => .error (.errorf (go "unable to parse legacy password ID %q") [id])

/-- A Go `map[string]interface{}`: association list with distinct keys. -/
abbrev DynMap := List (GoString × Dyn)

/-- The lookup `v, ok := m[key]`: `none` when the key is absent. -/
def DynMap.lookup (m : DynMap) (key : GoString) : Option Dyn :=
  (m.find? (fun e => e.1 == key)).map (·.2)

/-- The map after `m[key] = v`. -/
def DynMap.put (key : GoString) (v : Dyn) : DynMap → DynMap
  | [] => [(key, v)]
  | (k, w) :: rest => if k = key then (key, v) :: rest else (k, w) :: DynMap.put key v rest

/-- What a state upgrade returns, `(map[string]interface{}, error)`, unless the
type assertion `rawState["id"].(string)` fails. -/
inductive UpgradeResult where
  | returned (state : DynMap) (err : Option Error)
  | typeAssertion
deriving DecidableEq, Repr

/-- The function `resourceApplicationPasswordInstanceStateUpgradeV0`
(application_password_resource.go). -/
def resourceApplicationPasswordInstanceStateUpgradeV0 (rawState : DynMap) : UpgradeResult :=
  match DynMap.lookup rawState (go "id") with
  | some (.string id) =>
    match OldPasswordID id with
    | .error err => .returned rawState (some (.wrapf (go "generating new ID: %s") err))
    | .ok newId => .returned (DynMap.put (go "id") (.string newId.String) rawState) none
  | _ => .typeAssertion

/-- The function `resourceServicePrincipalPasswordInstanceStateUpgradeV0`
(service_principal_password_resource.go); its package `parse` is modelled by the
same handle functions. -/
def resourceServicePrincipalPasswordInstanceStateUpgradeV0 (rawState : DynMap) :
    UpgradeResult :=
  match DynMap.lookup rawState (go "id") with
  | some (.string id) =>
    match OldPasswordID id with
    | .error err => .returned rawState (some (.wrapf (go "generating new ID: %s") err))
    | .ok newId => .returned (DynMap.put (go "id") (.string newId.String) rawState) none
  | _ => .typeAssertion

/-- A persisted V0 state with a legacy handle and two more attributes. -/
def legacyState : DynMap :=
  [(go "application_object_id", .string (go "p1")), (go "id", .string (go "p1/k1")),
   (go "end_date", .string (go "2099-01-01T00:00:00Z"))]

/-! ## Data sources and the user resource -/

/-- The type `graphrbac.PasswordProfile`, by the fields the user resource sets. -/
structure PasswordProfile where
  ForceChangePasswordNextLogin : Option Bool
  Password : Option GoString
deriving DecidableEq, Repr

/-- The type `graphrbac.UserCreateParameters`, by the fields the user resource sets. -/
structure UserCreateParameters where
  AccountEnabled : Option Bool
  DisplayName : Option GoString
  MailNickname : Option GoString
  PasswordProfile : Option PasswordProfile
  UserPrincipalName : Option GoString
  GivenName : Option GoString
  Surname : Option GoString
  UsageLocation : Option GoString
  ImmutableID : Option GoString
  AdditionalProperties : Option DynMap
deriving DecidableEq, Repr

/-- The type `graphrbac.UserUpdateParameters`, by the fields the user resource sets;
every field is nil in its zero value. -/
structure UserUpdateParameters where
  DisplayName : Option GoString
  GivenName : Option GoString
  Surname : Option GoString
  MailNickname : Option GoString
  AccountEnabled : Option Bool
  PasswordProfile : Option PasswordProfile
  UsageLocation : Option GoString
  ImmutableID : Option GoString
  AdditionalProperties : Option DynMap
deriving DecidableEq, Repr

/-- The calls a data source or user resource function makes on its client or on a
helper that is not part of the sources, and its calls of `d.SetId`, in order. -/
inductive Call where
  | Get (id : GoString)
  | List (filter : GoString)
  | Delete (id : GoString)
  | ListOwners (id : GoString)
  | SetId (id : GoString)
  | Helper (name : GoString) (arg : GoString)
  | Create (parameters : UserCreateParameters)
  | Update (id : GoString) (parameters : UserUpdateParameters)
deriving DecidableEq, Repr

/-- A run of a data source or user resource function: how it ended, the resource
data it leaves, and the calls it made. -/
structure Outcome where
  exit : Exit
  d : ResourceData
  calls : List Call
deriving DecidableEq, Repr

/-- The successive calls `tf.Set(d, key, value)`, stopping at the first one that
returns diagnostics; `set` is `tf.Set`. -/
def setValues (set : ResourceData → GoString → Value → Except Diag ResourceData) :
    ResourceData → List (GoString × Value) → Except Diag ResourceData
  | d, [] => .ok d
  | d, (key, value) :: rest =>
    match set d key value with
    | .error dg => .error dg
    | .ok d => setValues set d rest

/-- The type `models.User` of hamilton, by the fields the data source reads. -/
structure MsUser where
  ID : Option GoString
  OnPremisesImmutableId : Option GoString
  OnPremisesSamAccountName : Option GoString
  OnPremisesUserPrincipalName : Option GoString
  UserPrincipalName : Option GoString
  AccountEnabled : Option Bool
  DisplayName : Option GoString
  GivenName : Option GoString
  Surname : Option GoString
  Mail : Option GoString
  MailNickname : Option GoString
  UsageLocation : Option GoString
  JobTitle : Option GoString
  Department : Option GoString
  CompanyName : Option GoString
  OfficeLocation : Option GoString
  StreetAddress : Option GoString
  City : Option GoString
  State : Option GoString
  Country : Option GoString
  PostalCode : Option GoString
  MobilePhone : Option GoString
deriving DecidableEq, Repr

/-- What `userDataSourceReadMsGraph` takes from outside the file: the users client
of hamilton (`List` and `Get` with the triples they return) and `tf.Set`. -/
structure UsersMsEnv where
  List : GoString → Option (List MsUser) × Int × Option Error
  Get : GoString → Option MsUser × Int × Option Error
  Set : ResourceData → GoString → Value → Except Diag ResourceData

/-- Lines 74-181 of `userDataSourceReadMsGraph`: the handle and the attributes are
set from the user found; `calls` holds the calls made so far. -/
def userDataSourceSetMsGraph (env : UsersMsEnv) (d : ResourceData) (user : MsUser)
    (calls : List Call) : Outcome :=
  match user.ID with
  | none =>
    ⟨.returned (some (.ErrorDiagF (some (.text (go "API returned user with nil object ID")))
      (go "Bad API Response") [])), d, calls⟩
  | some id =>
    match setValues env.Set (d.SetId id)
      [(go "object_id", .stringPtr user.ID),
       (go "immutable_id", .stringPtr user.OnPremisesImmutableId),
       (go "onpremises_immutable_id", .stringPtr user.OnPremisesImmutableId),
       (go "onpremises_sam_account_name", .stringPtr user.OnPremisesSamAccountName),
       (go "onpremises_user_principal_name", .stringPtr user.OnPremisesUserPrincipalName),
       (go "user_principal_name", .stringPtr user.UserPrincipalName),
       (go "account_enabled", .boolPtr user.AccountEnabled),
       (go "display_name", .stringPtr user.DisplayName),
       (go "given_name", .stringPtr user.GivenName),
       (go "surname", .stringPtr user.Surname),
       (go "mail", .stringPtr user.Mail),
       (go "mail_nickname", .stringPtr user.MailNickname),
       (go "usage_location", .stringPtr user.UsageLocation),
       (go "job_title", .stringPtr user.JobTitle),
       (go "department", .stringPtr user.Department),
       (go "company_name", .stringPtr user.CompanyName),
       (go "office_location", .stringPtr user.OfficeLocation),
       (go "physical_delivery_office_name", .stringPtr user.OfficeLocation),
       (go "street_address", .stringPtr user.StreetAddress),
       (go "city", .stringPtr user.City),
       (go "state", .stringPtr user.State),
       (go "country", .stringPtr user.Country),
       (go "postal_code", .stringPtr user.PostalCode),
       (go "mobile", .stringPtr user.MobilePhone),
       (go "mobile_phone", .stringPtr user.MobilePhone)] with
    | .error dg => ⟨.returned (some dg), d.SetId id, calls ++ [.SetId id]⟩
    | .ok d => ⟨.returned none, d, calls ++ [.SetId id]⟩

/-- The function `userDataSourceReadMsGraph`. The variable `upn` of the first
branch is in scope in the later branches, where it is the empty string. -/
def userDataSourceReadMsGraph (env : UsersMsEnv) (d : ResourceData) : Outcome :=
  let upn := d.GetString (go "user_principal_name")
  if upn ≠ [] then
    let filter := go "userPrincipalName eq '" ++ upn ++ go "'"
    match env.List filter with
    | (_, _, some err) =>
      ⟨.returned (some (.ErrorDiagF (some err) (go "Finding user with UPN: %q") [upn])),
        d, [.List filter]⟩
    | (none, _, none) =>
      ⟨.returned (some (.ErrorDiagF (some (.text (go "API returned nil result")))
        (go "Bad API Response") [])), d, [.List filter]⟩
    | (some users, _, none) =>
      match users with
      | [] =>
        ⟨.returned (some (.ErrorDiagPathF none (go "user_principal_name")
          (go "User with UPN %q was not found") [upn])), d, [.List filter]⟩
      | [user] => userDataSourceSetMsGraph env d user [.List filter]
      | _ :: _ :: _ =>
        ⟨.returned (some (.ErrorDiagPathF none (go "user_principal_name")
          (go "More than one user found with UPN: %q") [upn])), d, [.List filter]⟩
  else
    let objectId := d.GetString (go "object_id")
    if objectId ≠ [] then
      match env.Get objectId with
      | (_, status, some err) =>
        if status = 404 then
          ⟨.returned (some (.ErrorDiagPathF none (go "object_id")
            (go "User not found with object ID: %q") [objectId])), d, [.Get objectId]⟩
        else
          ⟨.returned (some (.ErrorDiagF (some err)
            (go "Retrieving user with object ID: %q") [objectId])), d, [.Get objectId]⟩
      | (none, _, none) =>
        ⟨.returned (some (.ErrorDiagPathF none (go "object_id")
          (go "User not found with object ID: %q") [objectId])), d, [.Get objectId]⟩
      | (some u, _, none) => userDataSourceSetMsGraph env d u [.Get objectId]
    else
      let mailNickname := d.GetString (go "mail_nickname")
      if mailNickname ≠ [] then
        let filter := go "mailNickname eq '" ++ mailNickname ++ go "'"
        match env.List filter with
        | (_, _, some err) =>
          ⟨.returned (some (.ErrorDiagF (some err)
            (go "Finding user with email alias: %q") [mailNickname])), d, [.List filter]⟩
        | (none, _, none) =>
          ⟨.returned (some (.ErrorDiagF (some (.text (go "API returned nil result")))
            (go "Bad API Response") [])), d, [.List filter]⟩
        | (some users, _, none) =>
          match users with
          | [] =>
            ⟨.returned (some (.ErrorDiagPathF none (go "mail_nickname")
              (go "User not found with email alias: %q") [upn])), d, [.List filter]⟩
          | [user] => userDataSourceSetMsGraph env d user [.List filter]
          | _ :: _ :: _ =>
            ⟨.returned (some (.ErrorDiagPathF none (go "mail_nickname")
              (go "More than one user found with email alias: %q") [upn])), d, [.List filter]⟩
      else
        ⟨.returned (some (.ErrorDiagF none
          (go "One of `object_id`, `user_principal_name` or `mail_nickname` must be supplied")
          [])), d, []⟩

/-- A user with the given object id and mail nickname, nothing else. -/
def msUserOf (id nickname : String) : MsUser :=
  { ID := some (go id), OnPremisesImmutableId := none, OnPremisesSamAccountName := none,
    OnPremisesUserPrincipalName := none, UserPrincipalName := none, AccountEnabled := none,
    DisplayName := none, GivenName := none, Surname := none, Mail := none,
    MailNickname := some (go nickname), UsageLocation := none, JobTitle := none,
    Department := none, CompanyName := none, OfficeLocation := none, StreetAddress := none,
    City := none, State := none, Country := none, PostalCode := none, MobilePhone := none }

/-- A fake `tf.Set` that stores the value under the key. -/
def fakeSet (d : ResourceData) (key : GoString) (value : Value) : Except Diag ResourceData :=
  .ok { d with attrs := d.attrs.filter (fun e => e.1 != key) ++ [(key, value)] }

/-- A directory of users for which every list call yields `users`. -/
def fakeUsersMs (users : List MsUser) : UsersMsEnv where
  List := fun _ => (some users, 200, none)
  Get := fun _ => (none, 404, some (.text (go "not found")))
  Set := fakeSet

/-- The configuration of a lookup by mail nickname `jdoe`. -/
def nicknameConfig : ResourceData := ⟨[], [(go "mail_nickname", .string (go "jdoe"))]⟩

/-- The configuration of a lookup by user principal name. -/
def upnConfig : ResourceData :=
  ⟨[], [(go "user_principal_name", .string (go "jdoe@example.com"))]⟩

/-- Go `autorest.Response`, which embeds a `*http.Response` (nil when no response
was received). -/
structure AutorestResponse where
  Response : Option Response
deriving DecidableEq, Repr

/-- Modelled from the spec: `utils.ResponseWasNotFound` (the package `internal/utils`
is not part of the sources): the backend reports the object as missing by "a status
distinguishable as not found", the HTTP status 404. -/
def ResponseWasNotFound (resp : AutorestResponse) : Bool :=
  match resp.Response with
  | some r => r.StatusCode == 404
  | none => false

/-- The type `graphrbac.Application`, by the fields the data source reads; values of
SDK types that are only handed to flatten helpers are kept opaque. -/
structure AadApplication where
  Response : AutorestResponse
  ObjectID : Option GoString
  AppID : Option GoString
  DisplayName : Option GoString
  Homepage : Option GoString
  LogoutURL : Option GoString
  AvailableToOtherTenants : Option Bool
  Oauth2AllowImplicitFlow : Option Bool
  IdentifierUris : Option (List GoString)
  ReplyUrls : Option (List GoString)
  RequiredResourceAccess : Option GoString
  OptionalClaims : Option GoString
  PublicClient : Option Bool
  AppRoles : Option GoString
  GroupMembershipClaims : GoString
  Oauth2Permissions : Option GoString
deriving DecidableEq, Repr

/-- What `applicationDataSourceReadAadGraph` takes from outside the file: the
applications client of graphrbac (`Get`; `ListComplete` with the `Value` of the
response of the iterator it returns), `aadgraph.ApplicationAllOwners` and `tf.Set`. -/
structure ApplicationsAadEnv where
  Get : GoString → AadApplication × Option Error
  ListComplete : GoString → Except Error (Option (List AadApplication))
  ApplicationAllOwners : GoString → Except Error (List GoString)
  Set : ResourceData → GoString → Value → Except Diag ResourceData

/-- Lines 34-46 of `applicationDataSourceReadAadGraph`: the pair `(fieldName,
fieldValue)` of the lookup, `none` when no lookup attribute is given. -/
def applicationLookupField (d : ResourceData) : Option (GoString × GoString) :=
  if d.GetString (go "application_id") ≠ [] then
    some (go "appId", d.GetString (go "application_id"))
  else if d.GetString (go "display_name") ≠ [] then
    some (go "displayName", d.GetString (go "display_name"))
  else if d.GetString (go "name") ≠ [] then
    some (go "displayName", d.GetString (go "name"))
  else none

/-- Lines 67-82 of `applicationDataSourceReadAadGraph`: the diagnostics returned when
the application found does not carry the value searched for, `none` otherwise. -/
def applicationFieldCheck (fieldName fieldValue filter : GoString) (app : AadApplication) :
    Option Diag :=
  if fieldName = go "appId" then
    match app.AppID with
    | none =>
      some (.ErrorDiagF (some (.errorf (go "nil AppID for applications matching filter: %q")
        [filter])) (go "Bad API Response") [])
    | some appId =>
      if appId ≠ fieldValue then
        some (.ErrorDiagF (some (.errorf
          (go "AppID does not match (%q != %q) for applications matching filter: %q")
          [appId, fieldValue, filter])) (go "Bad API Response") [])
      else none
  else if fieldName = go "displayName" then
    match app.DisplayName with
    | none =>
      some (.ErrorDiagF (some (.errorf
        (go "nil displayName for applications matching filter: %q") [filter]))
        (go "Bad API Response") [])
    | some displayName =>
      if displayName ≠ fieldValue then
        some (.ErrorDiagF (some (.errorf
          (go "DisplayName does not match (%q != %q) for applications matching filter: %q")
          [displayName, fieldValue, filter])) (go "Bad API Response") [])
      else none
  else none

/-- Lines 85-167 of `applicationDataSourceReadAadGraph`: the handle and the
attributes are set from the application selected; `calls` holds the calls made so
far. -/
def applicationDataSourceSetAadGraph (env : ApplicationsAadEnv) (d : ResourceData)
    (app : AadApplication) (calls : List Call) : Outcome :=
  match app.ObjectID with
  | none =>
    ⟨.returned (some (.ErrorDiagF (some (.errorf
      (go "ObjectID returned for application is nil") [])) (go "Bad API Response") [])),
      d, calls⟩
  | some id =>
    match setValues env.Set (d.SetId id)
      [(go "object_id", .stringPtr app.ObjectID),
       (go "application_id", .stringPtr app.AppID),
       (go "name", .stringPtr app.DisplayName),
       (go "homepage", .stringPtr app.Homepage),
       (go "logout_url", .stringPtr app.LogoutURL),
       (go "available_to_other_tenants", .boolPtr app.AvailableToOtherTenants),
       (go "oauth2_allow_implicit_flow", .boolPtr app.Oauth2AllowImplicitFlow),
       (go "identifier_uris",
         .flattened (go "tf.FlattenStringSlicePtr") (.stringsPtr app.IdentifierUris)),
       (go "reply_urls", .flattened (go "tf.FlattenStringSlicePtr") (.stringsPtr app.ReplyUrls)),
       (go "required_resource_access",
         .flattened (go "flattenApplicationRequiredResourceAccessAad")
           (.sdk app.RequiredResourceAccess)),
       (go "optional_claims",
         .flattened (go "flattenApplicationOptionalClaimsAad") (.sdk app.OptionalClaims)),
       (go "type", .string (if app.PublicClient = some true then go "native" else go "webapp/api")),
       (go "app_roles", .flattened (go "aadgraph.FlattenAppRoles") (.sdk app.AppRoles)),
       (go "group_membership_claims", .string app.GroupMembershipClaims),
       (go "oauth2_permissions",
         .flattened (go "aadgraph.FlattenOauth2Permissions") (.sdk app.Oauth2Permissions))] with
    | .error dg => ⟨.returned (some dg), d.SetId id, calls ++ [.SetId id]⟩
    | .ok d =>
      match env.ApplicationAllOwners d.id with
      | .error err =>
        ⟨.returned (some (.ErrorDiagPathF (some err) (go "owners")
          (go "Could not retrieve owners for application with object ID %q") [id])),
          d, calls ++ [.SetId id, .ListOwners d.id]⟩
      | .ok owners =>
        match env.Set d (go "owners") (.strings owners) with
        | .error dg => ⟨.returned (some dg), d, calls ++ [.SetId id, .ListOwners d.id]⟩
        | .ok d1 => ⟨.returned none, d1, calls ++ [.SetId id, .ListOwners d.id]⟩

/-- The function `applicationDataSourceReadAadGraph`. -/
def applicationDataSourceReadAadGraph (env : ApplicationsAadEnv) (d : ResourceData) :
    Outcome :=
  let objectId := d.GetString (go "object_id")
  if objectId ≠ [] then
    match env.Get objectId with
    | (resp, some err) =>
      if ResponseWasNotFound resp.Response then
        ⟨.returned (some (.ErrorDiagPathF none (go "object_id")
          (go "Application with object ID %q was not found") [objectId])), d, [.Get objectId]⟩
      else
        ⟨.returned (some (.ErrorDiagPathF (some err) (go "application_object_id")
          (go "Retrieving Application with object ID %q") [objectId])), d, [.Get objectId]⟩
    | (resp, none) => applicationDataSourceSetAadGraph env d resp [.Get objectId]
  else
    match applicationLookupField d with
    | none =>
      ⟨.returned (some (.ErrorDiagF none
        (go "One of `object_id`, `application_id` or `displayName` must be specified") [])),
        d, []⟩
    | some (fieldName, fieldValue) =>
      let filter := fieldName ++ go " eq '" ++ fieldValue ++ go "'"
      match env.ListComplete filter with
      | .error err =>
        ⟨.returned (some (.ErrorDiagF (some err) (go "Listing applications for filter %q")
          [filter])), d, [.List filter]⟩
      | .ok none =>
        ⟨.returned (some (.ErrorDiagF (some (.errorf
          (go "nil values for applications matching filter: %q") [filter]))
          (go "Bad API response") [])), d, [.List filter]⟩
      | .ok (some []) =>
        ⟨.returned (some (.ErrorDiagF (some (.errorf
          (go "No applications found matching filter: %q") [filter]))
          (go "Application not found") [])), d, [.List filter]⟩
      | .ok (some (_ :: _ :: _)) =>
        ⟨.returned (some (.ErrorDiagF (some (.errorf
          (go "Found multiple applications matching filter: %q") [filter]))
          (go "Multiple applications found") [])), d, [.List filter]⟩
      | .ok (some [app]) =>
        match applicationFieldCheck fieldName fieldValue filter app with
        | some dg => ⟨.returned (some dg), d, [.List filter]⟩
        | none => applicationDataSourceSetAadGraph env d app [.List filter]

/-- An application with the given object id and display name, nothing else. -/
def aadApplicationOf (objectId displayName : String) : AadApplication :=
  { Response := ⟨none⟩, ObjectID := some (go objectId), AppID := none,
    DisplayName := some (go displayName), Homepage := none, LogoutURL := none,
    AvailableToOtherTenants := none, Oauth2AllowImplicitFlow := none, IdentifierUris := none,
    ReplyUrls := none, RequiredResourceAccess := none, OptionalClaims := none,
    PublicClient := none, AppRoles := none, GroupMembershipClaims := [],
    Oauth2Permissions := none }

/-- A directory of applications for which every list call yields `apps`. -/
def fakeApplicationsAad (apps : List AadApplication) : ApplicationsAadEnv where
  Get := fun _ => (aadApplicationOf "" "", some (.text (go "not found")))
  ListComplete := fun _ => .ok (some apps)
  ApplicationAllOwners := fun _ => .ok []
  Set := fakeSet

/-- The configuration of a lookup by the display name `app`. -/
def displayNameConfig : ResourceData := ⟨[], [(go "display_name", .string (go "app"))]⟩

/-- The type `graphrbac.User`, by the fields the user resource reads. -/
structure AadUser where
  Response : AutorestResponse
  ObjectID : Option GoString
  ImmutableID : Option GoString
  UserPrincipalName : Option GoString
  AccountEnabled : Option Bool
  DisplayName : Option GoString
  GivenName : Option GoString
  Surname : Option GoString
  Mail : Option GoString
  MailNickname : Option GoString
  UsageLocation : Option GoString
  AdditionalProperties : DynMap
deriving DecidableEq, Repr

/-- What the user resource functions take from outside the file: the users client of
graphrbac (`Get` and `Delete` with the values they return) and `tf.Set`. -/
structure UsersAadEnv where
  Get : GoString → AadUser × Option Error
  Delete : GoString → AutorestResponse × Option Error
  Set : ResourceData → GoString → Value → Except Diag ResourceData

/-- One step of the attribute copying of a read: `tf.Set(d, key, value)`, or the
accessor pattern `x := ""; if v, ok := props[property]; ok { x = v.(string) }`
followed by `tf.Set(d, key, x)`. -/
inductive Step where
  | set (key : GoString) (value : Value)
  | setProperty (key : GoString) (property : GoString)
deriving DecidableEq, Repr

/-- The steps of a read in order over the additional properties `props`: the run
stops at the first `tf.Set` that returns diagnostics, and at the first type
assertion `v.(string)` on a value that is not a string. -/
def runSteps (set : ResourceData → GoString → Value → Except Diag ResourceData)
    (props : DynMap) : ResourceData → List Step → Exit × ResourceData
  | d, [] => (.returned none, d)
  | d, .set key value :: rest =>
    match set d key value with
    | .error dg => (.returned (some dg), d)
    | .ok d => runSteps set props d rest
  | d, .setProperty key property :: rest =>
    match DynMap.lookup props property with
    | none =>
      match set d key (.string []) with
      | .error dg => (.returned (some dg), d)
      | .ok d => runSteps set props d rest
    | some (.string s) =>
      match set d key (.string s) with
      | .error dg => (.returned (some dg), d)
      | .ok d => runSteps set props d rest
    | some _ => (.typeAssertion, d)

/-- The value of the index expression `props[key]`: nil when the key is absent. -/
def DynMap.index (props : DynMap) (key : GoString) : Dyn :=
  (DynMap.lookup props key).getD .nil

/-- The function `userResourceReadAadGraph`. -/
def userResourceReadAadGraph (env : UsersAadEnv) (d : ResourceData) : Outcome :=
  let objectId := d.id
  match env.Get objectId with
  | (user, some err) =>
    if ResponseWasNotFound user.Response then
      ⟨.returned none, d.SetId [], [.Get objectId, .SetId []]⟩
    else
      ⟨.returned (some (.ErrorDiagF (some err) (go "Retrieving user with object ID: %q")
        [objectId])), d, [.Get objectId]⟩
  | (user, none) =>
    let run := runSteps env.Set user.AdditionalProperties d
      [.set (go "object_id") (.stringPtr user.ObjectID),
       .set (go "immutable_id") (.stringPtr user.ImmutableID),
       .set (go "onpremises_sam_account_name")
         (.any (DynMap.index user.AdditionalProperties (go "onPremisesSamAccountName"))),
       .set (go "onpremises_user_principal_name")
         (.any (DynMap.index user.AdditionalProperties (go "onPremisesUserPrincipalName"))),
       .set (go "user_principal_name") (.stringPtr user.UserPrincipalName),
       .set (go "account_enabled") (.boolPtr user.AccountEnabled),
       .set (go "display_name") (.stringPtr user.DisplayName),
       .set (go "given_name") (.stringPtr user.GivenName),
       .set (go "surname") (.stringPtr user.Surname),
       .set (go "mail") (.stringPtr user.Mail),
       .set (go "mail_nickname") (.stringPtr user.MailNickname),
       .set (go "usage_location") (.stringPtr user.UsageLocation),
       .setProperty (go "job_title") (go "jobTitle"),
       .setProperty (go "department") (go "department"),
       .setProperty (go "company_name") (go "companyName"),
       .setProperty (go "physical_delivery_office_name") (go "physicalDeliveryOfficeName"),
       .setProperty (go "street_address") (go "streetAddress"),
       .setProperty (go "city") (go "city"),
       .setProperty (go "state") (go "state"),
       .setProperty (go "country") (go "country"),
       .setProperty (go "postal_code") (go "postalCode"),
       .setProperty (go "mobile") (go "mobile")]
    ⟨run.1, run.2, [.Get objectId]⟩

/-- The value `graphrbac.User{}` together with the response of the given status. -/
def aadUserWithStatus (status : Int) : AadUser :=
  { Response := ⟨some ⟨status, ⟨[]⟩, ⟨[], none⟩⟩⟩, ObjectID := none, ImmutableID := none,
    UserPrincipalName := none, AccountEnabled := none, DisplayName := none, GivenName := none,
    Surname := none, Mail := none, MailNickname := none, UsageLocation := none,
    AdditionalProperties := [] }

/-- A users backend whose `Get` and `Delete` fail with the given status. -/
def failingUsersAad (status : Int) : UsersAadEnv where
  Get := fun _ => (aadUserWithStatus status, some (.text (go "request failed")))
  Delete := fun _ => (⟨some ⟨status, ⟨[]⟩, ⟨[], none⟩⟩⟩, some (.text (go "request failed")))
  Set := fakeSet

/-- The resource data of a tracked user with one attribute. -/
def trackedUser : ResourceData := ⟨go "u1", [(go "display_name", .string (go "J. Doe"))]⟩

/-- The function `userResourceDeleteAadGraph`. -/
def userResourceDeleteAadGraph (env : UsersAadEnv) (d : ResourceData) : Outcome :=
  match env.Delete d.id with
  | (resp, some err) =>
    if !ResponseWasNotFound resp then
      ⟨.returned (some (.ErrorDiagF (some err) (go "Deleting user with object ID: %q") [d.id])),
        d, [.Delete d.id]⟩
    else ⟨.returned none, d, [.Delete d.id]⟩
  | (_, none) => ⟨.returned none, d, [.Delete d.id]⟩

/-- What `userDataSourceReadAadGraph` takes from outside the file in addition to the
users client and `tf.Set`: the lookups `aadgraph.UserGetByObjectId` and
`aadgraph.UserGetByMailNickname` with the pair `(*graphrbac.User, error)` they return. -/
structure UsersAadDataEnv extends UsersAadEnv where
  UserGetByObjectId : GoString → Except Error (Option AadUser)
  UserGetByMailNickname : GoString → Except Error (Option AadUser)

/-- Lines 54-198 of `userDataSourceReadAadGraph`: the handle and the attributes are
set from the user found; `calls` holds the calls made so far. The variables
`physDelivOfficeName` and `mobile` are each read once and set under two keys; the
second step reads the same property again, which yields the same value. -/
def userDataSourceSetAadGraph (env : UsersAadDataEnv) (d : ResourceData) (user : AadUser)
    (calls : List Call) : Outcome :=
  match user.ObjectID with
  | none =>
    ⟨.returned (some (.ErrorDiagF (some (.text (go "Object ID returned for user is nil")))
      (go "Bad API response") [])), d, calls⟩
  | some id =>
    let run := runSteps env.Set user.AdditionalProperties (d.SetId id)
      [.set (go "object_id") (.stringPtr user.ObjectID),
       .set (go "immutable_id") (.stringPtr user.ImmutableID),
       .set (go "onpremises_immutable_id") (.stringPtr user.ImmutableID),
       .set (go "onpremises_sam_account_name")
         (.any (DynMap.index user.AdditionalProperties (go "onPremisesSamAccountName"))),
       .set (go "onpremises_user_principal_name")
         (.any (DynMap.index user.AdditionalProperties (go "onPremisesUserPrincipalName"))),
       .set (go "user_principal_name") (.stringPtr user.UserPrincipalName),
       .set (go "account_enabled") (.boolPtr user.AccountEnabled),
       .set (go "display_name") (.stringPtr user.DisplayName),
       .set (go "given_name") (.stringPtr user.GivenName),
       .set (go "surname") (.stringPtr user.Surname),
       .set (go "mail") (.stringPtr user.Mail),
       .set (go "mail_nickname") (.stringPtr user.MailNickname),
       .set (go "usage_location") (.stringPtr user.UsageLocation),
       .setProperty (go "job_title") (go "jobTitle"),
       .setProperty (go "department") (go "department"),
       .setProperty (go "company_name") (go "companyName"),
       .setProperty (go "physical_delivery_office_name") (go "physicalDeliveryOfficeName"),
       .setProperty (go "office_location") (go "physicalDeliveryOfficeName"),
       .setProperty (go "street_address") (go "streetAddress"),
       .setProperty (go "city") (go "city"),
       .setProperty (go "state") (go "state"),
       .setProperty (go "country") (go "country"),
       .setProperty (go "postal_code") (go "postalCode"),
       .setProperty (go "mobile") (go "mobile"),
       .setProperty (go "mobile_phone") (go "mobile")]
    ⟨run.1, run.2, calls ++ [.SetId id]⟩

/-- The function `userDataSourceReadAadGraph`. -/
def userDataSourceReadAadGraph (env : UsersAadDataEnv) (d : ResourceData) : Outcome :=
  let upn := d.GetString (go "user_principal_name")
  if upn ≠ [] then
    match env.Get upn with
    | (resp, some err) =>
      if ResponseWasNotFound resp.Response then
        ⟨.returned (some (.ErrorDiagPathF none (go "user_principal_name")
          (go "User with UPN %q was not found") [upn])), d, [.Get upn]⟩
      else
        ⟨.returned (some (.ErrorDiagF (some err) (go "Retrieving user with UPN: %q") [upn])),
          d, [.Get upn]⟩
    | (resp, none) => userDataSourceSetAadGraph env d resp [.Get upn]
  else
    let objectId := d.GetString (go "object_id")
    if objectId ≠ [] then
      match env.UserGetByObjectId objectId with
      | .error err =>
        ⟨.returned (some (.ErrorDiagF (some err) (go "Finding user with object ID: %q")
          [objectId])), d, [.Helper (go "aadgraph.UserGetByObjectId") objectId]⟩
      | .ok none =>
        ⟨.returned (some (.ErrorDiagPathF none (go "object_id")
          (go "User not found with object ID: %q") [objectId])),
          d, [.Helper (go "aadgraph.UserGetByObjectId") objectId]⟩
      | .ok (some u) =>
        userDataSourceSetAadGraph env d u [.Helper (go "aadgraph.UserGetByObjectId") objectId]
    else
      let mailNickname := d.GetString (go "mail_nickname")
      if mailNickname ≠ [] then
        match env.UserGetByMailNickname mailNickname with
        | .error err =>
          ⟨.returned (some (.ErrorDiagPathF (some err) (go "mail_nickname")
            (go "Finding user with email alias: %q") [mailNickname])),
            d, [.Helper (go "aadgraph.UserGetByMailNickname") mailNickname]⟩
        | .ok none =>
          ⟨.returned (some (.ErrorDiagPathF none (go "mail_nickname")
            (go "User not found with email alias: %q") [mailNickname])),
            d, [.Helper (go "aadgraph.UserGetByMailNickname") mailNickname]⟩
        | .ok (some u) =>
          userDataSourceSetAadGraph env d u
            [.Helper (go "aadgraph.UserGetByMailNickname") mailNickname]
      else
        ⟨.returned (some (.ErrorDiagF none
          (go "One of `object_id`, `user_principal_name` and `mail_nickname` must be supplied")
          [])), d, []⟩

/-- The user `u1` with the given additional properties and no other field. -/
def aadUserWithProperties (props : DynMap) : AadUser :=
  { Response := ⟨some ⟨200, ⟨[]⟩, ⟨[], none⟩⟩⟩, ObjectID := some (go "u1"), ImmutableID := none,
    UserPrincipalName := none, AccountEnabled := none, DisplayName := none, GivenName := none,
    Surname := none, Mail := none, MailNickname := none, UsageLocation := none,
    AdditionalProperties := props }

/-- A users backend in which every lookup finds `user`. -/
def fakeUsersAad (user : AadUser) : UsersAadDataEnv where
  Get := fun _ => (user, none)
  Delete := fun _ => (⟨some ⟨204, ⟨[]⟩, ⟨[], none⟩⟩⟩, none)
  Set := fakeSet
  UserGetByObjectId := fun _ => .ok (some user)
  UserGetByMailNickname := fun _ => .ok (some user)

/-- The attribute stored under `key`, if any. -/
def ResourceData.attr (d : ResourceData) (key : GoString) : Option Value :=
  (d.attrs.find? (fun e => e.1 == key)).map (·.2)

/-- The type `graphrbac.ServicePrincipal`, by the fields the data source reads;
values of SDK types that are only handed to flatten helpers are kept opaque. -/
structure AadServicePrincipal where
  Response : AutorestResponse
  ObjectID : Option GoString
  AppID : Option GoString
  DisplayName : Option GoString
  AppRoles : Option GoString
  Oauth2Permissions : Option GoString
deriving DecidableEq, Repr

/-- What `servicePrincipalDataSourceReadAadGraph` takes from outside the file: the
service principals client of graphrbac (`Get`; `ListComplete` with the `Value` of
the response of the iterator it returns) and `tf.Set`. -/
structure ServicePrincipalsAadEnv where
  Get : GoString → AadServicePrincipal × Option Error
  ListComplete : GoString → Except Error (Option (List AadServicePrincipal))
  Set : ResourceData → GoString → Value → Except Diag ResourceData

/-- The loop of lines 46-55 over the entries still to visit: the first entry whose
display name is non-nil and equals `displayName` (where the loop breaks), `none`
when the loop runs to its end. -/
def firstByDisplayName (displayName : GoString) :
    List AadServicePrincipal → Option AadServicePrincipal
  | [] => none
  | sp :: rest =>
    match sp.DisplayName with
    | none => firstByDisplayName displayName rest
    | some name => if name = displayName then some sp else firstByDisplayName displayName rest

/-- The loop of lines 70-79 over the entries still to visit: the first entry whose
application id is non-nil and equals `applicationId`. -/
def firstByAppID (applicationId : GoString) :
    List AadServicePrincipal → Option AadServicePrincipal
  | [] => none
  | sp :: rest =>
    match sp.AppID with
    | none => firstByAppID applicationId rest
    | some appId => if appId = applicationId then some sp else firstByAppID applicationId rest

/-- Lines 86-112 of `servicePrincipalDataSourceReadAadGraph`: the handle and the
attributes are set from the service principal selected; `calls` holds the calls
made so far. -/
def servicePrincipalDataSourceSetAadGraph (env : ServicePrincipalsAadEnv) (d : ResourceData)
    (servicePrincipal : AadServicePrincipal) (calls : List Call) : Outcome :=
  match servicePrincipal.ObjectID with
  | none =>
    ⟨.returned (some (.ErrorDiagF
      (some (.text (go "ObjectID returned for service principal is nil")))
      (go "Bad API response") [])), d, calls⟩
  | some id =>
    let run := runSteps env.Set [] (d.SetId id)
      [.set (go "object_id") (.stringPtr servicePrincipal.ObjectID),
       .set (go "application_id") (.stringPtr servicePrincipal.AppID),
       .set (go "display_name") (.stringPtr servicePrincipal.DisplayName),
       .set (go "app_roles")
         (.flattened (go "aadgraph.FlattenAppRoles") (.sdk servicePrincipal.AppRoles)),
       .set (go "oauth2_permissions")
         (.flattened (go "aadgraph.FlattenOauth2Permissions")
           (.sdk servicePrincipal.Oauth2Permissions))]
    ⟨run.1, run.2, calls ++ [.SetId id]⟩

/-- The function `servicePrincipalDataSourceReadAadGraph`. The call `d.GetOk(key)`
of a string attribute reports `ok` when the string is not empty. -/
def servicePrincipalDataSourceReadAadGraph (env : ServicePrincipalsAadEnv)
    (d : ResourceData) : Outcome :=
  if d.GetString (go "object_id") ≠ [] then
    let objectId := d.GetString (go "object_id")
    match env.Get objectId with
    | (sp, some err) =>
      if ResponseWasNotFound sp.Response then
        ⟨.returned (some (.ErrorDiagPathF none (go "object_id")
          (go "Service Principal with object ID %q was not found") [objectId])),
          d, [.Get objectId]⟩
      else
        ⟨.returned (some (.ErrorDiagPathF (some err) (go "object_id")
          (go "Retrieving service principal with object ID %q") [objectId])),
          d, [.Get objectId]⟩
    | (sp, none) => servicePrincipalDataSourceSetAadGraph env d sp [.Get objectId]
  else if d.GetString (go "display_name") ≠ [] then
    let displayName := d.GetString (go "display_name")
    let filter := go "displayName eq '" ++ displayName ++ go "'"
    match env.ListComplete filter with
    | .error err =>
      ⟨.returned (some (.ErrorDiagF (some err) (go "Listing service principals for filter %q")
        [filter])), d, [.List filter]⟩
    | .ok none => ⟨.nilDereference, d, [.List filter]⟩
    | .ok (some value) =>
      match firstByDisplayName displayName value with
      | none =>
        ⟨.returned (some (.ErrorDiagF none
          (go "No service principal found matching display name: %q") [displayName])),
          d, [.List filter]⟩
      | some sp => servicePrincipalDataSourceSetAadGraph env d sp [.List filter]
  else
    let applicationId := d.GetString (go "application_id")
    let filter := go "appId eq '" ++ applicationId ++ go "'"
    match env.ListComplete filter with
    | .error err =>
      ⟨.returned (some (.ErrorDiagF (some err) (go "Listing service principals for filter %q")
        [filter])), d, [.List filter]⟩
    | .ok none => ⟨.nilDereference, d, [.List filter]⟩
    | .ok (some value) =>
      match firstByAppID applicationId value with
      | none =>
        ⟨.returned (some (.ErrorDiagF none
          (go "No service principal found for application ID: %q") [applicationId])),
          d, [.List filter]⟩
      | some sp => servicePrincipalDataSourceSetAadGraph env d sp [.List filter]

/-- A service principal with the given object id and display name, nothing else. -/
def servicePrincipalOf (objectId displayName : String) : AadServicePrincipal :=
  ⟨⟨none⟩, some (go objectId), none, some (go displayName), none, none⟩

/-- A directory of service principals for which every list call yields `sps`. -/
def fakeServicePrincipalsAad (sps : List AadServicePrincipal) : ServicePrincipalsAadEnv where
  Get := fun _ => (servicePrincipalOf "" "", some (.text (go "not found")))
  ListComplete := fun _ => .ok (some sps)
  Set := fakeSet

/-- The call `d.Get(key).(bool)`: the bool attribute, `false` when unset. -/
def ResourceData.GetBool (d : ResourceData) (key : GoString) : Bool :=
  match d.attrs.find? (fun e => e.1 == key) with
  | some (_, .bool b) => b
  | some (_, .boolPtr (some b)) => b
  | _ => false

/-- The call `d.GetOk(key)` on a string attribute: the string when it is set to a
non-empty value (`ok`), `none` otherwise. -/
def ResourceData.GetOkString (d : ResourceData) (key : GoString) : Option GoString :=
  if d.GetString key ≠ [] then some (d.GetString key) else none

/-- What the create and update of the user resource take from outside the file in
addition to `Get`, `Delete` and `tf.Set`: `Create` and `Update` of the users client
of graphrbac, the error of `aadgraph.WaitForCreationReplication` on the `Get` of an
object id, and `d.HasChange`, which the SDK answers from the planned change. -/
structure UsersAadWriteEnv extends UsersAadEnv where
  Create : UserCreateParameters → AadUser × Option Error
  Update : GoString → UserUpdateParameters → AutorestResponse × Option Error
  WaitForCreationReplication : GoString → Option Error
  HasChange : GoString → Bool

/-- The attributes of the user resource that travel in the additional properties,
each with its property key, in the order of the source. -/
def userAdditionalProperties : List (GoString × GoString) :=
  [(go "job_title", go "jobTitle"),
   (go "department", go "department"),
   (go "company_name", go "companyName"),
   (go "physical_delivery_office_name", go "physicalDeliveryOfficeName"),
   (go "street_address", go "streetAddress"),
   (go "city", go "city"),
   (go "state", go "state"),
   (go "country", go "country"),
   (go "postal_code", go "postalCode"),
   (go "mobile", go "mobile")]

/-- The run of conditional assignments `if <test on attribute> { m[property] =
d.Get(attribute).(string) }` over the given attributes, `m` being the map so far;
`test` is `d.GetOk` in create (lines 58-96) and `d.HasChange` in update (lines
162-200). -/
def collectProperties (test : GoString → Bool) (d : ResourceData) :
    List (GoString × GoString) → DynMap → DynMap
  | [], m => m
  | (name, property) :: rest, m =>
    collectProperties test d rest
      (if test name then DynMap.put property (.string (d.GetString name)) m else m)

/-- Lines 22-96 of `userResourceCreateAadGraph`: the create parameters, `none` when
the index expression `strings.Split(upn, "@")[0]` is out of range. -/
def userCreateParameters (d : ResourceData) : Option UserCreateParameters :=
  let upn := d.GetString (go "user_principal_name")
  let mailNickName := d.GetString (go "mail_nickname")
  match (if mailNickName = [] then (splitByte (ch '@') upn).head? else some mailNickName) with
  | none => none
  | some mailNickName =>
    some
      { AccountEnabled := some (d.GetBool (go "account_enabled"))
        DisplayName := some (d.GetString (go "display_name"))
        MailNickname := some mailNickName
        PasswordProfile := some
          { ForceChangePasswordNextLogin := some (d.GetBool (go "force_password_change"))
            Password := some (d.GetString (go "password")) }
        UserPrincipalName := some upn
        GivenName := d.GetOkString (go "given_name")
        Surname := d.GetOkString (go "surname")
        UsageLocation := d.GetOkString (go "usage_location")
        ImmutableID := d.GetOkString (go "immutable_id")
        AdditionalProperties := some
          (collectProperties (fun name => d.GetString name ≠ []) d
            userAdditionalProperties []) }

/-- The function `userResourceCreateAadGraph`. -/
def userResourceCreateAadGraph (env : UsersAadWriteEnv) (d : ResourceData) : Outcome :=
  let upn := d.GetString (go "user_principal_name")
  match userCreateParameters d with
  | none => ⟨.indexOutOfRange, d, []⟩
  | some userCreateParameters =>
    match env.Create userCreateParameters with
    | (_, some err) =>
      ⟨.returned (some (.ErrorDiagF (some err) (go "Creating user %q") [upn])),
        d, [.Create userCreateParameters]⟩
    | (user, none) =>
      match user.ObjectID with
      | none =>
        ⟨.returned (some (.ErrorDiagF (some (.text (go "API returned group with nil object ID")))
          (go "Bad API Response") [])), d, [.Create userCreateParameters]⟩
      | some objectId =>
        if objectId = [] then
          ⟨.returned (some (.ErrorDiagF
            (some (.text (go "API returned group with nil object ID")))
            (go "Bad API Response") [])), d, [.Create userCreateParameters]⟩
        else
          match env.WaitForCreationReplication objectId with
          | some err =>
            ⟨.returned (some (.ErrorDiagF (some err)
              (go "Waiting for user %q with object ID: %q") [upn, objectId])),
              d.SetId objectId,
              [.Create userCreateParameters, .SetId objectId,
                .Helper (go "aadgraph.WaitForCreationReplication") objectId]⟩
          | none =>
            let read := userResourceReadAadGraph env.toUsersAadEnv (d.SetId objectId)
            ⟨read.exit, read.d,
              [.Create userCreateParameters, .SetId objectId,
                .Helper (go "aadgraph.WaitForCreationReplication") objectId] ++ read.calls⟩

/-- Lines 123-204 of `userResourceUpdateAadGraph`: the update parameters. -/
def userUpdateParameters (env : UsersAadWriteEnv) (d : ResourceData) : UserUpdateParameters :=
  let additionalProperties := collectProperties env.HasChange d userAdditionalProperties []
  { DisplayName :=
      if env.HasChange (go "display_name") then some (d.GetString (go "display_name")) else none
    GivenName :=
      if env.HasChange (go "given_name") then some (d.GetString (go "given_name")) else none
    Surname := if env.HasChange (go "surname") then some (d.GetString (go "surname")) else none
    MailNickname :=
      if env.HasChange (go "mail_nickname") then some (d.GetString (go "mail_nickname"))
      else none
    AccountEnabled :=
      if env.HasChange (go "account_enabled") then some (d.GetBool (go "account_enabled"))
      else none
    PasswordProfile :=
      if env.HasChange (go "password") then
        some
          { ForceChangePasswordNextLogin := some (d.GetBool (go "force_password_change"))
            Password := some (d.GetString (go "password")) }
      else none
    UsageLocation :=
      if env.HasChange (go "usage_location") then some (d.GetString (go "usage_location"))
      else none
    ImmutableID :=
      if env.HasChange (go "immutable_id") then some (d.GetString (go "immutable_id")) else none
    AdditionalProperties :=
      if additionalProperties.length > 0 then some additionalProperties else none }

/-- The function `userResourceUpdateAadGraph`. -/
def userResourceUpdateAadGraph (env : UsersAadWriteEnv) (d : ResourceData) : Outcome :=
  let userUpdateParameters := userUpdateParameters env d
  match env.Update d.id userUpdateParameters with
  | (_, some err) =>
    ⟨.returned (some (.ErrorDiagF (some err) (go "Updating User with object ID: %q") [d.id])),
      d, [.Update d.id userUpdateParameters]⟩
  | (_, none) =>
    let read := userResourceReadAadGraph env.toUsersAadEnv d
    ⟨read.exit, read.d, .Update d.id userUpdateParameters :: read.calls⟩

/-- A users backend that accepts every create and update, answers every read with
`user`, and reports exactly the attributes in `changed` as changed. -/
def fakeUsersAadWrite (user : AadUser) (changed : List GoString) : UsersAadWriteEnv where
  Get := fun _ => (user, none)
  Delete := fun _ => (⟨some ⟨204, ⟨[]⟩, ⟨[], none⟩⟩⟩, none)
  Set := fakeSet
  Create := fun _ => (user, none)
  Update := fun _ _ => (⟨some ⟨204, ⟨[]⟩, ⟨[], none⟩⟩⟩, none)
  WaitForCreationReplication := fun _ => none
  HasChange := fun key => changed.contains key

/-- The configuration of a new user without mail nickname. -/
def newUserConfig : ResourceData :=
  ⟨[], [(go "user_principal_name", .string (go "jdoe@example.com")),
        (go "display_name", .string (go "J. Doe")), (go "password", .string (go "secret")),
        (go "job_title", .string (go "CTO"))]⟩

/-- The accessor pattern `x := ""; if v, ok := props[property]; ok { x = v.(string) }`
of the user reads: the value of `x` after it, `none` when the type assertion
`v.(string)` fails. -/
def accessor (props : DynMap) (property : GoString) : Option GoString :=
  match DynMap.lookup props property with
  | none => some []
  | some (.string s) => some s
  | some _ => none

/-- The value stored under `key` once `steps` have run with a `tf.Set` that stores
every value, `init` being the value stored before. -/
def storedValue (props : DynMap) : List Step → GoString → Option Value → Option Value
  | [], _, init => init
  | .set k value :: rest, key, init =>
    storedValue props rest key (if key = k then some value else init)
  | .setProperty k property :: rest, key, init =>
    storedValue props rest key
      (if key = k then some (.string ((accessor props property).getD [])) else init)

/-! # Theorems -/

/-! ## Lemmas on `performRequest` -/

theorem containsStatusCode_iff (expected : List Int) (actual : Int) :
    containsStatusCode expected actual = true ↔ actual ∈ expected := by
  induction expected with
  | nil => simp [containsStatusCode]
  | cons v rest ih =>
    by_cases h : actual = v
    · simp [containsStatusCode, h]
    · simp [containsStatusCode, h, ih]

theorem acceptedByFunc_iff (input : HttpRequestInput) (resp : Response) :
    acceptedByFunc input resp = true ↔
      ∃ f, input.GetValidStatusFunc = some f ∧ f resp = true := by
  unfold acceptedByFunc
  cases input.GetValidStatusFunc <;> simp

/-- The request handed to the HTTP client: the incoming one with the token (if an
authorizer is configured and yields one) and the headers. -/
theorem performRequest_sent (c : Client) (req : Request) (input : HttpRequestInput)
    (sent : Request) (h : Event.Do sent ∈ (c.performRequest req input).trace) :
    (c.Authorizer = none ∧ sent = c.addHeaders req) ∨
    (∃ a t, c.Authorizer = some a ∧ a.Token = .ok t ∧
      sent = c.addHeaders (t.SetAuthHeader req)) := by
  unfold Client.performRequest at h
  cases hA : c.Authorizer with
  | none =>
    left
    refine ⟨rfl, ?_⟩
    simp only [hA, Client.dispatch] at h
    split at h
    · simpa using h
    · split at h
      · split at h <;> simpa using h
      · simpa using h
  | some a =>
    right
    cases hT : a.Token with
    | error e => simp [hA, hT] at h
    | ok t =>
      refine ⟨a, t, rfl, hT, ?_⟩
      simp only [hA, hT, Client.dispatch] at h
      split at h
      · simpa using h
      · split at h
        · split at h <;> simpa using h
        · simpa using h

/-- What `dispatch` returns once the HTTP client has answered with `resp`. -/
theorem dispatch_of_response (c : Client) (r : Request) (input : HttpRequestInput)
    (tr : List Event) (resp : Response) (h : c.httpClient.Do (c.addHeaders r) = .ok resp) :
    c.dispatch r input tr =
      if containsStatusCode input.GetValidStatusCodes resp.StatusCode = true
          ∨ acceptedByFunc input resp = true then
        ⟨some resp, resp.StatusCode, none, tr ++ [.Do (c.addHeaders r)]⟩
      else
        ⟨none, resp.StatusCode,
          some (.text (go "unexpected status " ++ fmtInt resp.StatusCode
            ++ go " with response: " ++ (ReadAll resp.Body).1)),
          tr ++ [.Do (c.addHeaders r), .ReadAll, .Close]⟩ := by
  unfold Client.dispatch
  simp only [h]
  by_cases h1 : containsStatusCode input.GetValidStatusCodes resp.StatusCode = true
  · simp [h1]
  · by_cases h2 : acceptedByFunc input resp = true
    · simp [h1, h2]
    · simp [h1, h2]

/-- What `performRequest` returns once the HTTP client has answered the request it
was handed with `resp`. -/
theorem performRequest_of_response (c : Client) (req : Request) (input : HttpRequestInput)
    (sent : Request) (resp : Response)
    (hsent : Event.Do sent ∈ (c.performRequest req input).trace)
    (hresp : c.httpClient.Do sent = .ok resp) :
    ∃ tr,
      c.performRequest req input =
        if containsStatusCode input.GetValidStatusCodes resp.StatusCode = true
            ∨ acceptedByFunc input resp = true then
          ⟨some resp, resp.StatusCode, none, tr ++ [.Do sent]⟩
        else
          ⟨none, resp.StatusCode,
            some (.text (go "unexpected status " ++ fmtInt resp.StatusCode
              ++ go " with response: " ++ (ReadAll resp.Body).1)),
            tr ++ [.Do sent, .ReadAll, .Close]⟩ := by
  rcases performRequest_sent c req input sent hsent with ⟨hA, rfl⟩ | ⟨a, t, hA, hT, rfl⟩
  · exact ⟨[], by simp only [Client.performRequest, hA]; exact dispatch_of_response c req input [] resp hresp⟩
  · refine ⟨[.Token], ?_⟩
    simp only [Client.performRequest, hA, hT]
    exact dispatch_of_response c _ input [.Token] resp hresp

/-! ## Response validation (`performRequest`, `containsStatusCode`) -/

/-- C1: when the HTTP client answers the dispatched request with `resp`,
`performRequest` returns `resp` with a nil error if and only if the status code is
in the input's valid status codes or the input's status predicate is non-nil and
accepts `resp`; accepted or rejected, the returned status is the response's. -/
theorem performRequest_accepts_iff (c : Client) (req : Request) (input : HttpRequestInput)
    (sent : Request) (resp : Response)
    (hsent : Event.Do sent ∈ (c.performRequest req input).trace)
    (hresp : c.httpClient.Do sent = .ok resp) :
    (((c.performRequest req input).resp = some resp ∧ (c.performRequest req input).err = none) ↔
      (resp.StatusCode ∈ input.GetValidStatusCodes ∨
        ∃ f, input.GetValidStatusFunc = some f ∧ f resp = true)) ∧
    (c.performRequest req input).status = resp.StatusCode := by
  obtain ⟨tr, h⟩ := performRequest_of_response c req input sent resp hsent hresp
  rw [h, ← containsStatusCode_iff, ← acceptedByFunc_iff]
  by_cases hok : containsStatusCode input.GetValidStatusCodes resp.StatusCode = true
      ∨ acceptedByFunc input resp = true
  · simp only [if_pos hok, and_self, true_iff]
    exact ⟨hok, trivial⟩
  · simp only [if_neg hok]
    exact ⟨⟨fun h => by simp at h, fun h => absurd h hok⟩, trivial⟩

theorem performRequest_accepts_iff_witness :
    (((notFoundClient.performRequest plainRequest okOrNotFound).resp = some notFoundResponse ∧
        (notFoundClient.performRequest plainRequest okOrNotFound).err = none) ↔
      (notFoundResponse.StatusCode ∈ okOrNotFound.GetValidStatusCodes ∨
        ∃ f, okOrNotFound.GetValidStatusFunc = some f ∧ f notFoundResponse = true)) ∧
    (notFoundClient.performRequest plainRequest okOrNotFound).status
      = notFoundResponse.StatusCode :=
  performRequest_accepts_iff notFoundClient plainRequest okOrNotFound
    (notFoundClient.addHeaders plainRequest) notFoundResponse (by decide) rfl

theorem go_slash : go "/" = [ch '/'] := by decide

theorem buildUrl_of_parse (c : Client) (uri : Uri) (u : URL) (h : Parse c.Endpoint = .ok u) :
    c.buildUrl uri = .ok { u with
      Path := joinedPath c uri
      RawQuery := match uri.Params with
        | some params => Values.Encode params
        | none => u.RawQuery } := by
  unfold Client.buildUrl joinedPath
  rw [h]
  cases uri.HasTenantId <;> cases uri.Params <;> simp

theorem escape_cons (mode : Encoding) (b : UInt8) (s : GoString) :
    escape (b :: s) mode = escapeByte mode b ++ escape s mode := by
  simp [escape]

theorem escape_joinedPath (c : Client) (uri : Uri) :
    ∃ rest, escape (joinedPath c uri) .encodePath = ch '/' :: rest := by
  refine ⟨escape (c.ApiVersion ++ (if uri.HasTenantId then go "/" ++ c.TenantId else [])
    ++ go "/" ++ TrimLeft uri.Entity (ch '/')) .encodePath, ?_⟩
  have hb : escapeByte .encodePath (ch '/') = [ch '/'] := by decide
  simp only [joinedPath, go_slash, List.append_assoc, List.singleton_append, List.cons_append,
    List.nil_append, escape_cons, hb]

theorem joinedPath_ne_star (c : Client) (uri : Uri) : joinedPath c uri ≠ go "*" := by
  have h2 : go "*" = [ch '*'] := by decide
  have h3 : ch '/' ≠ ch '*' := by decide
  simp only [joinedPath, go_slash, h2, List.append_assoc, List.singleton_append, List.cons_append]
  intro h
  exact h3 (List.cons.inj h).1

/-- C3 (as the code has it): when the endpoint root parses to a scheme and a host
(with nothing but, possibly, a path after them), `buildUri` returns
scheme `://` host, then the percent-escaped path `/apiVersion[/tenantId]/entity`
(entity without its leading slashes, tenant segment exactly when `HasTenantId`),
then `?` and the encoded query when parameters are given and encode to something. -/
theorem buildUri_of_scheme_host (c : Client) (uri : Uri) (scheme host rootPath : GoString)
    (hparse : Parse c.Endpoint = .ok { Scheme := scheme, Host := host, Path := rootPath })
    (hscheme : scheme ≠ []) (hhost : host ≠ []) :
    c.buildUri uri =
      (scheme ++ go "://" ++ escape host .encodeHost ++ escape (joinedPath c uri) .encodePath
        ++ (match uri.Params with
            | some params => if Values.Encode params = [] then [] else go "?" ++ Values.Encode params
            | none => []),
       none) := by
  obtain ⟨rest, hrest⟩ := escape_joinedPath c uri
  have hstar := joinedPath_ne_star c uri
  have hcolon : go "://" = go ":" ++ go "//" := by decide
  have hne : ∀ x : GoString, scheme ++ go ":" ++ go "//" ++ x ≠ [] := by
    intro x hx
    simp only [List.append_assoc, List.append_eq_nil] at hx
    exact hscheme hx.1
  unfold Client.buildUri
  rw [buildUrl_of_parse c uri _ hparse]
  cases hp : uri.Params with
  | none =>
    simp [URL.String, URL.hierPart, URL.EscapedPath, hscheme, hhost, hstar, hrest, hcolon, hne]
  | some params =>
    by_cases hq : Values.Encode params = []
    · simp [URL.String, URL.hierPart, URL.EscapedPath, hscheme, hhost, hstar, hrest, hcolon, hne, hq]
    · simp [URL.String, URL.hierPart, URL.EscapedPath, hscheme, hhost, hstar, hrest, hcolon, hne, hq]

theorem buildUri_of_scheme_host_witness :
    noTenantClient.buildUri tenantUsersUri =
      (go "https" ++ go "://" ++ escape (go "graph.microsoft.com") .encodeHost
        ++ escape (joinedPath noTenantClient tenantUsersUri) .encodePath
        ++ (match tenantUsersUri.Params with
            | some params => if Values.Encode params = [] then [] else go "?" ++ Values.Encode params
            | none => []),
       none) :=
  buildUri_of_scheme_host noTenantClient tenantUsersUri (go "https") (go "graph.microsoft.com") []
    rfl (by decide) (by decide)

/-- C3 fails as stated: for the root `https://example.com/graph`, which parses,
`buildUri` returns `https://example.com/v1.0/users`; the root's path is replaced,
so the result is not root + `/v1.0/users`. -/
theorem buildUri_replaces_root_path :
    (∃ u, Parse pathRootClient.Endpoint = .ok u) ∧
    pathRootClient.buildUri usersUri = (go "https://example.com/v1.0/users", none) ∧
    specUri pathRootClient usersUri = go "https://example.com/graph/v1.0/users" ∧
    (pathRootClient.buildUri usersUri).1 ≠ specUri pathRootClient usersUri := by
  refine ⟨⟨_, rfl⟩, ?_, ?_, ?_⟩ <;> decide

/-- C4 (as the code has it): `buildUri` returns an error exactly when `url.Parse`
rejects the endpoint root, and then it returns the empty string with that error;
a root that parses, relative or absolute, yields no error. -/
theorem buildUri_error_iff (c : Client) (uri : Uri) :
    ((c.buildUri uri).2 ≠ none ↔ ∃ e, Parse c.Endpoint = .error e) ∧
    (∀ e, Parse c.Endpoint = .error e → c.buildUri uri = ([], some (.parse e))) := by
  unfold Client.buildUri Client.buildUrl
  cases h : Parse c.Endpoint with
  | error e => simp
  | ok u => cases uri.Params <;> simp

theorem buildUri_error_iff_witness :
    badRootClient.buildUri usersUri = ([], some (.parse (.invalidHostError (go " ")))) :=
  (buildUri_error_iff badRootClient usersUri).2 _ rfl

/-- C4 fails as stated: the root `graph.microsoft.com` has no scheme, so it is a
relative reference, yet `buildUri` returns `/v1.0/users` and a nil error. -/
theorem buildUri_accepts_relative_root :
    (∃ u, Parse relativeRootClient.Endpoint = .ok u ∧ u.Scheme = [] ∧ u.Host = []) ∧
    relativeRootClient.buildUri usersUri = (go "/v1.0/users", none) := by
  refine ⟨⟨_, rfl, ?_, ?_⟩, ?_⟩ <;> decide

theorem hasDoubleSlash_cons (a : UInt8) (s : GoString) :
    hasDoubleSlash (a :: s) = ((a == ch '/' && s.head? == some (ch '/')) || hasDoubleSlash s) := by
  cases s with
  | nil => simp [hasDoubleSlash]
  | cons b rest => simp [hasDoubleSlash]

theorem hasDoubleSlash_append (xs ys : GoString) :
    hasDoubleSlash (xs ++ ys) =
      (hasDoubleSlash xs || hasDoubleSlash ys ||
        (xs.getLast? == some (ch '/') && ys.head? == some (ch '/'))) := by
  induction xs with
  | nil => simp [hasDoubleSlash]
  | cons a rest ih =>
    rw [List.cons_append, hasDoubleSlash_cons, ih, hasDoubleSlash_cons]
    cases rest with
    | nil => cases hy : hasDoubleSlash ys <;> simp [hasDoubleSlash]
    | cons b rest2 =>
      simp only [List.cons_append, List.head?_cons, List.getLast?_cons_cons]
      cases (a == ch '/' && some b == some (ch '/')) <;> simp [Bool.or_assoc]

/-- Appending a slash and a segment that starts with no slash adds no double slash. -/
theorem hasDoubleSlash_join (xs seg : GoString) (hx : hasDoubleSlash xs = false)
    (hlast : xs.getLast? ≠ some (ch '/')) (hhead : seg.head? ≠ some (ch '/'))
    (hds : hasDoubleSlash seg = false) :
    hasDoubleSlash (xs ++ go "/" ++ seg) = false := by
  rw [List.append_assoc, hasDoubleSlash_append, go_slash, List.singleton_append,
    hasDoubleSlash_cons, hx, hds]
  simp [hlast, hhead]

theorem getLast?_join (xs seg : GoString) (hseg : cleanSegment seg) :
    (xs ++ go "/" ++ seg).getLast? ≠ some (ch '/') := by
  rw [List.getLast?_append_of_ne_nil _ hseg.1]
  exact hseg.2.2.1

theorem head?_TrimLeft (s : GoString) (cut : UInt8) : (TrimLeft s cut).head? ≠ some cut := by
  unfold TrimLeft
  intro h
  have := List.head?_dropWhile_not (· == cut) s
  rw [h] at this
  simp at this

/-- Per byte: what `escape` writes in path mode holds no double slash, and it starts
or ends with a slash only for the slash itself. -/
theorem escapeByte_path_slash (a : UInt8) :
    hasDoubleSlash (escapeByte .encodePath a) = false ∧
    ((escapeByte .encodePath a).getLast? == some (ch '/')) = (a == ch '/') ∧
    ((escapeByte .encodePath a).head? == some (ch '/')) = (a == ch '/') ∧
    escapeByte .encodePath a ≠ [] := by
  have key : ∀ n : Fin 256,
      hasDoubleSlash (escapeByte .encodePath ⟨BitVec.ofFin n⟩) = false ∧
      ((escapeByte .encodePath ⟨BitVec.ofFin n⟩).getLast? == some (ch '/'))
        = ((⟨BitVec.ofFin n⟩ : UInt8) == ch '/') ∧
      ((escapeByte .encodePath ⟨BitVec.ofFin n⟩).head? == some (ch '/'))
        = ((⟨BitVec.ofFin n⟩ : UInt8) == ch '/') ∧
      escapeByte .encodePath ⟨BitVec.ofFin n⟩ ≠ [] := by
    set_option maxRecDepth 100000 in decide
  exact key a.toBitVec.toFin

/-- Percent-escaping a path neither adds nor removes a double slash. -/
theorem hasDoubleSlash_escape (s : GoString) :
    hasDoubleSlash (escape s .encodePath) = hasDoubleSlash s ∧
    ((escape s .encodePath).head? == some (ch '/')) = (s.head? == some (ch '/')) := by
  induction s with
  | nil => simp [escape, hasDoubleSlash]
  | cons a rest ih =>
    obtain ⟨h1, h2, h3, h4⟩ := escapeByte_path_slash a
    rw [escape_cons, hasDoubleSlash_append, hasDoubleSlash_cons, h1, h2, ih.1, ih.2,
      List.head?_append_of_ne_nil _ h4, h3]
    simp [Bool.or_comm]

/-- C5 (as the code has it): `buildUri` strips the leading slashes of the entity
and joins the segments with one slash each, so the path it builds has no double
slash whenever the API version and (when `HasTenantId`) the tenant id are clean
segments and the entity holds no double slash after its leading slashes. -/
theorem buildUrl_no_double_slash (c : Client) (uri : Uri) (u : URL)
    (hbuilt : c.buildUrl uri = .ok u)
    (hversion : cleanSegment c.ApiVersion)
    (htenant : uri.HasTenantId = true → cleanSegment c.TenantId)
    (hentity : hasDoubleSlash (TrimLeft uri.Entity (ch '/')) = false) :
    u.Path = joinedPath c uri ∧ hasDoubleSlash u.Path = false ∧
      hasDoubleSlash (escape u.Path .encodePath) = false := by
  rw [(hasDoubleSlash_escape u.Path).1, and_self]
  have hpath : u.Path = joinedPath c uri := by
    cases hp : Parse c.Endpoint with
    | error e => simp [Client.buildUrl, hp] at hbuilt
    | ok v =>
      rw [buildUrl_of_parse c uri v hp] at hbuilt
      cases hbuilt
      rfl
  refine ⟨hpath, ?_⟩
  rw [hpath]
  have h1 : hasDoubleSlash (go "/" ++ c.ApiVersion) = false :=
    hasDoubleSlash_join [] c.ApiVersion rfl (by simp) hversion.2.1 hversion.2.2.2
  have h1l : (go "/" ++ c.ApiVersion).getLast? ≠ some (ch '/') :=
    getLast?_join [] c.ApiVersion hversion
  unfold joinedPath
  cases ht : uri.HasTenantId with
  | false =>
    simp only [Bool.false_eq_true, if_false, List.append_nil]
    exact hasDoubleSlash_join _ _ h1 h1l (head?_TrimLeft _ _) hentity
  | true =>
    have hT := htenant ht
    simp only [if_true, ← List.append_assoc]
    exact hasDoubleSlash_join _ _
      (hasDoubleSlash_join _ _ h1 h1l hT.2.1 hT.2.2.2) (getLast?_join _ _ hT) (head?_TrimLeft _ _) hentity

theorem buildUrl_no_double_slash_witness :
    tenantUsersUrl.Path = joinedPath tenantClient tenantUsersUri ∧
      hasDoubleSlash tenantUsersUrl.Path = false ∧
      hasDoubleSlash (escape tenantUsersUrl.Path .encodePath) = false :=
  buildUrl_no_double_slash tenantClient tenantUsersUri tenantUsersUrl rfl (by decide)
    (fun _ => by decide) (by decide)

/-- C5 fails as stated: with `HasTenantId` set and an empty tenant id, the path built
for entity `/users` is `/v1.0//users`, which holds a double slash. -/
theorem buildUri_empty_tenant_double_slash :
    noTenantClient.buildUri tenantUsersUri =
      (go "https://graph.microsoft.com/v1.0//users?%24top=5", none) ∧
    (noTenantClient.buildUrl tenantUsersUri).map (fun u => u.Path) = .ok (go "/v1.0//users") ∧
    hasDoubleSlash (go "/v1.0//users") = true :=
  ⟨by decide, rfl, by decide⟩

/-! ## Authenticated transport (`performRequest`) -/

theorem find?_putEntry (key k : GoString) (vs : List GoString)
    (es : List (GoString × List GoString)) :
    ((putEntry key vs es).find? (fun e => e.1 == k)) =
      if k = key then some (key, vs) else es.find? (fun e => e.1 == k) := by
  induction es with
  | nil =>
    by_cases h : k = key
    · simp [putEntry, h]
    · simp [putEntry, h, Ne.symm h]
  | cons e rest ih =>
    obtain ⟨k1, v1⟩ := e
    by_cases h1 : k1 = key
    · by_cases h : k = key
      · simp [putEntry, h1, h]
      · simp [putEntry, h1, h, Ne.symm h]
    · by_cases h : k1 = k
      · have hk : k ≠ key := fun hk => h1 (h.trans hk)
        simp [putEntry, h1, h, hk]
      · simp [putEntry, h1, h, ih]

theorem Values_Add (h : Header) (key value k : GoString) :
    (h.Add key value).Values k = if k = key then h.Values key ++ [value] else h.Values k := by
  unfold Header.Add Header.Values
  simp only [find?_putEntry]
  by_cases hk : k = key <;> simp [hk]

theorem Values_Set (h : Header) (key value k : GoString) :
    (h.Set key value).Values k = if k = key then [value] else h.Values k := by
  unfold Header.Set Header.Values
  simp only [find?_putEntry]
  by_cases hk : k = key <;> simp [hk]

/-- The header values of the request after lines 80-85. -/
theorem Values_addHeaders (c : Client) (req : Request) (k : GoString) :
    (c.addHeaders req).Header.Values k =
      req.Header.Values k
        ++ (if k = go "Accept" then [go "application/json"] else [])
        ++ (if k = go "Content-Type" then [go "application/json; charset=utf-8"] else [])
        ++ (if k = go "User-Agent" ∧ c.UserAgent ≠ [] then [c.UserAgent] else []) := by
  have h1 : go "Content-Type" ≠ go "Accept" := by decide
  have h2 : go "User-Agent" ≠ go "Accept" := by decide
  have h3 : go "User-Agent" ≠ go "Content-Type" := by decide
  unfold Client.addHeaders
  by_cases hua : c.UserAgent = []
  · by_cases ka : k = go "Accept"
    · simp [hua, Values_Add, ka, h1.symm, h2.symm]
    · by_cases kc : k = go "Content-Type"
      · simp [hua, Values_Add, kc, h1, h3.symm]
      · simp [hua, Values_Add, ka, kc]
  · by_cases ka : k = go "Accept"
    · simp [hua, Values_Add, ka, h1.symm, h2.symm]
    · by_cases kc : k = go "Content-Type"
      · simp [hua, Values_Add, kc, h1, h3.symm]
      · by_cases ku : k = go "User-Agent"
        · simp [hua, Values_Add, ku, h2, h3]
        · simp [hua, Values_Add, ka, kc, ku]

/-- The shape of every run of `dispatch`: one `Do`, then `ReadAll` and `Close` on
the reject path only. -/
theorem dispatch_trace (c : Client) (r : Request) (input : HttpRequestInput) (tr : List Event) :
    (c.dispatch r input tr).trace = tr ++ [.Do (c.addHeaders r)] ∨
    (c.dispatch r input tr).trace = tr ++ [.Do (c.addHeaders r), .ReadAll, .Close] := by
  unfold Client.dispatch
  simp only
  split
  · exact Or.inl rfl
  · split
    · split
      · exact Or.inl rfl
      · exact Or.inr rfl
    · exact Or.inl rfl

theorem dispatch_of_error (c : Client) (r : Request) (input : HttpRequestInput)
    (tr : List Event) (e : Error) (h : c.httpClient.Do (c.addHeaders r) = .error e) :
    c.dispatch r input tr = ⟨none, 0, some e, tr ++ [.Do (c.addHeaders r)]⟩ := by
  unfold Client.dispatch
  simp only [h]

/-- C6: with an authorizer configured, `performRequest` asks it for a token first:
if `Token()` fails the result is `(nil, 0, that error)` and nothing is sent; if it
succeeds the request is sent after the token call with the token as its
`Authorization` header; without an authorizer the request is sent with no token
call and its `Authorization` values untouched. -/
theorem performRequest_token (c : Client) (req : Request) (input : HttpRequestInput) :
    (∀ a e, c.Authorizer = some a → a.Token = .error e →
      c.performRequest req input = ⟨none, 0, some e, [.Token]⟩) ∧
    (∀ a t, c.Authorizer = some a → a.Token = .ok t →
      (∃ rest, (c.performRequest req input).trace
          = .Token :: .Do (c.addHeaders (t.SetAuthHeader req)) :: rest
        ∧ ∀ ev ∈ rest, isDo ev = false) ∧
      (c.addHeaders (t.SetAuthHeader req)).Header.Get (go "Authorization") = t.authorization) ∧
    (c.Authorizer = none →
      (∃ rest, (c.performRequest req input).trace = .Do (c.addHeaders req) :: rest
        ∧ ∀ ev ∈ rest, isDo ev = false ∧ isToken ev = false) ∧
      (c.addHeaders req).Header.Values (go "Authorization")
        = req.Header.Values (go "Authorization")) := by
  have k1 : go "Authorization" ≠ go "Accept" := by decide
  have k2 : go "Authorization" ≠ go "Content-Type" := by decide
  have k3 : go "Authorization" ≠ go "User-Agent" := by decide
  refine ⟨?_, ?_, ?_⟩
  · intro a e hA hT
    simp [Client.performRequest, hA, hT]
  · intro a t hA hT
    constructor
    · simp only [Client.performRequest, hA, hT]
      rcases dispatch_trace c (t.SetAuthHeader req) input [.Token] with h | h
      · exact ⟨[], by simpa using h, by simp⟩
      · exact ⟨[.ReadAll, .Close], by simpa using h, by simp [isDo]⟩
    · unfold Header.Get
      rw [Values_addHeaders]
      simp [k1, k2, k3, Token.SetAuthHeader, Values_Set]
  · intro hA
    constructor
    · simp only [Client.performRequest, hA]
      rcases dispatch_trace c req input [] with h | h
      · exact ⟨[], by simpa using h, by simp⟩
      · exact ⟨[.ReadAll, .Close], by simpa using h, by simp [isDo, isToken]⟩
    · rw [Values_addHeaders]
      simp [k1, k2, k3]

theorem performRequest_token_witness :
    failingTokenClient.performRequest plainRequest okOnly
      = ⟨none, 0, some (.text (go "no token")), [.Token]⟩ ∧
    ((∃ rest, (bearerClient.performRequest plainRequest okOnly).trace
          = .Token :: .Do (bearerClient.addHeaders
              (Token.SetAuthHeader ⟨go "Bearer abc"⟩ plainRequest)) :: rest
        ∧ ∀ ev ∈ rest, isDo ev = false) ∧
      (bearerClient.addHeaders (Token.SetAuthHeader ⟨go "Bearer abc"⟩ plainRequest)).Header.Get
        (go "Authorization") = go "Bearer abc") ∧
    ((∃ rest, (notFoundClient.performRequest plainRequest okOnly).trace
          = .Do (notFoundClient.addHeaders plainRequest) :: rest
        ∧ ∀ ev ∈ rest, isDo ev = false ∧ isToken ev = false) ∧
      (notFoundClient.addHeaders plainRequest).Header.Values (go "Authorization")
        = plainRequest.Header.Values (go "Authorization")) :=
  ⟨(performRequest_token failingTokenClient plainRequest okOnly).1 _ _ rfl rfl,
   (performRequest_token bearerClient plainRequest okOnly).2.1 _ _ rfl rfl,
   (performRequest_token notFoundClient plainRequest okOnly).2.2 rfl⟩

/-- C7: every call of `performRequest` asks for a token at most once and hands the
request to the HTTP client at most once; a failure of the send is returned as
`(nil, 0, error)`; a 401 answer that the acceptance policy does not accept is
returned as a failure with status 401, after that single send. -/
theorem performRequest_single_send (c : Client) (req : Request) (input : HttpRequestInput) :
    ((c.performRequest req input).trace.countP isDo ≤ 1 ∧
      (c.performRequest req input).trace.countP isToken ≤ 1) ∧
    (∀ sent e, Event.Do sent ∈ (c.performRequest req input).trace →
      c.httpClient.Do sent = .error e →
      (c.performRequest req input).resp = none ∧ (c.performRequest req input).status = 0 ∧
        (c.performRequest req input).err = some e) ∧
    (∀ sent resp, Event.Do sent ∈ (c.performRequest req input).trace →
      c.httpClient.Do sent = .ok resp → resp.StatusCode = 401 →
      (401 : Int) ∉ input.GetValidStatusCodes →
      (∀ f, input.GetValidStatusFunc = some f → f resp = false) →
      (c.performRequest req input).resp = none ∧ (c.performRequest req input).status = 401 ∧
        (c.performRequest req input).err ≠ none ∧
        (c.performRequest req input).trace.countP isDo = 1) := by
  refine ⟨?_, ?_, ?_⟩
  · unfold Client.performRequest
    cases hA : c.Authorizer with
    | none =>
      rcases dispatch_trace c req input [] with h | h <;> simp [h, isDo, isToken]
    | some a =>
      cases hT : a.Token with
      | error e => simp [hT, isDo, isToken]
      | ok t =>
        rcases dispatch_trace c (t.SetAuthHeader req) input [.Token] with h | h <;>
          simp [hT, h, isDo, isToken]
  · intro sent e hsent hdo
    rcases performRequest_sent c req input sent hsent with ⟨hA, rfl⟩ | ⟨a, t, hA, hT, rfl⟩
    · simp [Client.performRequest, hA, dispatch_of_error c req input [] e hdo]
    · simp [Client.performRequest, hA, hT, dispatch_of_error c _ input [.Token] e hdo]
  · intro sent resp hsent hdo h401 hcode hfunc
    have hno : ¬ (containsStatusCode input.GetValidStatusCodes resp.StatusCode = true
        ∨ acceptedByFunc input resp = true) := by
      rw [containsStatusCode_iff, acceptedByFunc_iff, h401]
      rintro (h1 | ⟨f, hf, hacc⟩)
      · exact hcode h1
      · rw [hfunc f hf] at hacc
        exact Bool.false_ne_true hacc
    rw [h401] at hno
    rcases performRequest_sent c req input sent hsent with ⟨hA, rfl⟩ | ⟨a, t, hA, hT, rfl⟩
    · simp [Client.performRequest, hA, dispatch_of_response c req input [] resp hdo, hno, h401,
        isDo]
    · simp [Client.performRequest, hA, hT, dispatch_of_response c _ input [.Token] resp hdo, hno,
        h401, isDo]

theorem performRequest_single_send_witness :
    ((offlineClient.performRequest plainRequest okOnly).resp = none ∧
      (offlineClient.performRequest plainRequest okOnly).status = 0 ∧
      (offlineClient.performRequest plainRequest okOnly).err
        = some (.text (go "dial tcp: timeout"))) ∧
    ((bearerClient.performRequest plainRequest okOnly).resp = none ∧
      (bearerClient.performRequest plainRequest okOnly).status = 401 ∧
      (bearerClient.performRequest plainRequest okOnly).err ≠ none ∧
      (bearerClient.performRequest plainRequest okOnly).trace.countP isDo = 1) :=
  ⟨(performRequest_single_send offlineClient plainRequest okOnly).2.1
      (offlineClient.addHeaders plainRequest) _ (by decide) rfl,
   (performRequest_single_send bearerClient plainRequest okOnly).2.2
      (bearerClient.addHeaders (Token.SetAuthHeader ⟨go "Bearer abc"⟩ plainRequest))
      unauthorizedResponse (by decide) rfl rfl (by decide) (fun f hf => by cases hf)⟩

/-- C8 (as the code has it): for every request `performRequest` dispatches,
`application/json` is appended to the `Accept` values the request carried and
`application/json; charset=utf-8` to its `Content-Type` values, so a request that
carried neither header is dispatched with exactly these; the client's `UserAgent`
is appended to the `User-Agent` values if and only if it is non-empty. -/
theorem performRequest_headers (c : Client) (req : Request) (input : HttpRequestInput)
    (sent : Request) (hsent : Event.Do sent ∈ (c.performRequest req input).trace) :
    sent.Header.Values (go "Accept") = req.Header.Values (go "Accept") ++ [go "application/json"] ∧
    sent.Header.Values (go "Content-Type")
      = req.Header.Values (go "Content-Type") ++ [go "application/json; charset=utf-8"] ∧
    sent.Header.Values (go "User-Agent")
      = req.Header.Values (go "User-Agent") ++ (if c.UserAgent ≠ [] then [c.UserAgent] else []) ∧
    (req.Header.Values (go "Accept") = [] → sent.Header.Get (go "Accept") = go "application/json") ∧
    (req.Header.Values (go "Content-Type") = [] →
      sent.Header.Get (go "Content-Type") = go "application/json; charset=utf-8") := by
  have h1 : go "Content-Type" ≠ go "Accept" := by decide
  have h2 : go "User-Agent" ≠ go "Accept" := by decide
  have h3 : go "User-Agent" ≠ go "Content-Type" := by decide
  have k1 : go "Authorization" ≠ go "Accept" := by decide
  have k2 : go "Authorization" ≠ go "Content-Type" := by decide
  have k3 : go "Authorization" ≠ go "User-Agent" := by decide
  have key : ∀ k, k ≠ go "Authorization" →
      sent.Header.Values k = (c.addHeaders req).Header.Values k := by
    intro k hk
    rcases performRequest_sent c req input sent hsent with ⟨_, rfl⟩ | ⟨a, t, _, _, rfl⟩
    · rfl
    · rw [Values_addHeaders, Values_addHeaders]
      simp [Token.SetAuthHeader, Values_Set, hk]
  have hA := key _ k1.symm
  have hC := key _ k2.symm
  have hU := key _ k3.symm
  rw [Values_addHeaders] at hA hC hU
  simp only [h1, h1.symm, h2, h2.symm, h3, h3.symm, if_true, if_false, false_and, true_and,
    List.append_nil] at hA hC hU
  refine ⟨hA, hC, hU, ?_, ?_⟩
  · intro h
    simp [Header.Get, hA, h]
  · intro h
    simp [Header.Get, hC, h]

theorem performRequest_headers_witness :
    (notFoundClient.addHeaders plainRequest).Header.Values (go "Accept")
      = plainRequest.Header.Values (go "Accept") ++ [go "application/json"] ∧
    (notFoundClient.addHeaders plainRequest).Header.Values (go "Content-Type")
      = plainRequest.Header.Values (go "Content-Type") ++ [go "application/json; charset=utf-8"] ∧
    (notFoundClient.addHeaders plainRequest).Header.Values (go "User-Agent")
      = plainRequest.Header.Values (go "User-Agent")
        ++ (if notFoundClient.UserAgent ≠ [] then [notFoundClient.UserAgent] else []) ∧
    (plainRequest.Header.Values (go "Accept") = [] →
      (notFoundClient.addHeaders plainRequest).Header.Get (go "Accept") = go "application/json") ∧
    (plainRequest.Header.Values (go "Content-Type") = [] →
      (notFoundClient.addHeaders plainRequest).Header.Get (go "Content-Type")
        = go "application/json; charset=utf-8") :=
  performRequest_headers notFoundClient plainRequest okOnly
    (notFoundClient.addHeaders plainRequest) (by decide)

/-- C8 fails as stated: a request that already carries `Accept: text/html` is
dispatched with the values `text/html`, `application/json`, and its `Accept` header
(the first value) is still `text/html`. -/
theorem performRequest_keeps_carried_accept :
    Event.Do (notFoundClient.addHeaders htmlRequest)
      ∈ (notFoundClient.performRequest htmlRequest okOnly).trace ∧
    (notFoundClient.addHeaders htmlRequest).Header.Values (go "Accept")
      = [go "text/html", go "application/json"] ∧
    (notFoundClient.addHeaders htmlRequest).Header.Get (go "Accept") = go "text/html" ∧
    (notFoundClient.addHeaders htmlRequest).Header.Get (go "Accept") ≠ go "application/json" := by
  refine ⟨?_, ?_, ?_, ?_⟩ <;> decide

/-! ### Credential create -/

theorem copyCredentials_of_absent (keyId : GoString) (creds acc : List PasswordCredential)
    (h : ∀ cred ∈ creds, cred.KeyId ≠ some keyId) :
    copyCredentials keyId creds acc = some (acc ++ creds) := by
  induction creds generalizing acc with
  | nil => simp [copyCredentials]
  | cons cred rest ih =>
    have h1 : cred.KeyId ≠ some keyId := h cred (List.mem_cons_self _ _)
    have h2 : ∀ c ∈ rest, c.KeyId ≠ some keyId := fun c hc => h c (List.mem_cons_of_mem _ hc)
    simp [copyCredentials, h1, ih _ h2]

theorem copyCredentials_of_present (keyId : GoString) (creds acc : List PasswordCredential)
    (h : ∃ cred ∈ creds, cred.KeyId = some keyId) :
    copyCredentials keyId creds acc = none := by
  induction creds generalizing acc with
  | nil => simp at h
  | cons cred rest ih =>
    by_cases h1 : cred.KeyId = some keyId
    · simp [copyCredentials, h1]
    · obtain ⟨c, hc, hk⟩ := h
      rcases List.mem_cons.mp hc with rfl | hc
      · exact absurd hk h1
      · simp [copyCredentials, h1, ih _ ⟨c, hc, hk⟩]

/-- A read sends no `Update`. -/
theorem read_trace_no_update {σ : Type} (env : Env σ) (d : ResourceData) (backend : σ) :
    (applicationPasswordResourceReadMsGraph env d backend).trace.filter isUpdate = [] := by
  unfold applicationPasswordResourceReadMsGraph
  split
  · rfl
  · split
    · split <;> rfl
    · split
      · rfl
      · split <;> rfl

/-- C9: when the candidate's key id is already the key of an entry of the password
credentials fetched from the parent, create returns the import-as-exists
diagnostics, sends no `Update`, and leaves the resource data (the handle included)
as it was. -/
theorem create_existing_key {σ : Type} (env : Env σ) (d : ResourceData) (backend backend1 : σ)
    (candidate : PasswordCredential) (keyId : GoString) (app : Application) (status : Int)
    (creds : List PasswordCredential)
    (hcandidate : env.PasswordCredentialForResource d = .ok candidate)
    (hkey : candidate.KeyId = some keyId)
    (hget : env.client.Get backend
      (env.NewCredentialID (d.GetString (go "application_object_id")) (go "password")
        keyId).ObjectId = (.ok app status, backend1))
    (hcreds : app.PasswordCredentials = some creds)
    (hpresent : ∃ cred ∈ creds, cred.KeyId = some keyId) :
    (applicationPasswordResourceCreateMsGraph env d backend).exit =
      .returned (some (.ImportAsExistsDiag (go "azuread_application_password")
        (env.String (env.NewCredentialID (d.GetString (go "application_object_id"))
          (go "password") keyId)))) ∧
    (applicationPasswordResourceCreateMsGraph env d backend).trace.filter isUpdate = [] ∧
    (applicationPasswordResourceCreateMsGraph env d backend).d = d ∧
    (applicationPasswordResourceCreateMsGraph env d backend).backend = backend1 := by
  have hcopy := copyCredentials_of_present keyId creds [] hpresent
  simp [applicationPasswordResourceCreateMsGraph, hcandidate, hkey, hget, hcreds, hcopy, isUpdate]

theorem create_existing_key_witness :
    (applicationPasswordResourceCreateMsGraph fakeEnv (p1Config "k0") p1Directory).exit =
      .returned (some (.ImportAsExistsDiag (go "azuread_application_password")
        (fakeEnv.String (fakeEnv.NewCredentialID
          ((p1Config "k0").GetString (go "application_object_id")) (go "password") (go "k0"))))) ∧
    (applicationPasswordResourceCreateMsGraph fakeEnv (p1Config "k0") p1Directory).trace.filter
      isUpdate = [] ∧
    (applicationPasswordResourceCreateMsGraph fakeEnv (p1Config "k0") p1Directory).d
      = p1Config "k0" ∧
    (applicationPasswordResourceCreateMsGraph fakeEnv (p1Config "k0") p1Directory).backend
      = p1Directory :=
  create_existing_key fakeEnv (p1Config "k0") p1Directory p1Directory
    ⟨some (go "k0"), some (go "terraform"), none, none⟩ (go "k0")
    ⟨some (go "p1"), some [credentialOf "k0"]⟩ 200 [credentialOf "k0"]
    rfl rfl rfl rfl ⟨credentialOf "k0", List.mem_singleton.mpr rfl, rfl⟩

/-- C10: when the parent is fetched and none of its password credentials has the
candidate's key, create sends exactly one `Update`, whose collection is the
parent's existing collection in its order followed by the candidate; a parent
without collection gets the one-element collection of the candidate. -/
theorem create_appends_candidate {σ : Type} (env : Env σ) (d : ResourceData)
    (backend backend1 : σ) (candidate : PasswordCredential) (keyId : GoString)
    (app : Application) (status : Int)
    (hcandidate : env.PasswordCredentialForResource d = .ok candidate)
    (hkey : candidate.KeyId = some keyId)
    (hget : env.client.Get backend
      (env.NewCredentialID (d.GetString (go "application_object_id")) (go "password")
        keyId).ObjectId = (.ok app status, backend1))
    (habsent : ∀ cred ∈ app.PasswordCredentials.getD [], cred.KeyId ≠ some keyId) :
    (applicationPasswordResourceCreateMsGraph env d backend).trace.filter isUpdate =
      [.Update
        { ID := some (env.NewCredentialID (d.GetString (go "application_object_id"))
            (go "password") keyId).ObjectId
          PasswordCredentials := some (app.PasswordCredentials.getD [] ++ [candidate]) }] ∧
    (app.PasswordCredentials = none →
      (applicationPasswordResourceCreateMsGraph env d backend).trace.filter isUpdate =
        [.Update
          { ID := some (env.NewCredentialID (d.GetString (go "application_object_id"))
              (go "password") keyId).ObjectId
            PasswordCredentials := some [candidate] }]) := by
  have hcopy := copyCredentials_of_absent keyId (app.PasswordCredentials.getD []) [] habsent
  have main : (applicationPasswordResourceCreateMsGraph env d backend).trace.filter isUpdate =
      [.Update
        { ID := some (env.NewCredentialID (d.GetString (go "application_object_id"))
            (go "password") keyId).ObjectId
          PasswordCredentials := some (app.PasswordCredentials.getD [] ++ [candidate]) }] := by
    simp only [applicationPasswordResourceCreateMsGraph, hcandidate, hkey, hget, hcopy,
      List.nil_append]
    split
    · simp [isUpdate]
    · simp [isUpdate, read_trace_no_update]
  refine ⟨main, fun hnone => ?_⟩
  rw [main, hnone]
  rfl

theorem create_appends_candidate_witness :
    (applicationPasswordResourceCreateMsGraph fakeEnv (p1Config "k1") p1Directory).trace.filter
        isUpdate =
      [.Update ⟨some (go "p1"), some ([credentialOf "k0"]
        ++ [⟨some (go "k1"), some (go "terraform"), none, none⟩])⟩] ∧
    ((⟨some (go "p1"), some [credentialOf "k0"]⟩ : Application).PasswordCredentials = none →
      (applicationPasswordResourceCreateMsGraph fakeEnv (p1Config "k1") p1Directory).trace.filter
          isUpdate =
        [.Update ⟨some (go "p1"), some [⟨some (go "k1"), some (go "terraform"), none, none⟩]⟩]) :=
  create_appends_candidate fakeEnv (p1Config "k1") p1Directory p1Directory
    ⟨some (go "k1"), some (go "terraform"), none, none⟩ (go "k1")
    ⟨some (go "p1"), some [credentialOf "k0"]⟩ 200 rfl rfl rfl (by decide)

/-! ### Credential delete -/

/-- The slice the delete loop builds: the entries with a key id other than the
handle's key, in their order. -/
theorem keepCredentials_eq (keyId : GoString) (creds acc : List PasswordCredential) :
    keepCredentials keyId creds acc =
      acc ++ creds.filter (fun cred => decide (cred.KeyId ≠ none ∧ cred.KeyId ≠ some keyId)) := by
  induction creds generalizing acc with
  | nil => simp [keepCredentials]
  | cons cred rest ih =>
    cases hk : cred.KeyId with
    | none => simp [keepCredentials, hk, ih]
    | some k =>
      by_cases h : k = keyId
      · simp [keepCredentials, hk, h, ih]
      · simp [keepCredentials, hk, h, ih]

/-- The `Update` a delete sends once the parent is fetched. -/
theorem delete_trace_of_fetched {σ : Type} (env : Env σ) (d : ResourceData)
    (backend backend1 : σ) (id : CredentialId) (app : Application) (status : Int)
    (hid : env.PasswordID d.id = .ok id)
    (hget : env.client.Get backend id.ObjectId = (.ok app status, backend1)) :
    (applicationPasswordResourceDeleteMsGraph env d backend).trace =
      [.LockByName env.applicationResourceName id.ObjectId, .Get id.ObjectId,
        .Update
          { ID := some id.ObjectId
            PasswordCredentials := some ((app.PasswordCredentials.getD []).filter
              (fun cred => decide (cred.KeyId ≠ none ∧ cred.KeyId ≠ some id.KeyId))) },
        .UnlockByName env.applicationResourceName id.ObjectId] := by
  simp only [applicationPasswordResourceDeleteMsGraph, hid, hget, keepCredentials_eq,
    List.nil_append]
  split <;> rfl

/-- C11 fails as stated: at a parent holding a keyless entry, the key `…110` and two
entries with the key `…111`, deleting `…111` sends the collection with the one
entry `…110`; both entries with the key are removed and `…110` is kept, but the
keyless entry, whose key does not equal the handle's key, is not retained. -/
theorem delete_drops_keyless_entry :
    (applicationPasswordResourceDeleteMsGraph fakeEnv
        (tracked
          "8a1f0c52-3b7e-4d19-a6c4-0e5d2f9b7a31/password/11111111-1111-4111-8111-111111111111")
        mixedDirectory).trace.filter isUpdate
      = [.Update ⟨some (go "8a1f0c52-3b7e-4d19-a6c4-0e5d2f9b7a31"),
          some [credentialOf "11111111-1111-4111-8111-111111111110"]⟩] ∧
    keylessCredential.KeyId ≠ some (go "11111111-1111-4111-8111-111111111111") ∧
    [credentialOf "11111111-1111-4111-8111-111111111110"] ≠
      [keylessCredential, credentialOf "11111111-1111-4111-8111-111111111110"] := by
  refine ⟨?_, ?_, ?_⟩ <;> decide

/-- C11 (as the code has it): for every parent fetched successfully, the one `Update` of a
delete carries the parent's existing collection without the entries whose key
equals the handle's key and without the entries that have no key id: an entry is
sent exactly when it is in the existing collection with a key id other than the
handle's key, the entries sent are in their original order, and for a collection in
which every entry has a key id the collection sent is the existing one with exactly
the entries of the handle's key removed. -/
theorem delete_update_collection {σ : Type} (env : Env σ) (d : ResourceData)
    (backend backend1 : σ) (id : CredentialId) (app : Application) (status : Int)
    (hid : env.PasswordID d.id = .ok id)
    (hget : env.client.Get backend id.ObjectId = (.ok app status, backend1)) :
    (applicationPasswordResourceDeleteMsGraph env d backend).trace.filter isUpdate =
      [.Update
        { ID := some id.ObjectId
          PasswordCredentials := some ((app.PasswordCredentials.getD []).filter
            (fun cred => decide (cred.KeyId ≠ none ∧ cred.KeyId ≠ some id.KeyId))) }] ∧
    (∀ cred, cred ∈ (app.PasswordCredentials.getD []).filter
        (fun cred => decide (cred.KeyId ≠ none ∧ cred.KeyId ≠ some id.KeyId)) ↔
      cred ∈ app.PasswordCredentials.getD [] ∧ ∃ k, cred.KeyId = some k ∧ k ≠ id.KeyId) ∧
    List.Sublist ((app.PasswordCredentials.getD []).filter
        (fun cred => decide (cred.KeyId ≠ none ∧ cred.KeyId ≠ some id.KeyId)))
      (app.PasswordCredentials.getD []) ∧
    ((∀ cred ∈ app.PasswordCredentials.getD [], cred.KeyId ≠ none) →
      (app.PasswordCredentials.getD []).filter
          (fun cred => decide (cred.KeyId ≠ none ∧ cred.KeyId ≠ some id.KeyId)) =
        (app.PasswordCredentials.getD []).filter
          (fun cred => decide (cred.KeyId ≠ some id.KeyId))) := by
  refine ⟨?_, ?_, List.filter_sublist _, ?_⟩
  · rw [delete_trace_of_fetched env d backend backend1 id app status hid hget]
    rfl
  · intro cred
    rw [List.mem_filter]
    constructor
    · rintro ⟨hm, hk⟩
      refine ⟨hm, ?_⟩
      cases hkey : cred.KeyId with
      | none => simp [hkey] at hk
      | some k => exact ⟨k, rfl, by simpa [hkey] using hk⟩
    · rintro ⟨hm, k, hk, hne⟩
      exact ⟨hm, by simp [hk, hne]⟩
  · intro hkeyed
    apply List.filter_congr
    intro cred hm
    simp [hkeyed cred hm]

/-- The delete of the key `…111` in `mixedDirectory` sends one `Update`, with the
existing collection filtered. -/
theorem delete_update_collection_witness :
    (applicationPasswordResourceDeleteMsGraph fakeEnv
        (tracked
          "8a1f0c52-3b7e-4d19-a6c4-0e5d2f9b7a31/password/11111111-1111-4111-8111-111111111111")
        mixedDirectory).trace.filter isUpdate =
      [.Update
        { ID := some (go "8a1f0c52-3b7e-4d19-a6c4-0e5d2f9b7a31")
          PasswordCredentials := some
            ([keylessCredential, credentialOf "11111111-1111-4111-8111-111111111110",
              credentialOf "11111111-1111-4111-8111-111111111111",
              ⟨some (go "11111111-1111-4111-8111-111111111111"), some (go "twin"), none,
                none⟩].filter
              (fun cred => decide (cred.KeyId ≠ none ∧
                cred.KeyId ≠ some (go "11111111-1111-4111-8111-111111111111")))) }] :=
  (delete_update_collection fakeEnv
    (tracked
      "8a1f0c52-3b7e-4d19-a6c4-0e5d2f9b7a31/password/11111111-1111-4111-8111-111111111111")
    mixedDirectory mixedDirectory
    ⟨go "8a1f0c52-3b7e-4d19-a6c4-0e5d2f9b7a31", go "password",
      go "11111111-1111-4111-8111-111111111111"⟩
    ⟨some (go "8a1f0c52-3b7e-4d19-a6c4-0e5d2f9b7a31"),
      some [keylessCredential, credentialOf "11111111-1111-4111-8111-111111111110",
        credentialOf "11111111-1111-4111-8111-111111111111",
        ⟨some (go "11111111-1111-4111-8111-111111111111"), some (go "twin"), none, none⟩]⟩
    200 rfl rfl).1

/-- C12: when `Get` on the parent fails with status 404, delete returns nil
diagnostics and sends no `Update`; when it fails with another status, delete
returns error diagnostics and sends no `Update`. -/
theorem delete_of_failed_get {σ : Type} (env : Env σ) (d : ResourceData)
    (backend backend1 : σ) (id : CredentialId) (status : Int) (err : Error)
    (hid : env.PasswordID d.id = .ok id)
    (hget : env.client.Get backend id.ObjectId = (.failed status err, backend1)) :
    (status = 404 → (applicationPasswordResourceDeleteMsGraph env d backend).exit
      = .returned none) ∧
    (status ≠ 404 → (applicationPasswordResourceDeleteMsGraph env d backend).exit
      = .returned (some (.ErrorDiagPathF (some err) (go "application_object_id")
          (go "Retrieving application with object ID %q") [id.ObjectId]))) ∧
    (applicationPasswordResourceDeleteMsGraph env d backend).trace.filter isUpdate = [] ∧
    (applicationPasswordResourceDeleteMsGraph env d backend).d = d := by
  simp only [applicationPasswordResourceDeleteMsGraph, hid, hget]
  by_cases h : status = 404
  · simp [h, isUpdate]
  · simp [h, isUpdate]

theorem delete_of_failed_get_witness :
    ((404 : Int) = 404 → (applicationPasswordResourceDeleteMsGraph fakeEnv
        (tracked "p9/password/k1") p1Directory).exit = .returned none) ∧
    ((404 : Int) ≠ 404 → (applicationPasswordResourceDeleteMsGraph fakeEnv
        (tracked "p9/password/k1") p1Directory).exit
      = .returned (some (.ErrorDiagPathF (some (.text (go "not found")))
          (go "application_object_id")
          (go "Retrieving application with object ID %q") [go "p9"]))) ∧
    (applicationPasswordResourceDeleteMsGraph fakeEnv (tracked "p9/password/k1")
        p1Directory).trace.filter isUpdate = [] ∧
    (applicationPasswordResourceDeleteMsGraph fakeEnv (tracked "p9/password/k1")
        p1Directory).d = tracked "p9/password/k1" :=
  delete_of_failed_get fakeEnv (tracked "p9/password/k1") p1Directory p1Directory
    ⟨go "p9", go "password", go "k1"⟩ 404 (.text (go "not found")) rfl rfl

/-! ### Lock discipline of create and delete -/

/-- A read makes backend calls only. -/
theorem read_trace_backend_calls {σ : Type} (env : Env σ) (d : ResourceData) (backend : σ) :
    ∀ op ∈ (applicationPasswordResourceReadMsGraph env d backend).trace,
      isBackendCall op = true := by
  unfold applicationPasswordResourceReadMsGraph
  split
  · simp
  · split
    · split <;> simp [isBackendCall]
    · split
      · simp [isBackendCall]
      · split <;> simp [isBackendCall]

theorem lockDiscipline_of_eq (name key : GoString) (calls : List Op) (trace : List Op)
    (htrace : trace = [.LockByName name key, .Get key] ++ calls ++ [.UnlockByName name key])
    (hcalls : ∀ op ∈ calls, isBackendCall op = true) : lockDiscipline name key trace :=
  ⟨calls, by simpa using htrace, hcalls⟩

/-- The lock discipline of create once the candidate has a key id. -/
theorem create_lockDiscipline {σ : Type} (env : Env σ) (d : ResourceData) (backend : σ)
    (candidate : PasswordCredential) (keyId : GoString)
    (hcandidate : env.PasswordCredentialForResource d = .ok candidate)
    (hkey : candidate.KeyId = some keyId) :
    lockDiscipline env.applicationResourceName
      (env.NewCredentialID (d.GetString (go "application_object_id")) (go "password")
        keyId).ObjectId
      (applicationPasswordResourceCreateMsGraph env d backend).trace := by
  simp only [applicationPasswordResourceCreateMsGraph, hcandidate, hkey]
  split
  · split
    · exact lockDiscipline_of_eq _ _ [] _ rfl (by simp)
    · exact lockDiscipline_of_eq _ _ [] _ rfl (by simp)
  · split
    · exact lockDiscipline_of_eq _ _ [] _ rfl (by simp)
    · split
      · exact lockDiscipline_of_eq _ _ [.Update _] _ rfl (by simp [isBackendCall])
      · refine lockDiscipline_of_eq _ _ _ _ rfl ?_
        intro op hop
        rcases List.mem_cons.mp hop with hop | hop
        · subst hop
          rfl
        · exact read_trace_backend_calls env _ _ op hop

/-- The lock discipline of delete once the handle is parsed. -/
theorem delete_lockDiscipline {σ : Type} (env : Env σ) (d : ResourceData) (backend : σ)
    (id : CredentialId) (hid : env.PasswordID d.id = .ok id) :
    lockDiscipline env.applicationResourceName id.ObjectId
      (applicationPasswordResourceDeleteMsGraph env d backend).trace := by
  unfold lockDiscipline
  simp only [applicationPasswordResourceDeleteMsGraph, hid]
  split
  · split
    · exact ⟨[], rfl, by simp⟩
    · exact ⟨[], rfl, by simp⟩
  · split
    · exact ⟨[.Update _], rfl, by simp [isBackendCall]⟩
    · exact ⟨[.Update _], rfl, by simp [isBackendCall]⟩

/-- C13: in create and in delete, an execution that gets past input parsing takes
the lock named by the parent object id first, calls `Get` on the parent right
after, makes every further backend call before the single `UnlockByName`, which is
its last call on every exit path; an execution that fails before the lock (no
credential generated, handle not parsed) makes no call at all. -/
theorem lock_held_around_backend_calls {σ : Type} (env : Env σ) (d : ResourceData)
    (backend : σ) :
    (∀ candidate keyId, env.PasswordCredentialForResource d = .ok candidate →
      candidate.KeyId = some keyId →
      lockDiscipline env.applicationResourceName
        (env.NewCredentialID (d.GetString (go "application_object_id")) (go "password")
          keyId).ObjectId
        (applicationPasswordResourceCreateMsGraph env d backend).trace) ∧
    (∀ err, env.PasswordCredentialForResource d = .error err →
      (applicationPasswordResourceCreateMsGraph env d backend).trace = []) ∧
    (∀ id, env.PasswordID d.id = .ok id →
      lockDiscipline env.applicationResourceName id.ObjectId
        (applicationPasswordResourceDeleteMsGraph env d backend).trace) ∧
    (∀ err, env.PasswordID d.id = .error err →
      (applicationPasswordResourceDeleteMsGraph env d backend).trace = []) := by
  refine ⟨?_, ?_, ?_, ?_⟩
  · intro candidate keyId hc hk
    exact create_lockDiscipline env d backend candidate keyId hc hk
  · intro err hc
    simp [applicationPasswordResourceCreateMsGraph, hc]
  · intro id hid
    exact delete_lockDiscipline env d backend id hid
  · intro err hid
    simp [applicationPasswordResourceDeleteMsGraph, hid]

theorem lock_held_around_backend_calls_witness :
    lockDiscipline (go "azuread_application") (go "p1")
      (applicationPasswordResourceCreateMsGraph fakeEnv (p1Config "k1") p1Directory).trace ∧
    lockDiscipline (go "azuread_application") (go "p1")
      (applicationPasswordResourceDeleteMsGraph fakeEnv (tracked "p1/password/k0")
        p1Directory).trace ∧
    (applicationPasswordResourceDeleteMsGraph fakeEnv (tracked "p1-k0") p1Directory).trace = [] :=
  ⟨(lock_held_around_backend_calls fakeEnv (p1Config "k1") p1Directory).1 _ (go "k1") rfl rfl,
   (lock_held_around_backend_calls fakeEnv (tracked "p1/password/k0") p1Directory).2.2.1
      ⟨go "p1", go "password", go "k0"⟩ rfl,
   (lock_held_around_backend_calls fakeEnv (tracked "p1-k0") p1Directory).2.2.2 _ rfl⟩

/-! ### Resource handles -/

theorem splitByte_ne_nil (sep : UInt8) (s : GoString) : splitByte sep s ≠ [] := by
  cases s with
  | nil => simp [splitByte]
  | cons c rest =>
    unfold splitByte
    split
    · simp
    · split <;> simp

theorem splitByte_of_not_mem (sep : UInt8) (s : GoString) (h : sep ∉ s) :
    splitByte sep s = [s] := by
  induction s with
  | nil => rfl
  | cons c rest ih =>
    have hc : c ≠ sep := fun hc => h (hc ▸ List.mem_cons_self _ _)
    have hr : sep ∉ rest := fun hr => h (List.mem_cons_of_mem _ hr)
    simp [splitByte, ih hr, hc]

theorem splitByte_append (sep : UInt8) (a rest : GoString) (h : sep ∉ a) :
    splitByte sep (a ++ sep :: rest) = a :: splitByte sep rest := by
  induction a with
  | nil =>
    simp only [List.nil_append]
    rw [splitByte]
    split
    · rename_i heq
      exact absurd heq (splitByte_ne_nil sep rest)
    · rename_i part parts heq
      simp [heq]
  | cons c a ih =>
    have hc : c ≠ sep := fun hc => h (hc ▸ List.mem_cons_self _ _)
    have hr : sep ∉ a := fun hr => h (List.mem_cons_of_mem _ hr)
    simp [splitByte, ih hr, hc]

theorem not_mem_of_mem_splitByte (sep : UInt8) (s part : GoString)
    (h : part ∈ splitByte sep s) : sep ∉ part := by
  induction s generalizing part with
  | nil =>
    simp [splitByte] at h
    simp [h]
  | cons c rest ih =>
    rw [splitByte] at h
    split at h
    · rename_i heq
      exact absurd heq (splitByte_ne_nil sep rest)
    · rename_i p ps heq
      have hp : sep ∉ p := ih p (by simp [heq])
      by_cases hc : c = sep
      · simp only [hc, if_true] at h
        rcases List.mem_cons.mp h with rfl | h
        · simp
        · exact ih part (by rw [heq]; exact h)
      · simp only [hc, if_false] at h
        rcases List.mem_cons.mp h with rfl | h
        · intro hm
          rcases List.mem_cons.mp hm with hm | hm
          · exact hc hm.symm
          · exact hp hm
        · exact ih part (by rw [heq]; exact List.mem_cons_of_mem _ h)

/-- Decoding an encoded triple whose parts hold no separator. -/
theorem PasswordID_String (id : CredentialId) (ho : ch '/' ∉ id.ObjectId)
    (ht : ch '/' ∉ id.KeyType) (hk : ch '/' ∉ id.KeyId) :
    PasswordID id.String = .ok id := by
  unfold PasswordID CredentialId.String
  rw [go_slash, List.append_assoc, List.append_assoc, List.append_assoc, List.singleton_append,
    List.singleton_append, splitByte_append _ _ _ ho, splitByte_append _ _ _ ht,
    splitByte_of_not_mem _ _ hk]

theorem OldPasswordID_ok (h : GoString) (old : CredentialId) (hold : OldPasswordID h = .ok old) :
    old.KeyType = go "password" ∧ ch '/' ∉ old.ObjectId ∧ ch '/' ∉ old.KeyId := by
  unfold OldPasswordID at hold
  split at hold
  · rename_i objectId keyId heq
    cases hold
    refine ⟨rfl, ?_, ?_⟩
    · exact not_mem_of_mem_splitByte _ h objectId (by simp [heq])
    · exact not_mem_of_mem_splitByte _ h keyId (by simp [heq])
  · cases hold

theorem lookup_put (key k : GoString) (v : Dyn) (m : DynMap) :
    DynMap.lookup (DynMap.put key v m) k = if k = key then some v else DynMap.lookup m k := by
  unfold DynMap.lookup
  induction m with
  | nil =>
    by_cases h : k = key
    · simp [DynMap.put, h]
    · simp [DynMap.put, h, Ne.symm h]
  | cons e rest ih =>
    obtain ⟨k1, v1⟩ := e
    by_cases h1 : k1 = key
    · by_cases h : k = key
      · simp [DynMap.put, h1, h]
      · simp [DynMap.put, h1, h, Ne.symm h]
    · by_cases h : k1 = k
      · have hk : k ≠ key := fun hk => h1 (h.trans hk)
        simp [DynMap.put, h1, h, hk]
      · have hb : (k1 == k) = false := by simpa using h
        simp only [DynMap.put, h1, if_false, List.find?_cons, hb]
        exact ih

/-- C16: for a persisted state whose `id` is a legacy handle `h`, the V0 upgrade of
the application password and of the service principal password resource: when
`OldPasswordID` accepts `h`, returns no error and the state with `id` replaced by a
handle that `PasswordID` decodes to the parent id and key of the legacy decoding,
every other attribute as before; when it rejects `h`, returns the state unchanged
with an error. -/
theorem upgrade_legacy_handle (rawState : DynMap) (h : GoString)
    (hid : DynMap.lookup rawState (go "id") = some (.string h)) :
    (∀ old, OldPasswordID h = .ok old →
      resourceApplicationPasswordInstanceStateUpgradeV0 rawState
        = .returned (DynMap.put (go "id") (.string old.String) rawState) none ∧
      resourceServicePrincipalPasswordInstanceStateUpgradeV0 rawState
        = .returned (DynMap.put (go "id") (.string old.String) rawState) none ∧
      DynMap.lookup (DynMap.put (go "id") (.string old.String) rawState) (go "id")
        = some (.string old.String) ∧
      PasswordID old.String = .ok ⟨old.ObjectId, go "password", old.KeyId⟩ ∧
      (∀ key, key ≠ go "id" →
        DynMap.lookup (DynMap.put (go "id") (.string old.String) rawState) key
          = DynMap.lookup rawState key)) ∧
    (∀ err, OldPasswordID h = .error err →
      resourceApplicationPasswordInstanceStateUpgradeV0 rawState
        = .returned rawState (some (.wrapf (go "generating new ID: %s") err)) ∧
      resourceServicePrincipalPasswordInstanceStateUpgradeV0 rawState
        = .returned rawState (some (.wrapf (go "generating new ID: %s") err))) := by
  constructor
  · intro old hold
    obtain ⟨htype, ho, hk⟩ := OldPasswordID_ok h old hold
    refine ⟨?_, ?_, ?_, ?_, ?_⟩
    · simp [resourceApplicationPasswordInstanceStateUpgradeV0, hid, hold]
    · simp [resourceServicePrincipalPasswordInstanceStateUpgradeV0, hid, hold]
    · simp [lookup_put]
    · have := PasswordID_String old ho (by rw [htype]; decide) hk
      rw [this]
      cases old
      simp at htype
      simp [htype]
    · intro key hkey
      simp [lookup_put, hkey]
  · intro err herr
    constructor
    · simp [resourceApplicationPasswordInstanceStateUpgradeV0, hid, herr]
    · simp [resourceServicePrincipalPasswordInstanceStateUpgradeV0, hid, herr]

theorem upgrade_legacy_handle_witness :
    resourceApplicationPasswordInstanceStateUpgradeV0 legacyState
      = .returned
          [(go "application_object_id", .string (go "p1")),
           (go "id", .string (go "p1/password/k1")),
           (go "end_date", .string (go "2099-01-01T00:00:00Z"))] none ∧
    PasswordID (go "p1/password/k1") = .ok ⟨go "p1", go "password", go "k1"⟩ :=
  ⟨((upgrade_legacy_handle legacyState (go "p1/k1") rfl).1
      ⟨go "p1", go "password", go "k1"⟩ rfl).1,
   ((upgrade_legacy_handle legacyState (go "p1/k1") rfl).1
      ⟨go "p1", go "password", go "k1"⟩ rfl).2.2.2.1⟩

/-! ### Credential read -/

/-- What a read returns when `Get` on the parent fails with status 404. -/
theorem read_of_parent_not_found {σ : Type} (env : Env σ) (d : ResourceData)
    (backend backend1 : σ) (id : CredentialId) (err : Error)
    (hid : env.PasswordID d.id = .ok id)
    (hget : env.client.Get backend id.ObjectId = (.failed 404 err, backend1)) :
    (applicationPasswordResourceReadMsGraph env d backend).exit =
      .returned (some (.ErrorDiagPathF none (go "application_object_id")
        (go "Application with object ID %q was not found") [id.ObjectId])) ∧
    (applicationPasswordResourceReadMsGraph env d backend).d = d := by
  simp [applicationPasswordResourceReadMsGraph, hid, hget]

/-- C20, the code at a handle whose parent `p9` the backend reports as 404: the read
returns the error diagnostics "Application with object ID %q was not found" and
keeps the handle, whereas for the parent `p1`, which exists without a credential
`k1`, it returns nil diagnostics and clears the handle. -/
theorem read_missing_parent_is_error :
    (applicationPasswordResourceReadMsGraph fakeEnv (tracked "p9/password/k1")
        p1Directory).exit =
      .returned (some (.ErrorDiagPathF none (go "application_object_id")
        (go "Application with object ID %q was not found") [go "p9"])) ∧
    (applicationPasswordResourceReadMsGraph fakeEnv (tracked "p9/password/k1")
        p1Directory).d.id = go "p9/password/k1" ∧
    (applicationPasswordResourceReadMsGraph fakeEnv (tracked "p1/password/k1")
        p1Directory).exit = .returned none ∧
    (applicationPasswordResourceReadMsGraph fakeEnv (tracked "p1/password/k1")
        p1Directory).d.id = [] := by
  refine ⟨?_, ?_, ?_, ?_⟩ <;> decide

/-! ### User lookup in the MS Graph data source -/

/-- A lookup by user principal name names the UPN in the diagnostics for zero and
for several matches. -/
theorem userDataSource_upn_diagnostics (env : UsersMsEnv) (d : ResourceData)
    (users : List MsUser) (status : Int)
    (hupn : d.GetString (go "user_principal_name") ≠ [])
    (hlist : env.List (go "userPrincipalName eq '" ++ d.GetString (go "user_principal_name")
      ++ go "'") = (some users, status, none)) :
    (users = [] → (userDataSourceReadMsGraph env d).exit =
      .returned (some (.ErrorDiagPathF none (go "user_principal_name")
        (go "User with UPN %q was not found") [d.GetString (go "user_principal_name")]))) ∧
    (1 < users.length → (userDataSourceReadMsGraph env d).exit =
      .returned (some (.ErrorDiagPathF none (go "user_principal_name")
        (go "More than one user found with UPN: %q")
        [d.GetString (go "user_principal_name")]))) := by
  simp only [List.append_assoc] at hlist
  constructor
  · intro h
    subst h
    simp [userDataSourceReadMsGraph, hupn, hlist]
  · intro h
    match users, h with
    | _ :: _ :: _, _ => simp [userDataSourceReadMsGraph, hupn, hlist]

/-- A lookup by mail nickname puts the (empty) user principal name, not the mail
nickname, into the diagnostics for zero and for several matches. -/
theorem userDataSource_nickname_diagnostics (env : UsersMsEnv) (d : ResourceData)
    (users : List MsUser) (status : Int)
    (hupn : d.GetString (go "user_principal_name") = [])
    (hid : d.GetString (go "object_id") = [])
    (hnick : d.GetString (go "mail_nickname") ≠ [])
    (hlist : env.List (go "mailNickname eq '" ++ d.GetString (go "mail_nickname")
      ++ go "'") = (some users, status, none)) :
    (users = [] → (userDataSourceReadMsGraph env d).exit =
      .returned (some (.ErrorDiagPathF none (go "mail_nickname")
        (go "User not found with email alias: %q") [[]]))) ∧
    (1 < users.length → (userDataSourceReadMsGraph env d).exit =
      .returned (some (.ErrorDiagPathF none (go "mail_nickname")
        (go "More than one user found with email alias: %q") [[]]))) := by
  simp only [List.append_assoc] at hlist
  constructor
  · intro h
    subst h
    simp [userDataSourceReadMsGraph, hupn, hid, hnick, hlist]
  · intro h
    match users, h with
    | _ :: _ :: _, _ => simp [userDataSourceReadMsGraph, hupn, hid, hnick, hlist]

/-- C18, the code at a lookup by the mail nickname `jdoe`: with no match and with
two matches the diagnostics carry the empty string (the unset user principal name)
as their argument, not `jdoe`; a lookup by user principal name carries the name. -/
theorem userDataSource_nickname_not_named :
    (userDataSourceReadMsGraph (fakeUsersMs []) nicknameConfig).exit =
      .returned (some (.ErrorDiagPathF none (go "mail_nickname")
        (go "User not found with email alias: %q") [go ""])) ∧
    (userDataSourceReadMsGraph (fakeUsersMs [msUserOf "u1" "jdoe", msUserOf "u2" "jdoe"])
        nicknameConfig).exit =
      .returned (some (.ErrorDiagPathF none (go "mail_nickname")
        (go "More than one user found with email alias: %q") [go ""])) ∧
    (userDataSourceReadMsGraph (fakeUsersMs []) upnConfig).exit =
      .returned (some (.ErrorDiagPathF none (go "user_principal_name")
        (go "User with UPN %q was not found") [go "jdoe@example.com"])) := by
  refine ⟨?_, ?_, ?_⟩ <;> decide

/-! ### Application lookup in the AAD Graph data source -/

/-- Setting the attributes calls `SetId` with the object id of the application, and
only with it. -/
theorem applicationDataSourceSet_calls (env : ApplicationsAadEnv) (d : ResourceData)
    (app : AadApplication) (calls : List Call) (id : GoString)
    (h : Call.SetId id ∈ (applicationDataSourceSetAadGraph env d app calls).calls) :
    Call.SetId id ∈ calls ∨ app.ObjectID = some id := by
  unfold applicationDataSourceSetAadGraph at h
  split at h
  · exact Or.inl h
  · rename_i oid hoid
    have key : ∀ extra : List Call, (∀ c ∈ extra, c = Call.SetId oid ∨ ∃ x, c = Call.ListOwners x) →
        Call.SetId id ∈ calls ++ extra → Call.SetId id ∈ calls ∨ app.ObjectID = some id := by
      intro extra hextra hmem
      rcases List.mem_append.mp hmem with hm | hm
      · exact Or.inl hm
      · rcases hextra _ hm with hc | ⟨x, hc⟩
        · cases hc
          exact Or.inr hoid
        · cases hc
    split at h
    · exact key _ (by simp) h
    · split at h
      · exact key _ (by simp) h
      · split at h
        · exact key _ (by simp) h
        · exact key _ (by simp) h

/-- C17: in a lookup by filter (no `object_id` given, the list call answered with
`values`), zero matches give the error "No applications found matching filter",
more than one gives the error "Found multiple applications matching filter", both
naming the filter and leaving the resource data untouched; `d.SetId` is called only
when there is exactly one match, with the object id of that application. -/
theorem applicationDataSource_lookup (env : ApplicationsAadEnv) (d : ResourceData)
    (fieldName fieldValue : GoString) (values : List AadApplication)
    (hid : d.GetString (go "object_id") = [])
    (hfield : applicationLookupField d = some (fieldName, fieldValue))
    (hlist : env.ListComplete (fieldName ++ go " eq '" ++ fieldValue ++ go "'")
      = .ok (some values)) :
    (values = [] →
      applicationDataSourceReadAadGraph env d =
        ⟨.returned (some (.ErrorDiagF (some (.errorf
          (go "No applications found matching filter: %q")
          [fieldName ++ go " eq '" ++ fieldValue ++ go "'"]))
          (go "Application not found") [])), d,
          [.List (fieldName ++ go " eq '" ++ fieldValue ++ go "'")]⟩) ∧
    (1 < values.length →
      applicationDataSourceReadAadGraph env d =
        ⟨.returned (some (.ErrorDiagF (some (.errorf
          (go "Found multiple applications matching filter: %q")
          [fieldName ++ go " eq '" ++ fieldValue ++ go "'"]))
          (go "Multiple applications found") [])), d,
          [.List (fieldName ++ go " eq '" ++ fieldValue ++ go "'")]⟩) ∧
    (∀ id, Call.SetId id ∈ (applicationDataSourceReadAadGraph env d).calls →
      ∃ app, values = [app] ∧ app.ObjectID = some id) := by
  refine ⟨?_, ?_, ?_⟩
  · intro h
    subst h
    simp only [applicationDataSourceReadAadGraph, hid, hfield, hlist]
    simp
  · intro h
    match values, h with
    | _ :: _ :: _, _ =>
      simp only [applicationDataSourceReadAadGraph, hid, hfield, hlist]
      simp
  · intro id hset
    simp only [applicationDataSourceReadAadGraph, hid, hfield, hlist] at hset
    match values, hset with
    | [], hset => simp at hset
    | _ :: _ :: _, hset => simp at hset
    | [app], hset =>
      simp only [ne_eq, not_true_eq_false, if_false] at hset
      split at hset
      · simp at hset
      · rcases applicationDataSourceSet_calls env d app _ id hset with hc | hc
        · simp at hc
        · exact ⟨app, rfl, hc⟩

theorem applicationDataSource_lookup_witness :
    applicationDataSourceReadAadGraph
        (fakeApplicationsAad [aadApplicationOf "o1" "app", aadApplicationOf "o2" "app"])
        displayNameConfig =
      ⟨.returned (some (.ErrorDiagF (some (.errorf
        (go "Found multiple applications matching filter: %q")
        [go "displayName" ++ go " eq '" ++ go "app" ++ go "'"]))
        (go "Multiple applications found") [])), displayNameConfig,
        [.List (go "displayName" ++ go " eq '" ++ go "app" ++ go "'")]⟩ ∧
    (∃ app, [aadApplicationOf "o1" "app"] = [app] ∧ app.ObjectID = some (go "o1")) :=
  ⟨(applicationDataSource_lookup
      (fakeApplicationsAad [aadApplicationOf "o1" "app", aadApplicationOf "o2" "app"])
      displayNameConfig (go "displayName") (go "app") _ (by decide) (by decide) rfl).2.1
      (by decide),
   (applicationDataSource_lookup (fakeApplicationsAad [aadApplicationOf "o1" "app"])
      displayNameConfig (go "displayName") (go "app") _ (by decide) (by decide) rfl).2.2
      (go "o1") (by decide)⟩

/-! ### Reconciliation read of a user -/

/-- C19: when `Get` fails and the backend's response has status 404, the read of a
user returns nil diagnostics and the resource data with the handle set to the
empty string and every attribute as before; when `Get` fails with another status,
or without a response, it returns error diagnostics and leaves the resource data,
the handle included, unchanged. -/
theorem userResourceRead_of_failed_get (env : UsersAadEnv) (d : ResourceData)
    (user : AadUser) (err : Error) (hget : env.Get d.id = (user, some err)) :
    (∀ resp, user.Response.Response = some resp → resp.StatusCode = 404 →
      (userResourceReadAadGraph env d).exit = .returned none ∧
      (userResourceReadAadGraph env d).d = ⟨[], d.attrs⟩ ∧
      (userResourceReadAadGraph env d).calls = [.Get d.id, .SetId []]) ∧
    ((∀ resp, user.Response.Response = some resp → resp.StatusCode ≠ 404) →
      (userResourceReadAadGraph env d).exit =
        .returned (some (.ErrorDiagF (some err) (go "Retrieving user with object ID: %q")
          [d.id])) ∧
      (userResourceReadAadGraph env d).d = d ∧
      (userResourceReadAadGraph env d).calls = [.Get d.id]) := by
  constructor
  · intro resp hresp hstatus
    have hnf : ResponseWasNotFound user.Response = true := by
      simp [ResponseWasNotFound, hresp, hstatus]
    simp [userResourceReadAadGraph, hget, hnf, ResourceData.SetId]
  · intro hother
    have hnf : ResponseWasNotFound user.Response = false := by
      unfold ResponseWasNotFound
      cases hr : user.Response.Response with
      | none => rfl
      | some resp => simpa using hother resp hr
    simp [userResourceReadAadGraph, hget, hnf]

theorem userResourceRead_of_failed_get_witness :
    ((userResourceReadAadGraph (failingUsersAad 404) trackedUser).exit = .returned none ∧
      (userResourceReadAadGraph (failingUsersAad 404) trackedUser).d = ⟨[], trackedUser.attrs⟩ ∧
      (userResourceReadAadGraph (failingUsersAad 404) trackedUser).calls
        = [.Get trackedUser.id, .SetId []]) ∧
    ((userResourceReadAadGraph (failingUsersAad 500) trackedUser).exit =
        .returned (some (.ErrorDiagF (some (.text (go "request failed")))
          (go "Retrieving user with object ID: %q") [trackedUser.id])) ∧
      (userResourceReadAadGraph (failingUsersAad 500) trackedUser).d = trackedUser ∧
      (userResourceReadAadGraph (failingUsersAad 500) trackedUser).calls
        = [.Get trackedUser.id]) :=
  ⟨(userResourceRead_of_failed_get (failingUsersAad 404) trackedUser (aadUserWithStatus 404)
      (.text (go "request failed")) rfl).1 _ rfl rfl,
   (userResourceRead_of_failed_get (failingUsersAad 500) trackedUser (aadUserWithStatus 500)
      (.text (go "request failed")) rfl).2
      (fun resp hresp => by cases hresp; decide)⟩

/-! ### User delete -/

/-- C21: delete of a user returns an error exactly when the backend `Delete` call
fails and its response is not a not-found response; then the error diagnostics
carry the error of the call. A `Delete` answered with not-found, like one that
succeeds, returns nil diagnostics; the resource data are untouched and `Delete` is
the only call. -/
theorem userResourceDelete_error_iff (env : UsersAadEnv) (d : ResourceData) :
    ((userResourceDeleteAadGraph env d).exit ≠ .returned none ↔
      ∃ err, (env.Delete d.id).2 = some err ∧ ResponseWasNotFound (env.Delete d.id).1 = false) ∧
    (∀ err, (env.Delete d.id).2 = some err → ResponseWasNotFound (env.Delete d.id).1 = false →
      (userResourceDeleteAadGraph env d).exit =
        .returned (some (.ErrorDiagF (some err) (go "Deleting user with object ID: %q")
          [d.id]))) ∧
    (ResponseWasNotFound (env.Delete d.id).1 = true →
      (userResourceDeleteAadGraph env d).exit = .returned none) ∧
    (userResourceDeleteAadGraph env d).d = d ∧
    (userResourceDeleteAadGraph env d).calls = [.Delete d.id] := by
  unfold userResourceDeleteAadGraph
  rcases h : env.Delete d.id with ⟨resp, err⟩
  cases err with
  | none => simp
  | some err =>
    cases hnf : ResponseWasNotFound resp <;> simp [hnf]

theorem userResourceDelete_error_iff_witness :
    (userResourceDeleteAadGraph (failingUsersAad 500) trackedUser).exit =
      .returned (some (.ErrorDiagF (some (.text (go "request failed")))
        (go "Deleting user with object ID: %q") [trackedUser.id])) ∧
    (userResourceDeleteAadGraph (failingUsersAad 404) trackedUser).exit = .returned none :=
  ⟨(userResourceDelete_error_iff (failingUsersAad 500) trackedUser).2.1 _ rfl (by decide),
   (userResourceDelete_error_iff (failingUsersAad 404) trackedUser).2.2.1 (by decide)⟩

/-! ### Additional-properties accessors of the user reads -/

/-- One accessor step: a missing key sets the empty string, a string value sets
that string, and any other value present under the key stops the run on the type
assertion `v.(string)`. -/
theorem runSteps_setProperty (set : ResourceData → GoString → Value → Except Diag ResourceData)
    (props : DynMap) (d : ResourceData) (key property : GoString) (rest : List Step) :
    (DynMap.lookup props property = none →
      runSteps set props d (.setProperty key property :: rest) =
        runSteps set props d (.set key (.string []) :: rest)) ∧
    (∀ s, DynMap.lookup props property = some (.string s) →
      runSteps set props d (.setProperty key property :: rest) =
        runSteps set props d (.set key (.string s) :: rest)) ∧
    (∀ v, DynMap.lookup props property = some v → (∀ s, v ≠ .string s) →
      runSteps set props d (.setProperty key property :: rest) = (.typeAssertion, d)) := by
  refine ⟨?_, ?_, ?_⟩
  · intro h
    simp [runSteps, h]
  · intro s h
    simp [runSteps, h]
  · intro v h hv
    cases v with
    | string s => exact absurd rfl (hv s)
    | nil => simp [runSteps, h]
    | bool b => simp [runSteps, h]
    | number n => simp [runSteps, h]
    | other o => simp [runSteps, h]

/-! ### Runs of `tf.Set` steps -/

/-- The attribute read back after the storing `tf.Set`. -/
theorem attr_fakeSet (d : ResourceData) (k key : GoString) (v : Value) :
    ResourceData.attr { d with attrs := d.attrs.filter (fun e => e.1 != k) ++ [(k, v)] } key =
      if key = k then some v else d.attr key := by
  unfold ResourceData.attr
  simp only
  generalize d.attrs = l
  induction l with
  | nil =>
    by_cases h : key = k
    · simp [h]
    · simp [h, Ne.symm h]
  | cons e rest ih =>
    obtain ⟨a, b⟩ := e
    by_cases hk : a = k
    · subst hk
      by_cases h : key = a
      · subst h
        simp
      · simpa [h, Ne.symm h] using ih
    · by_cases he : a = key
      · subst he
        simp [hk]
      · simpa [hk, he] using ih

/-- An accessor step whose type assertion holds is the `tf.Set` of the accessor's
value. -/
theorem runSteps_accessor (set : ResourceData → GoString → Value → Except Diag ResourceData)
    (props : DynMap) (d : ResourceData) (key property : GoString) (rest : List Step)
    (s : GoString) (h : accessor props property = some s) :
    runSteps set props d (.setProperty key property :: rest) =
      runSteps set props d (.set key (.string s) :: rest) := by
  unfold accessor at h
  cases hl : DynMap.lookup props property with
  | none =>
    rw [hl] at h
    cases h
    simp [runSteps, hl]
  | some v =>
    rw [hl] at h
    cases v <;> simp at h
    subst h
    simp [runSteps, hl]

/-- A run ends on the type assertion only at an accessor whose value is not a
string. -/
theorem runSteps_typeAssertion (set : ResourceData → GoString → Value → Except Diag ResourceData)
    (props : DynMap) (d : ResourceData) (steps : List Step)
    (h : (runSteps set props d steps).1 = .typeAssertion) :
    ∃ key property, Step.setProperty key property ∈ steps ∧ accessor props property = none := by
  induction steps generalizing d with
  | nil => simp [runSteps] at h
  | cons step rest ih =>
    cases step with
    | set key value =>
      simp only [runSteps] at h
      split at h
      · simp at h
      · obtain ⟨k, p, hm, ha⟩ := ih _ h
        exact ⟨k, p, List.mem_cons_of_mem _ hm, ha⟩
    | setProperty key property =>
      cases ha : accessor props property with
      | none => exact ⟨key, property, List.mem_cons_self _ _, ha⟩
      | some s =>
        rw [runSteps_accessor set props d key property rest s ha] at h
        simp only [runSteps] at h
        split at h
        · simp at h
        · obtain ⟨k, p, hm, ha⟩ := ih _ h
          exact ⟨k, p, List.mem_cons_of_mem _ hm, ha⟩

/-- When no `tf.Set` returns diagnostics, a run with an accessor whose value is not
a string ends on the type assertion. -/
theorem runSteps_typeAssertion_of_total
    (set : ResourceData → GoString → Value → Except Diag ResourceData)
    (hset : ∀ d key value, ∃ d1, set d key value = .ok d1)
    (props : DynMap) (d : ResourceData) (steps : List Step)
    (h : ∃ key property, Step.setProperty key property ∈ steps ∧
      accessor props property = none) :
    (runSteps set props d steps).1 = .typeAssertion := by
  induction steps generalizing d with
  | nil =>
    obtain ⟨k, p, hm, _⟩ := h
    simp at hm
  | cons step rest ih =>
    obtain ⟨k, p, hm, ha⟩ := h
    cases step with
    | set key value =>
      have hrest : Step.setProperty k p ∈ rest := by simpa using hm
      obtain ⟨d1, hd1⟩ := hset d key value
      simp only [runSteps, hd1]
      exact ih d1 ⟨k, p, hrest, ha⟩
    | setProperty key property =>
      cases hacc : accessor props property with
      | none =>
        unfold accessor at hacc
        cases hl : DynMap.lookup props property with
        | none => simp [hl] at hacc
        | some v =>
          cases v <;> simp [hl] at hacc <;> simp [runSteps, hl]
      | some s =>
        have hrest : Step.setProperty k p ∈ rest := by
          rcases List.mem_cons.mp hm with heq | hmem
          · cases heq
            rw [ha] at hacc
            cases hacc
          · exact hmem
        rw [runSteps_accessor set props d key property rest s hacc]
        obtain ⟨d1, hd1⟩ := hset d key (.string s)
        simp only [runSteps, hd1]
        exact ih d1 ⟨k, p, hrest, ha⟩

/-- With the storing `tf.Set` and accessors whose values are strings, a run returns
nil diagnostics, keeps the handle, and leaves under each key the value of the last
step for that key. -/
theorem runSteps_fakeSet (props : DynMap) (d : ResourceData) (steps : List Step)
    (h : ∀ key property, Step.setProperty key property ∈ steps →
      accessor props property ≠ none) :
    (runSteps fakeSet props d steps).1 = .returned none ∧
    (runSteps fakeSet props d steps).2.id = d.id ∧
    ∀ key, (runSteps fakeSet props d steps).2.attr key
      = storedValue props steps key (d.attr key) := by
  induction steps generalizing d with
  | nil => simp [runSteps, storedValue]
  | cons step rest ih =>
    have hrest : ∀ key property, Step.setProperty key property ∈ rest →
        accessor props property ≠ none :=
      fun key property hm => h key property (List.mem_cons_of_mem _ hm)
    cases step with
    | set k value =>
      have hi := ih { d with attrs := d.attrs.filter (fun e => e.1 != k) ++ [(k, value)] } hrest
      simp only [runSteps, fakeSet, storedValue]
      refine ⟨hi.1, hi.2.1, fun key => ?_⟩
      rw [hi.2.2 key, attr_fakeSet]
    | setProperty k property =>
      cases hacc : accessor props property with
      | none => exact absurd hacc (h k property (List.mem_cons_self _ _))
      | some s =>
        have hi := ih { d with attrs := d.attrs.filter (fun e => e.1 != k) ++ [(k, .string s)] }
          hrest
        rw [runSteps_accessor fakeSet props d k property rest s hacc]
        simp only [runSteps, fakeSet, storedValue, hacc, Option.getD_some]
        refine ⟨hi.1, hi.2.1, fun key => ?_⟩
        rw [hi.2.2 key, attr_fakeSet]

/-- When no `tf.Set` returns diagnostics and every accessor's value is a string, a
run returns nil diagnostics. -/
theorem runSteps_returned_of_total
    (set : ResourceData → GoString → Value → Except Diag ResourceData)
    (hset : ∀ d key value, ∃ d1, set d key value = .ok d1)
    (props : DynMap) (d : ResourceData) (steps : List Step)
    (h : ∀ key property, Step.setProperty key property ∈ steps →
      accessor props property ≠ none) :
    (runSteps set props d steps).1 = .returned none := by
  induction steps generalizing d with
  | nil => simp [runSteps]
  | cons step rest ih =>
    have hrest : ∀ key property, Step.setProperty key property ∈ rest →
        accessor props property ≠ none :=
      fun key property hm => h key property (List.mem_cons_of_mem _ hm)
    cases step with
    | set k value =>
      obtain ⟨d1, hd1⟩ := hset d k value
      simp only [runSteps, hd1]
      exact ih d1 hrest
    | setProperty k property =>
      cases hacc : accessor props property with
      | none => exact absurd hacc (h k property (List.mem_cons_self _ _))
      | some s =>
        rw [runSteps_accessor set props d k property rest s hacc]
        obtain ⟨d1, hd1⟩ := hset d k (.string s)
        simp only [runSteps, hd1]
        exact ih d1 hrest

/-! ### The accessors in the two reads of a user -/

theorem accessor_ne_none_iff (props : DynMap) (property : GoString) :
    accessor props property ≠ none ↔
      (DynMap.lookup props property = none ∨
        ∃ s, DynMap.lookup props property = some (.string s)) := by
  unfold accessor
  cases h : DynMap.lookup props property with
  | none => simp
  | some v => cases v <;> simp

theorem accessor_eq_none_iff (props : DynMap) (property : GoString) :
    accessor props property = none ↔
      ∃ v, DynMap.lookup props property = some v ∧ ∀ s, v ≠ .string s := by
  unfold accessor
  cases h : DynMap.lookup props property with
  | none => simp
  | some v => cases v <;> simp

theorem accessor_getD (props : DynMap) (property : GoString) :
    (DynMap.lookup props property = none → (accessor props property).getD [] = []) ∧
    (∀ s, DynMap.lookup props property = some (.string s) →
      (accessor props property).getD [] = s) := by
  unfold accessor
  constructor
  · intro h
    simp [h]
  · intro s h
    simp [h]

/-- The accessor steps of the read of the user resource are those of the table of
additional properties. -/
theorem userResourceRead_run (env : UsersAadEnv) (d : ResourceData) (user : AadUser)
    (hget : env.Get d.id = (user, none)) :
    ∃ steps, (userResourceReadAadGraph env d).exit
        = (runSteps env.Set user.AdditionalProperties d steps).1 ∧
      (userResourceReadAadGraph env d).d
        = (runSteps env.Set user.AdditionalProperties d steps).2 ∧
      (∀ key property, Step.setProperty key property ∈ steps ↔
        (key, property) ∈ userAdditionalProperties) ∧
      ∀ e ∈ userAdditionalProperties, ∀ init,
        storedValue user.AdditionalProperties steps e.1 init
          = some (.string ((accessor user.AdditionalProperties e.2).getD [])) := by
  simp only [userResourceReadAadGraph, hget]
  refine ⟨_, rfl, rfl, ?_, ?_⟩
  · intro key property
    simp [userAdditionalProperties]
  · intro e he init
    fin_cases he <;> rfl

/-- The accessor steps of the read of the user data source read the properties of
the table of additional properties. -/
theorem userDataSourceRead_run (env : UsersAadDataEnv) (q : ResourceData) (user : AadUser)
    (id : GoString)
    (hfound :
      (q.GetString (go "user_principal_name") ≠ [] ∧
        env.Get (q.GetString (go "user_principal_name")) = (user, none)) ∨
      (q.GetString (go "user_principal_name") = [] ∧ q.GetString (go "object_id") ≠ [] ∧
        env.UserGetByObjectId (q.GetString (go "object_id")) = .ok (some user)) ∨
      (q.GetString (go "user_principal_name") = [] ∧ q.GetString (go "object_id") = [] ∧
        q.GetString (go "mail_nickname") ≠ [] ∧
        env.UserGetByMailNickname (q.GetString (go "mail_nickname")) = .ok (some user)))
    (hobj : user.ObjectID = some id) :
    ∃ steps, (userDataSourceReadAadGraph env q).exit
        = (runSteps env.Set user.AdditionalProperties (q.SetId id) steps).1 ∧
      (userDataSourceReadAadGraph env q).d
        = (runSteps env.Set user.AdditionalProperties (q.SetId id) steps).2 ∧
      (∀ key property, Step.setProperty key property ∈ steps →
        property ∈ userAdditionalProperties.map (fun e => e.2)) ∧
      (∀ e ∈ userAdditionalProperties, Step.setProperty e.1 e.2 ∈ steps) ∧
      (∀ e ∈ userAdditionalProperties, ∀ init,
        storedValue user.AdditionalProperties steps e.1 init
          = some (.string ((accessor user.AdditionalProperties e.2).getD []))) ∧
      ∀ init,
        storedValue user.AdditionalProperties steps (go "office_location") init
          = some (.string ((accessor user.AdditionalProperties
              (go "physicalDeliveryOfficeName")).getD [])) ∧
        storedValue user.AdditionalProperties steps (go "mobile_phone") init
          = some (.string ((accessor user.AdditionalProperties (go "mobile")).getD [])) := by
  have hrun : ∃ calls, userDataSourceReadAadGraph env q
      = userDataSourceSetAadGraph env q user calls := by
    rcases hfound with ⟨hupn, hget⟩ | ⟨hupn, hid, hget⟩ | ⟨hupn, hid, hnick, hget⟩
    · exact ⟨[.Get (q.GetString (go "user_principal_name"))],
        by simp only [userDataSourceReadAadGraph, hupn, ne_eq, not_false_eq_true,
          if_true, hget]⟩
    · exact ⟨[.Helper (go "aadgraph.UserGetByObjectId") (q.GetString (go "object_id"))],
        by simp only [userDataSourceReadAadGraph, hupn, hid, ne_eq, not_true_eq_false,
          not_false_eq_true, if_true, if_false, hget]⟩
    · exact ⟨[.Helper (go "aadgraph.UserGetByMailNickname") (q.GetString (go "mail_nickname"))],
        by simp only [userDataSourceReadAadGraph, hupn, hid, hnick, ne_eq,
          not_true_eq_false, not_false_eq_true, if_true, if_false, hget]⟩
  obtain ⟨calls, hrun⟩ := hrun
  rw [hrun]
  simp only [userDataSourceSetAadGraph, hobj]
  refine ⟨_, rfl, rfl, ?_, ?_, ?_, ?_⟩
  · intro key property h
    simp only [List.mem_cons, Step.setProperty.injEq, reduceCtorEq, false_or,
      List.mem_singleton, List.mem_nil_iff, or_false] at h
    rcases h with h | h | h | h | h | h | h | h | h | h | h | h <;>
      (rw [h.2]; decide)
  · intro e he
    fin_cases he <;> simp
  · intro e he init
    fin_cases he <;> rfl
  · intro init
    exact ⟨rfl, rfl⟩

/-- C22 fails as stated: with `mobile` present as the number 42, or
`jobTitle` present as a JSON object, the read of the user resource and the read of
the user data source both stop on the type assertion `v.(string)`. -/
theorem user_read_type_assertion :
    (userResourceReadAadGraph (fakeUsersAad (aadUserWithProperties [(go "mobile", .number 42)])).toUsersAadEnv
      trackedUser).exit = .typeAssertion ∧
    (userDataSourceReadAadGraph (fakeUsersAad (aadUserWithProperties [(go "mobile", .number 42)]))
      upnConfig).exit = .typeAssertion ∧
    (userResourceReadAadGraph
      (fakeUsersAad (aadUserWithProperties [(go "jobTitle", .other (go "{}"))])).toUsersAadEnv
      trackedUser).exit = .typeAssertion ∧
    (userDataSourceReadAadGraph
      (fakeUsersAad (aadUserWithProperties [(go "jobTitle", .other (go "{}"))]))
      upnConfig).exit = .typeAssertion := by
  refine ⟨?_, ?_, ?_, ?_⟩ <;> decide

/-- C22 (as the code has it): for a user found by the read of the user resource (`d`) and by
the read of the user data source (`q`), over the ten accessors `jobTitle`,
`department`, `companyName`, `physicalDeliveryOfficeName`, `streetAddress`, `city`,
`state`, `country`, `postalCode`, `mobile`. When every one of these keys is missing
or holds a string, neither read stops on a type assertion, both return nil
diagnostics when no `tf.Set` fails, and with a `tf.Set` that stores the values a
missing key leaves the empty string and a string value leaves that string under the
attribute. When one of the keys holds a value that is not a string and no `tf.Set`
fails, both reads stop on the type assertion; and a read stops on the type assertion
only in that case. -/
theorem user_read_accessors (env : UsersAadDataEnv) (d q : ResourceData) (user : AadUser)
    (id : GoString)
    (hres : env.Get d.id = (user, none))
    (hfound :
      (q.GetString (go "user_principal_name") ≠ [] ∧
        env.Get (q.GetString (go "user_principal_name")) = (user, none)) ∨
      (q.GetString (go "user_principal_name") = [] ∧ q.GetString (go "object_id") ≠ [] ∧
        env.UserGetByObjectId (q.GetString (go "object_id")) = .ok (some user)) ∨
      (q.GetString (go "user_principal_name") = [] ∧ q.GetString (go "object_id") = [] ∧
        q.GetString (go "mail_nickname") ≠ [] ∧
        env.UserGetByMailNickname (q.GetString (go "mail_nickname")) = .ok (some user)))
    (hobj : user.ObjectID = some id) :
    ((∀ e ∈ userAdditionalProperties,
        DynMap.lookup user.AdditionalProperties e.2 = none ∨
          ∃ s, DynMap.lookup user.AdditionalProperties e.2 = some (.string s)) →
      (userResourceReadAadGraph env.toUsersAadEnv d).exit ≠ .typeAssertion ∧
      (userDataSourceReadAadGraph env q).exit ≠ .typeAssertion ∧
      ((∀ r key v, ∃ r1, env.Set r key v = .ok r1) →
        (userResourceReadAadGraph env.toUsersAadEnv d).exit = .returned none ∧
        (userDataSourceReadAadGraph env q).exit = .returned none) ∧
      (env.Set = fakeSet → ∀ e ∈ userAdditionalProperties,
        (DynMap.lookup user.AdditionalProperties e.2 = none →
          (userResourceReadAadGraph env.toUsersAadEnv d).d.attr e.1 = some (.string []) ∧
          (userDataSourceReadAadGraph env q).d.attr e.1 = some (.string [])) ∧
        (∀ s, DynMap.lookup user.AdditionalProperties e.2 = some (.string s) →
          (userResourceReadAadGraph env.toUsersAadEnv d).d.attr e.1 = some (.string s) ∧
          (userDataSourceReadAadGraph env q).d.attr e.1 = some (.string s)))) ∧
    (∀ e ∈ userAdditionalProperties, ∀ v,
      DynMap.lookup user.AdditionalProperties e.2 = some v → (∀ s, v ≠ .string s) →
      (∀ r key v, ∃ r1, env.Set r key v = .ok r1) →
      (userResourceReadAadGraph env.toUsersAadEnv d).exit = .typeAssertion ∧
      (userDataSourceReadAadGraph env q).exit = .typeAssertion) ∧
    ((userResourceReadAadGraph env.toUsersAadEnv d).exit = .typeAssertion ∨
        (userDataSourceReadAadGraph env q).exit = .typeAssertion →
      ∃ e ∈ userAdditionalProperties, ∃ v,
        DynMap.lookup user.AdditionalProperties e.2 = some v ∧ ∀ s, v ≠ .string s) := by
  obtain ⟨stepsR, hRexit, hRd, hRmem, hRval⟩ :=
    userResourceRead_run env.toUsersAadEnv d user hres
  obtain ⟨stepsD, hDexit, hDd, hDmem, hDall, hDval, -⟩ :=
    userDataSourceRead_run env q user id hfound hobj
  rw [hRexit, hDexit, hRd, hDd]
  refine ⟨?_, ?_, ?_⟩
  · intro hstr
    have hacc : ∀ e ∈ userAdditionalProperties,
        accessor user.AdditionalProperties e.2 ≠ none :=
      fun e he => (accessor_ne_none_iff _ _).mpr (hstr e he)
    have hRacc : ∀ key property, Step.setProperty key property ∈ stepsR →
        accessor user.AdditionalProperties property ≠ none :=
      fun key property hm => hacc (key, property) ((hRmem key property).mp hm)
    have hDacc : ∀ key property, Step.setProperty key property ∈ stepsD →
        accessor user.AdditionalProperties property ≠ none := by
      intro key property hm
      obtain ⟨e, he, rfl⟩ := List.mem_map.mp (hDmem key property hm)
      exact hacc e he
    refine ⟨?_, ?_, ?_, ?_⟩
    · intro h
      obtain ⟨key, property, hm, ha⟩ := runSteps_typeAssertion _ _ _ _ h
      exact hRacc key property hm ha
    · intro h
      obtain ⟨key, property, hm, ha⟩ := runSteps_typeAssertion _ _ _ _ h
      exact hDacc key property hm ha
    · intro hset
      exact ⟨runSteps_returned_of_total _ hset _ _ _ hRacc,
        runSteps_returned_of_total _ hset _ _ _ hDacc⟩
    · intro hfake e he
      have hR := (runSteps_fakeSet user.AdditionalProperties d stepsR hRacc).2.2 e.1
      have hD := (runSteps_fakeSet user.AdditionalProperties (q.SetId id) stepsD hDacc).2.2 e.1
      rw [hRval e he] at hR
      rw [hDval e he] at hD
      have hget := accessor_getD user.AdditionalProperties e.2
      show (_ → ResourceData.attr (runSteps env.Set _ _ _).2 _ = _ ∧
        ResourceData.attr (runSteps env.Set _ _ _).2 _ = _) ∧ _
      rw [hfake, hR, hD]
      refine ⟨fun hnone => ?_, fun s hs => ?_⟩
      · rw [hget.1 hnone]
        exact ⟨rfl, rfl⟩
      · rw [hget.2 s hs]
        exact ⟨rfl, rfl⟩
  · intro e he v hv hns hset
    have ha : accessor user.AdditionalProperties e.2 = none :=
      (accessor_eq_none_iff _ _).mpr ⟨v, hv, hns⟩
    exact ⟨runSteps_typeAssertion_of_total _ hset _ _ _
        ⟨e.1, e.2, (hRmem e.1 e.2).mpr he, ha⟩,
      runSteps_typeAssertion_of_total _ hset _ _ _ ⟨e.1, e.2, hDall e he, ha⟩⟩
  · intro h
    have hsome : ∃ e ∈ userAdditionalProperties,
        accessor user.AdditionalProperties e.2 = none := by
      rcases h with h | h
      · obtain ⟨key, property, hm, ha⟩ := runSteps_typeAssertion _ _ _ _ h
        exact ⟨(key, property), (hRmem key property).mp hm, ha⟩
      · obtain ⟨key, property, hm, ha⟩ := runSteps_typeAssertion _ _ _ _ h
        obtain ⟨e, he, rfl⟩ := List.mem_map.mp (hDmem key property hm)
        exact ⟨e, he, ha⟩
    obtain ⟨e, he, ha⟩ := hsome
    obtain ⟨v, hv, hns⟩ := (accessor_eq_none_iff _ _).mp ha
    exact ⟨e, he, v, hv, hns⟩

/-- The reads of a user whose additional properties hold `jobTitle` = `CTO` and
nothing else: `job_title` is `CTO` and `department` the empty string. -/
theorem user_read_accessors_witness :
    ((userResourceReadAadGraph
        (fakeUsersAad (aadUserWithProperties [(go "jobTitle", .string (go "CTO"))])).toUsersAadEnv
        trackedUser).d.attr (go "job_title") = some (.string (go "CTO")) ∧
      (userDataSourceReadAadGraph
        (fakeUsersAad (aadUserWithProperties [(go "jobTitle", .string (go "CTO"))]))
        upnConfig).d.attr (go "job_title") = some (.string (go "CTO"))) ∧
    ((userResourceReadAadGraph
        (fakeUsersAad (aadUserWithProperties [(go "jobTitle", .string (go "CTO"))])).toUsersAadEnv
        trackedUser).d.attr (go "department") = some (.string []) ∧
      (userDataSourceReadAadGraph
        (fakeUsersAad (aadUserWithProperties [(go "jobTitle", .string (go "CTO"))]))
        upnConfig).d.attr (go "department") = some (.string [])) :=
  have h := (user_read_accessors
    (fakeUsersAad (aadUserWithProperties [(go "jobTitle", .string (go "CTO"))]))
    trackedUser upnConfig (aadUserWithProperties [(go "jobTitle", .string (go "CTO"))])
    (go "u1") rfl (Or.inl ⟨by decide, rfl⟩) rfl).1
    (fun e he => (accessor_ne_none_iff _ _).mp
      ((by decide : ∀ e ∈ userAdditionalProperties,
        accessor [(go "jobTitle", .string (go "CTO"))] e.2 ≠ none) e he))
  ⟨((h.2.2.2 rfl) (go "job_title", go "jobTitle") (by decide)).2 (go "CTO") (by decide),
   ((h.2.2.2 rfl) (go "department", go "department") (by decide)).1 (by decide)⟩

/-! ### Service principal lookup by display name -/

/-- The loop returns the first entry with the display name, at any split of the
list whose front part holds no such entry. -/
theorem firstByDisplayName_of_split (name : GoString) (pre post : List AadServicePrincipal)
    (sp : AadServicePrincipal) (hsp : sp.DisplayName = some name)
    (hpre : ∀ x ∈ pre, x.DisplayName ≠ some name) :
    firstByDisplayName name (pre ++ sp :: post) = some sp := by
  induction pre with
  | nil => simp [firstByDisplayName, hsp]
  | cons x rest ih =>
    have hx : x.DisplayName ≠ some name := hpre x (List.mem_cons_self _ _)
    have hrest : ∀ y ∈ rest, y.DisplayName ≠ some name :=
      fun y hy => hpre y (List.mem_cons_of_mem _ hy)
    cases hd : x.DisplayName with
    | none => simp [firstByDisplayName, hd, ih hrest]
    | some n =>
      have hn : n ≠ name := fun h => hx (by rw [hd, h])
      simp [firstByDisplayName, hd, hn, ih hrest]

theorem firstByDisplayName_eq_none (name : GoString) (sps : List AadServicePrincipal) :
    firstByDisplayName name sps = none ↔ ∀ x ∈ sps, x.DisplayName ≠ some name := by
  induction sps with
  | nil => simp [firstByDisplayName]
  | cons x rest ih =>
    cases hd : x.DisplayName with
    | none => simp [firstByDisplayName, hd, ih]
    | some n =>
      by_cases hn : n = name
      · simp [firstByDisplayName, hd, hn]
      · simp [firstByDisplayName, hd, hn, ih]

/-- Setting the attributes never yields the outcome of the not-found return. -/
theorem servicePrincipalDataSourceSet_ne (env : ServicePrincipalsAadEnv) (d : ResourceData)
    (sp : AadServicePrincipal) (calls : List Call) (format : GoString) (args : List GoString) :
    servicePrincipalDataSourceSetAadGraph env d sp calls ≠
      ⟨.returned (some (.ErrorDiagF none format args)), d, calls⟩ := by
  unfold servicePrincipalDataSourceSetAadGraph
  split
  · intro h
    simp at h
  · intro h
    have hc := congrArg Outcome.calls h
    simp at hc

/-- C23: in a lookup by display name (no `object_id`, the list call answered with
`value`), the service principal selected is the first entry in list order whose
display name is non-nil and equals the name, whatever follows it: the read sets the
handle to the object id of that entry (the only calls are the list call and that
`SetId`), returns nil diagnostics when no `tf.Set` fails, and with a `tf.Set` that
stores the values leaves the object id, application id and display name of that
entry in the resource data; when that entry has no object id the read returns the
`Bad API response` error. The read returns the not-found diagnostics, without
touching the resource data, if and only if no entry has the name. -/
theorem servicePrincipalDataSource_first_match (env : ServicePrincipalsAadEnv)
    (d : ResourceData) (value : List AadServicePrincipal)
    (hid : d.GetString (go "object_id") = [])
    (hname : d.GetString (go "display_name") ≠ [])
    (hlist : env.ListComplete (go "displayName eq '" ++ d.GetString (go "display_name")
      ++ go "'") = .ok (some value)) :
    (∀ pre sp post, value = pre ++ sp :: post →
      sp.DisplayName = some (d.GetString (go "display_name")) →
      (∀ x ∈ pre, x.DisplayName ≠ some (d.GetString (go "display_name"))) →
      (∀ id, sp.ObjectID = some id →
        (servicePrincipalDataSourceReadAadGraph env d).calls =
          [.List (go "displayName eq '" ++ d.GetString (go "display_name") ++ go "'"),
            .SetId id] ∧
        ((∀ r key v, ∃ r1, env.Set r key v = .ok r1) →
          (servicePrincipalDataSourceReadAadGraph env d).exit = .returned none) ∧
        (env.Set = fakeSet →
          (servicePrincipalDataSourceReadAadGraph env d).exit = .returned none ∧
          (servicePrincipalDataSourceReadAadGraph env d).d.id = id ∧
          (servicePrincipalDataSourceReadAadGraph env d).d.attr (go "object_id")
            = some (.stringPtr (some id)) ∧
          (servicePrincipalDataSourceReadAadGraph env d).d.attr (go "application_id")
            = some (.stringPtr sp.AppID) ∧
          (servicePrincipalDataSourceReadAadGraph env d).d.attr (go "display_name")
            = some (.stringPtr (some (d.GetString (go "display_name")))))) ∧
      (sp.ObjectID = none →
        servicePrincipalDataSourceReadAadGraph env d =
          ⟨.returned (some (.ErrorDiagF
            (some (.text (go "ObjectID returned for service principal is nil")))
            (go "Bad API response") [])), d,
            [.List (go "displayName eq '" ++ d.GetString (go "display_name") ++ go "'")]⟩)) ∧
    (servicePrincipalDataSourceReadAadGraph env d =
        ⟨.returned (some (.ErrorDiagF none
          (go "No service principal found matching display name: %q")
          [d.GetString (go "display_name")])), d,
          [.List (go "displayName eq '" ++ d.GetString (go "display_name") ++ go "'")]⟩ ↔
      ∀ x ∈ value, x.DisplayName ≠ some (d.GetString (go "display_name"))) := by
  have hrun : servicePrincipalDataSourceReadAadGraph env d =
      match firstByDisplayName (d.GetString (go "display_name")) value with
      | none =>
        ⟨.returned (some (.ErrorDiagF none
          (go "No service principal found matching display name: %q")
          [d.GetString (go "display_name")])), d,
          [.List (go "displayName eq '" ++ d.GetString (go "display_name") ++ go "'")]⟩
      | some sp => servicePrincipalDataSourceSetAadGraph env d sp
          [.List (go "displayName eq '" ++ d.GetString (go "display_name") ++ go "'")] := by
    simp only [servicePrincipalDataSourceReadAadGraph, hid, hname, ne_eq, not_true_eq_false,
      not_false_eq_true, if_true, if_false, hlist]
  constructor
  · intro pre sp post hsplit hsp hpre
    rw [hrun, hsplit, firstByDisplayName_of_split _ pre post sp hsp hpre]
    constructor
    · intro id hobj
      simp only [servicePrincipalDataSourceSetAadGraph, hobj, hsp]
      refine ⟨rfl, ?_, ?_⟩
      · intro hset
        exact runSteps_returned_of_total env.Set hset [] _ _ (by simp)
      · intro hfake
        rw [hfake]
        have hsteps := runSteps_fakeSet [] (d.SetId id)
          [.set (go "object_id") (.stringPtr (some id)),
           .set (go "application_id") (.stringPtr sp.AppID),
           .set (go "display_name") (.stringPtr (some (d.GetString (go "display_name")))),
           .set (go "app_roles") (.flattened (go "aadgraph.FlattenAppRoles") (.sdk sp.AppRoles)),
           .set (go "oauth2_permissions")
             (.flattened (go "aadgraph.FlattenOauth2Permissions") (.sdk sp.Oauth2Permissions))]
          (by simp)
        refine ⟨hsteps.1, hsteps.2.1, ?_, ?_, ?_⟩
        · rw [hsteps.2.2]; rfl
        · rw [hsteps.2.2]; rfl
        · rw [hsteps.2.2]; rfl
    · intro hobj
      simp only [servicePrincipalDataSourceSetAadGraph, hobj]
  · rw [hrun, ← firstByDisplayName_eq_none]
    cases hf : firstByDisplayName (d.GetString (go "display_name")) value with
    | none => simp
    | some sp =>
      simp only [reduceCtorEq, iff_false]
      exact servicePrincipalDataSourceSet_ne env d sp _ _ _

/-- The lookup of `app` in a list with two entries of that name selects the first:
the handle is set to `o1`. -/
theorem servicePrincipalDataSource_first_match_witness :
    (servicePrincipalDataSourceReadAadGraph
        (fakeServicePrincipalsAad [servicePrincipalOf "o0" "other", servicePrincipalOf "o1" "app",
          servicePrincipalOf "o2" "app"]) displayNameConfig).calls =
      [.List (go "displayName eq '" ++ displayNameConfig.GetString (go "display_name")
        ++ go "'"), .SetId (go "o1")] ∧
    (servicePrincipalDataSourceReadAadGraph
        (fakeServicePrincipalsAad [servicePrincipalOf "o0" "other", servicePrincipalOf "o1" "app",
          servicePrincipalOf "o2" "app"]) displayNameConfig).exit = .returned none ∧
    (servicePrincipalDataSourceReadAadGraph
        (fakeServicePrincipalsAad [servicePrincipalOf "o0" "other", servicePrincipalOf "o1" "app",
          servicePrincipalOf "o2" "app"]) displayNameConfig).d.id = go "o1" :=
  have h := ((servicePrincipalDataSource_first_match
    (fakeServicePrincipalsAad [servicePrincipalOf "o0" "other", servicePrincipalOf "o1" "app",
      servicePrincipalOf "o2" "app"]) displayNameConfig _ (by decide) (by decide) rfl).1
    [servicePrincipalOf "o0" "other"] (servicePrincipalOf "o1" "app")
    [servicePrincipalOf "o2" "app"] rfl (by decide) (by decide)).1 (go "o1") rfl
  ⟨h.1, (h.2.2 rfl).1, (h.2.2 rfl).2.1⟩

/-! ### User create -/

theorem head?_splitByte (sep : UInt8) (s : GoString) :
    (splitByte sep s).head? = some (s.takeWhile (fun c => c != sep)) := by
  induction s with
  | nil => rfl
  | cons c rest ih =>
    rw [splitByte]
    split
    · rename_i heq
      exact absurd heq (splitByte_ne_nil sep rest)
    · rename_i part parts heq
      rw [heq] at ih
      simp only [List.head?_cons, Option.some.injEq] at ih
      by_cases hc : c = sep
      · simp [hc]
      · simp [hc, ih]

/-- The steps of a read never end on an index out of range. -/
theorem runSteps_exit (set : ResourceData → GoString → Value → Except Diag ResourceData)
    (props : DynMap) (d : ResourceData) (steps : List Step) :
    (runSteps set props d steps).1 ≠ .indexOutOfRange := by
  induction steps generalizing d with
  | nil => simp [runSteps]
  | cons step rest ih =>
    cases step with
    | set key value =>
      simp only [runSteps]
      split
      · simp
      · exact ih _
    | setProperty key property =>
      simp only [runSteps]
      split
      · split
        · simp
        · exact ih _
      · split
        · simp
        · exact ih _
      · simp

theorem userResourceRead_exit (env : UsersAadEnv) (d : ResourceData) :
    (userResourceReadAadGraph env d).exit ≠ .indexOutOfRange := by
  simp only [userResourceReadAadGraph]
  rcases h : env.Get d.id with ⟨user, err⟩
  cases err with
  | none => exact runSteps_exit _ _ _ _
  | some err =>
    by_cases hnf : ResponseWasNotFound user.Response = true <;> simp [hnf]

/-- C25: in the create of a user, the mail nickname sent to the backend is, when
`mail_nickname` is empty, the part of the user principal name before its first `@`
(the whole name when it holds no `@`), and `mail_nickname` unchanged otherwise;
the parameters exist for every user principal name, the empty one included, so the
index expression `strings.Split(upn, "@")[0]` is never out of range, and `Create`
with these parameters is the first call. -/
theorem userResourceCreate_mail_nickname (env : UsersAadWriteEnv) (d : ResourceData) :
    (∃ parameters, userCreateParameters d = some parameters ∧
      parameters.MailNickname = some
        (if d.GetString (go "mail_nickname") = [] then
          (d.GetString (go "user_principal_name")).takeWhile (fun c => c != ch '@')
        else d.GetString (go "mail_nickname")) ∧
      ∃ rest, (userResourceCreateAadGraph env d).calls = .Create parameters :: rest) ∧
    (userResourceCreateAadGraph env d).exit ≠ .indexOutOfRange := by
  have hnick : (if d.GetString (go "mail_nickname") = [] then
        (splitByte (ch '@') (d.GetString (go "user_principal_name"))).head?
      else some (d.GetString (go "mail_nickname"))) =
      some (if d.GetString (go "mail_nickname") = [] then
          (d.GetString (go "user_principal_name")).takeWhile (fun c => c != ch '@')
        else d.GetString (go "mail_nickname")) := by
    by_cases h : d.GetString (go "mail_nickname") = []
    · simp only [h, if_true, head?_splitByte]
    · simp only [h, if_false]
  have hparams : ∃ parameters, userCreateParameters d = some parameters ∧
      parameters.MailNickname = some
        (if d.GetString (go "mail_nickname") = [] then
          (d.GetString (go "user_principal_name")).takeWhile (fun c => c != ch '@')
        else d.GetString (go "mail_nickname")) := by
    unfold userCreateParameters
    simp only [hnick]
    exact ⟨_, rfl, rfl⟩
  obtain ⟨parameters, hp, hm⟩ := hparams
  have hrun : (∃ rest, (userResourceCreateAadGraph env d).calls = .Create parameters :: rest) ∧
      (userResourceCreateAadGraph env d).exit ≠ .indexOutOfRange := by
    unfold userResourceCreateAadGraph
    simp only [hp]
    split
    · exact ⟨⟨[], rfl⟩, by simp⟩
    · split
      · exact ⟨⟨[], rfl⟩, by simp⟩
      · split
        · exact ⟨⟨[], rfl⟩, by simp⟩
        · split
          · exact ⟨⟨_, rfl⟩, by simp⟩
          · exact ⟨⟨_, rfl⟩, userResourceRead_exit _ _⟩
  exact ⟨⟨parameters, hp, hm, hrun.1⟩, hrun.2⟩

/-- The create parameters of `newUserConfig`, whose mail nickname is `jdoe`. -/
theorem userResourceCreate_mail_nickname_witness :
    (∃ parameters, userCreateParameters newUserConfig = some parameters ∧
      parameters.MailNickname = some
        (if newUserConfig.GetString (go "mail_nickname") = [] then
          (newUserConfig.GetString (go "user_principal_name")).takeWhile (fun c => c != ch '@')
        else newUserConfig.GetString (go "mail_nickname")) ∧
      ∃ rest, (userResourceCreateAadGraph (fakeUsersAadWrite (aadUserWithProperties []) [])
        newUserConfig).calls = .Create parameters :: rest) ∧
    (newUserConfig.GetString (go "user_principal_name")).takeWhile (fun c => c != ch '@')
      = go "jdoe" :=
  ⟨(userResourceCreate_mail_nickname (fakeUsersAadWrite (aadUserWithProperties []) [])
      newUserConfig).1, by decide⟩

/-! ### User update -/

theorem put_ne_nil (key : GoString) (v : Dyn) (m : DynMap) : DynMap.put key v m ≠ [] := by
  cases m with
  | nil => simp [DynMap.put]
  | cons e rest =>
    obtain ⟨k, w⟩ := e
    by_cases h : k = key <;> simp [DynMap.put, h]

/-- A property outside the table is left as it was. -/
theorem lookup_collectProperties_of_not_mem (test : GoString → Bool) (d : ResourceData)
    (table : List (GoString × GoString)) (m : DynMap) (property : GoString)
    (h : property ∉ table.map (·.2)) :
    DynMap.lookup (collectProperties test d table m) property = DynMap.lookup m property := by
  induction table generalizing m with
  | nil => rfl
  | cons e rest ih =>
    obtain ⟨name, p⟩ := e
    have hp : property ≠ p := fun hp => h (by simp [hp])
    have hrest : property ∉ rest.map (·.2) := fun hr => h (by simp at hr ⊢; exact Or.inr hr)
    rw [collectProperties, ih _ hrest]
    by_cases ht : test name = true
    · simp [ht, lookup_put, hp]
    · simp [ht]

/-- In a table of distinct property keys, the property of an entry is assigned
exactly when the test on its attribute holds. -/
theorem lookup_collectProperties (test : GoString → Bool) (d : ResourceData)
    (table : List (GoString × GoString)) (m : DynMap) (hnodup : (table.map (·.2)).Nodup)
    (e : GoString × GoString) (he : e ∈ table) :
    DynMap.lookup (collectProperties test d table m) e.2 =
      if test e.1 = true then some (.string (d.GetString e.1)) else DynMap.lookup m e.2 := by
  induction table generalizing m with
  | nil => simp at he
  | cons x rest ih =>
    obtain ⟨name, p⟩ := x
    simp only [List.map_cons, List.nodup_cons] at hnodup
    rw [collectProperties]
    rcases List.mem_cons.mp he with rfl | hrest
    · rw [lookup_collectProperties_of_not_mem _ _ _ _ _ hnodup.1]
      by_cases ht : test name = true
      · simp [ht, lookup_put]
      · simp [ht]
    · rw [ih _ hnodup.2 hrest]
      have hp : e.2 ≠ p := by
        intro hp
        apply hnodup.1
        rw [← hp]
        exact List.mem_map_of_mem _ hrest
      by_cases ht : test name = true
      · simp [ht, lookup_put, hp]
      · simp [ht]

/-- The map collected is empty exactly when it started empty and no test held. -/
theorem collectProperties_eq_nil (test : GoString → Bool) (d : ResourceData)
    (table : List (GoString × GoString)) (m : DynMap) :
    collectProperties test d table m = [] ↔ m = [] ∧ ∀ e ∈ table, test e.1 = false := by
  induction table generalizing m with
  | nil => simp [collectProperties]
  | cons x rest ih =>
    obtain ⟨name, p⟩ := x
    rw [collectProperties, ih]
    by_cases ht : test name = true
    · simp [ht, put_ne_nil]
    · simp [ht]

/-- C24: the update of a user sends a delta: each typed parameter is set exactly
when its attribute changed (to the attribute's value), the password profile exactly
when `password` changed, each additional property key is present exactly when its
attribute changed, the additional-properties map is left unset exactly when none
of them changed, and `Update` with these parameters is the first call. -/
theorem userResourceUpdate_delta (env : UsersAadWriteEnv) (d : ResourceData) :
    (userUpdateParameters env d).DisplayName =
      (if env.HasChange (go "display_name") then some (d.GetString (go "display_name"))
        else none) ∧
    (userUpdateParameters env d).GivenName =
      (if env.HasChange (go "given_name") then some (d.GetString (go "given_name")) else none) ∧
    (userUpdateParameters env d).Surname =
      (if env.HasChange (go "surname") then some (d.GetString (go "surname")) else none) ∧
    (userUpdateParameters env d).MailNickname =
      (if env.HasChange (go "mail_nickname") then some (d.GetString (go "mail_nickname"))
        else none) ∧
    (userUpdateParameters env d).AccountEnabled =
      (if env.HasChange (go "account_enabled") then some (d.GetBool (go "account_enabled"))
        else none) ∧
    (userUpdateParameters env d).UsageLocation =
      (if env.HasChange (go "usage_location") then some (d.GetString (go "usage_location"))
        else none) ∧
    (userUpdateParameters env d).ImmutableID =
      (if env.HasChange (go "immutable_id") then some (d.GetString (go "immutable_id"))
        else none) ∧
    ((userUpdateParameters env d).PasswordProfile ≠ none ↔ env.HasChange (go "password") = true) ∧
    (∀ e ∈ userAdditionalProperties,
      DynMap.lookup ((userUpdateParameters env d).AdditionalProperties.getD []) e.2 =
        if env.HasChange e.1 = true then some (.string (d.GetString e.1)) else none) ∧
    ((userUpdateParameters env d).AdditionalProperties = none ↔
      ∀ e ∈ userAdditionalProperties, env.HasChange e.1 = false) ∧
    (∃ rest, (userResourceUpdateAadGraph env d).calls
      = .Update d.id (userUpdateParameters env d) :: rest) := by
  have hnodup : (userAdditionalProperties.map (·.2)).Nodup := by decide
  have hnil := collectProperties_eq_nil env.HasChange d userAdditionalProperties []
  simp only [true_and] at hnil
  refine ⟨rfl, rfl, rfl, rfl, rfl, rfl, rfl, ?_, ?_, ?_, ?_⟩
  · simp only [userUpdateParameters]
    cases env.HasChange (go "password") <;> simp
  · intro e he
    have hlook := lookup_collectProperties env.HasChange d userAdditionalProperties [] hnodup e he
    by_cases hempty : collectProperties env.HasChange d userAdditionalProperties [] = []
    · have hall := hnil.mp hempty e he
      simp [userUpdateParameters, hempty, hall, DynMap.lookup]
    · have hpos : 0 < (collectProperties env.HasChange d userAdditionalProperties []).length :=
        List.length_pos.mpr hempty
      simp only [userUpdateParameters, gt_iff_lt, hpos, if_true, Option.getD_some, hlook]
      simp [DynMap.lookup]
  · rw [← hnil]
    simp only [userUpdateParameters, gt_iff_lt]
    by_cases hempty : collectProperties env.HasChange d userAdditionalProperties [] = []
    · simp [hempty]
    · have hpos : 0 < (collectProperties env.HasChange d userAdditionalProperties []).length :=
        List.length_pos.mpr hempty
      simp [hpos, hempty]
  · simp only [userResourceUpdateAadGraph]
    split
    · exact ⟨[], rfl⟩
    · exact ⟨_, rfl⟩

theorem userResourceUpdate_delta_witness :
    (userUpdateParameters
        (fakeUsersAadWrite (aadUserWithProperties []) [go "display_name", go "job_title"])
        newUserConfig) =
      { DisplayName := some (go "J. Doe"), GivenName := none, Surname := none,
        MailNickname := none, AccountEnabled := none, PasswordProfile := none,
        UsageLocation := none, ImmutableID := none,
        AdditionalProperties := some [(go "jobTitle", .string (go "CTO"))] } ∧
    DynMap.lookup ((userUpdateParameters
        (fakeUsersAadWrite (aadUserWithProperties []) [go "display_name", go "job_title"])
        newUserConfig).AdditionalProperties.getD []) (go "jobTitle") =
      (if (fakeUsersAadWrite (aadUserWithProperties [])
          [go "display_name", go "job_title"]).HasChange (go "job_title") = true then
        some (.string (newUserConfig.GetString (go "job_title"))) else none) :=
  ⟨by decide,
   (userResourceUpdate_delta
      (fakeUsersAadWrite (aadUserWithProperties []) [go "display_name", go "job_title"])
      newUserConfig).2.2.2.2.2.2.2.2.1 (go "job_title", go "jobTitle") (by decide)⟩

end Azuread
